import Mathlib

/-!
# Service worker cache: Put / Match / Delete pipelines and Vary matching

A shallow embedding of `content/browser/service_worker/service_worker_cache.cc`.
Asynchronous completions are modelled by the value the completion callback is
run with; every callback of the source is a function of the same name that
takes that value.  State that the source mutates through pointers (the
backend's entries, the quota proxy, the blob storage context) is passed
explicitly and returned.
-/

namespace content

/-! ## Byte strings and net error codes -/

/-- A buffer of bytes (the contents of an `IOBuffer` or of an entry stream). -/
abbrev Bytes := List Nat

namespace net

/-- The value `net::OK`. -/
def OK : Int := 0

/-- The value `net::ERR_IO_PENDING`. -/
def ERR_IO_PENDING : Int := -1

/-- The value `net::ERR_FAILED`. -/
def ERR_FAILED : Int := -2

end net

/-- The two streams of a cache entry (`enum EntryIndex`). -/
inductive EntryIndex where
  | INDEX_HEADERS
  | INDEX_RESPONSE_BODY
  deriving DecidableEq, Repr

/-- The constant `kBufferSize`: buffer size for cache and blob reading/writing. -/
def kBufferSize : Nat := 1024 * 512

/-- The constant `kMaxCacheBytes`: the maximum size of an individual cache. -/
def kMaxCacheBytes : Nat := 512 * 1024 * 1024

/-! ## Header maps -/

/-- Modelled from the spec: the comparator of `ServiceWorkerHeaderMap`
(declared in `service_worker_types.h`, which is not among the sources).  The
spec makes header-name lookups case-insensitive; a character is folded to its
ASCII lower-case code. -/
def toLowerASCII (c : Char) : Nat :=
  if 65 ≤ c.toNat ∧ c.toNat ≤ 90 then c.toNat + 32 else c.toNat

/-- The case-folded codes of a header name. -/
def foldCase (s : String) : List Nat := s.data.map toLowerASCII

/-- Lexicographic "less than" on code sequences. -/
def lexLess : List Nat → List Nat → Bool
  | [], [] => false
  | [], _ :: _ => true
  | _ :: _, [] => false
  | a :: as, b :: bs => if a < b then true else if b < a then false else lexLess as bs

/-- Modelled from the spec: the strict weak order of the header map, a
case-insensitive comparison of the two names. -/
def ServiceWorkerCaseInsensitiveCompare (lhs rhs : String) : Bool :=
  lexLess (foldCase lhs) (foldCase rhs)

/-- Two names are the same key of the map when neither is less than the other. -/
def sameKey (a b : String) : Bool :=
  !ServiceWorkerCaseInsensitiveCompare a b && !ServiceWorkerCaseInsensitiveCompare b a

/-- Modelled from the spec: `ServiceWorkerHeaderMap`, a `std::map` from header
name to value under the case-insensitive comparator (its declaration is not
among the sources).  The elements are kept in iteration order. -/
structure ServiceWorkerHeaderMap where
  entries : List (String × String)
  deriving DecidableEq, Repr

namespace ServiceWorkerHeaderMap

/-- The empty map. -/
def empty : ServiceWorkerHeaderMap := ⟨[]⟩

/-- The invariant of a `std::map`: strictly increasing keys. -/
def WellFormed (m : ServiceWorkerHeaderMap) : Prop :=
  m.entries.Pairwise (fun a b => ServiceWorkerCaseInsensitiveCompare a.1 b.1 = true)

instance (m : ServiceWorkerHeaderMap) : Decidable m.WellFormed := by
  unfold WellFormed; infer_instance

/-- The call `map.find(name)`: the mapped value of the element whose key is
`name`, `none` for `end()`. -/
def find (m : ServiceWorkerHeaderMap) (name : String) : Option String :=
  (m.entries.find? (fun e => sameKey e.1 name)).map Prod.snd

/-- Insertion of an element at its place in the order; an element whose key
is already present is left as it is (`std::map::insert`). -/
def insertEntries (name value : String) : List (String × String) → List (String × String)
  | [] => [(name, value)]
  | e :: rest =>
    if ServiceWorkerCaseInsensitiveCompare name e.1 then (name, value) :: e :: rest
    else if ServiceWorkerCaseInsensitiveCompare e.1 name then e :: insertEntries name value rest
    else e :: rest

/-- The call `map.insert(std::make_pair(name, value))`. -/
def insert (m : ServiceWorkerHeaderMap) (name value : String) : ServiceWorkerHeaderMap :=
  ⟨insertEntries name value m.entries⟩

/-- Assignment through `operator[]`: the element is created when absent and
its value overwritten when present. -/
def assignEntries (name value : String) : List (String × String) → List (String × String)
  | [] => [(name, value)]
  | e :: rest =>
    if ServiceWorkerCaseInsensitiveCompare name e.1 then (name, value) :: e :: rest
    else if ServiceWorkerCaseInsensitiveCompare e.1 name then e :: assignEntries name value rest
    else (e.1, value) :: rest

/-- The statement `map[name] = value`. -/
def assign (m : ServiceWorkerHeaderMap) (name value : String) : ServiceWorkerHeaderMap :=
  ⟨assignEntries name value m.entries⟩

end ServiceWorkerHeaderMap

/-! ## String helpers used by the Vary check -/

/-- The pieces of a character sequence between commas. -/
def splitOnComma : List Char → List (List Char)
  | [] => [[]]
  | c :: cs =>
    if c = ',' then [] :: splitOnComma cs
    else
      match splitOnComma cs with
      | [] => [[c]]
      | t :: ts => (c :: t) :: ts

/-- Modelled from the spec: `Tokenize(str, ",", &tokens)` of
`base/strings/string_util.h` (not among the sources): the value is split on
commas; a tokenizer yields the non-empty pieces. -/
def Tokenize (str : String) : List String :=
  ((splitOnComma str.data).filter (fun t => !t.isEmpty)).map String.mk

/-- The characters of `kWhitespaceASCII`. -/
def isWhitespaceASCII (c : Char) : Bool :=
  c.toNat = 9 || c.toNat = 10 || c.toNat = 11 || c.toNat = 12 || c.toNat = 13 || c.toNat = 32

/-- Modelled from the spec: `base::TrimWhitespaceASCII(input, base::TRIM_ALL,
&output)` (not among the sources): leading and trailing ASCII whitespace is
removed. -/
def TrimWhitespaceASCII (input : String) : String :=
  String.mk ((input.data.dropWhile isWhitespaceASCII).reverse.dropWhile isWhitespaceASCII).reverse

/-! ## Vary matching -/

/-- The body of the `for` loop of `VaryMatches` over the tokens that are left. -/
def VaryMatchesLoop (request cached_request : ServiceWorkerHeaderMap) : List String → Bool
  | [] => true
  | tok :: rest =>
    let trimmed := TrimWhitespaceASCII tok
    if trimmed = "*" then false
    else
      let request_iter := request.find trimmed
      let cached_request_iter := cached_request.find trimmed
      -- If the header exists in one but not the other, no match.
      if request_iter.isNone != cached_request_iter.isNone then false
      -- If the header exists in one, it exists in both. Verify that the values
      -- are equal.
      else if request_iter.isSome && request_iter != cached_request_iter then false
      else VaryMatchesLoop request cached_request rest

/-- The function `VaryMatches(request, cached_request, response)`. -/
def VaryMatches (request cached_request response : ServiceWorkerHeaderMap) : Bool :=
  match response.find "vary" with
  | none => true
  | some vary => VaryMatchesLoop request cached_request (Tokenize vary)

/-! ## Requests, responses and the stored metadata -/

/-- The enumeration `blink::WebServiceWorkerResponseType`. -/
inductive WebServiceWorkerResponseType where
  | Basic
  | CORS
  | Default
  | Error
  | Opaque
  deriving DecidableEq, Repr

/-- The enumeration `ServiceWorkerRequestResponseHeaders_ResponseType` of the
metadata record. -/
inductive ProtoResponseType where
  | BASIC_TYPE
  | CORS_TYPE
  | DEFAULT_TYPE
  | ERROR_TYPE
  | OPAQUE_TYPE
  deriving DecidableEq, Repr

/-- The function `ProtoResponseTypeToWebResponseType`. -/
def ProtoResponseTypeToWebResponseType : ProtoResponseType → WebServiceWorkerResponseType
  | .BASIC_TYPE => .Basic
  | .CORS_TYPE => .CORS
  | .DEFAULT_TYPE => .Default
  | .ERROR_TYPE => .Error
  | .OPAQUE_TYPE => .Opaque

/-- The function `WebResponseTypeToProtoResponseType`. -/
def WebResponseTypeToProtoResponseType : WebServiceWorkerResponseType → ProtoResponseType
  | .Basic => .BASIC_TYPE
  | .CORS => .CORS_TYPE
  | .Default => .DEFAULT_TYPE
  | .Error => .ERROR_TYPE
  | .Opaque => .OPAQUE_TYPE

/-- The error kinds `ServiceWorkerCache::ErrorType`. -/
inductive ErrorType where
  | ErrorTypeOK
  | ErrorTypeExists
  | ErrorTypeStorage
  | ErrorTypeNotFound
  deriving DecidableEq, Repr

/-- Modelled from the spec: `ServiceWorkerFetchRequest` (declared in
`service_worker_types.h`, not among the sources); `url` is the spec of the
request's GURL. -/
structure ServiceWorkerFetchRequest where
  url : String
  method : String
  headers : ServiceWorkerHeaderMap
  referrer : String
  is_reload : Bool
  deriving DecidableEq, Repr

/-- Modelled from the spec: `ServiceWorkerResponse` (declared in
`service_worker_types.h`, not among the sources).  An empty `blob_uuid` is a
response without a body. -/
structure ServiceWorkerResponse where
  url : String
  status_code : Int
  status_text : String
  response_type : WebServiceWorkerResponseType
  headers : ServiceWorkerHeaderMap
  blob_uuid : String
  blob_size : Int
  deriving DecidableEq, Repr

/-- The metadata record `ServiceWorkerRequestResponseHeaders`: the fields the
source sets and reads. -/
structure ServiceWorkerRequestResponseHeaders where
  method : String
  status_code : Int
  status_text : String
  response_type : ProtoResponseType
  request_headers : List (String × String)
  response_headers : List (String × String)
  deriving DecidableEq, Repr

/-- Modelled from the spec: the metadata codec, generated from
`service_worker_cache.proto` (not among the sources).  It is a parameter of
the pipelines: `SerializeToString` may fail, `ParseFromArray` may reject. -/
structure MetadataCodec where
  SerializeToString : ServiceWorkerRequestResponseHeaders → Option Bytes
  ParseFromArray : Bytes → Option ServiceWorkerRequestResponseHeaders

/-- The codec decodes what it encoded. -/
def MetadataCodec.RoundTrips (pb : MetadataCodec) : Prop :=
  ∀ h b, pb.SerializeToString h = some b → pb.ParseFromArray b = some h

/-! ## The entry store -/

/-- Modelled from the spec: an entry of the backing store (`disk_cache::Entry`,
not among the sources): a key and two byte streams. -/
structure Entry where
  key : String
  headers_stream : Bytes
  body_stream : Bytes
  deriving DecidableEq, Repr

namespace Entry

/-- The stream with a given index. -/
def stream (e : Entry) : EntryIndex → Bytes
  | .INDEX_HEADERS => e.headers_stream
  | .INDEX_RESPONSE_BODY => e.body_stream

/-- The call `entry->GetDataSize(index)`. -/
def GetDataSize (e : Entry) (index : EntryIndex) : Int := ((e.stream index).length : Int)

/-- The bytes a `ReadData(index, offset, buf, buf_len)` puts into the buffer
when the store reads all it can. -/
def ReadData (e : Entry) (index : EntryIndex) (offset buf_len : Nat) : Bytes :=
  ((e.stream index).drop offset).take buf_len

/-- The contents of a stream after `buf` is written at `offset`: with
`truncate` the stream ends where the write ends. -/
def writeAt (old : Bytes) (offset : Nat) (buf : Bytes) (truncate : Bool) : Bytes :=
  old.take offset ++ List.replicate (offset - old.length) 0 ++ buf ++
    (if truncate then [] else old.drop (offset + buf.length))

/-- The entry after a write to one of its streams. -/
def setStream (e : Entry) (index : EntryIndex) (bytes : Bytes) : Entry :=
  match index with
  | .INDEX_HEADERS => { e with headers_stream := bytes }
  | .INDEX_RESPONSE_BODY => { e with body_stream := bytes }

end Entry

/-- Modelled from the spec: the backing store (`disk_cache::Backend`, not
among the sources): its entries, in the order its iterator enumerates them,
at most one per key.  An open entry is named by its key. -/
structure Backend where
  entries : List Entry
  deriving DecidableEq, Repr

namespace Backend

/-- The entry that `OpenEntry(key)` opens, `none` when there is none. -/
def OpenEntry (b : Backend) (key : String) : Option Entry :=
  b.entries.find? (fun e => e.key = key)

/-- The entry is doomed: no later open finds it. -/
def Doom (b : Backend) (key : String) : Backend :=
  ⟨b.entries.filter (fun e => e.key ≠ key)⟩

/-- Modelled from the spec: a successful `CreateEntry(key)`: "the store itself
enforces at-most-one-entry-per-key and dooms/replaces the previous one"; the
new entry has two empty streams. -/
def CreateEntry (b : Backend) (key : String) : Backend :=
  ⟨(b.Doom key).entries ++ [⟨key, [], []⟩]⟩

/-- The write `entry->WriteData(index, offset, buf, buf_len, callback,
truncate)` on the entry named `key`, and the value it completes with.  With
`forced = none` the store writes the whole buffer and completes with its
length; with `forced = some rv` it completes with `rv`, having written the
first `rv` bytes of the buffer (none when `rv` is negative). -/
def WriteData (b : Backend) (key : String) (index : EntryIndex) (offset : Nat) (buf : Bytes)
    (truncate : Bool) (forced : Option Int) : Backend × Int :=
  match forced with
  | none =>
    (⟨b.entries.map (fun e =>
        if e.key = key then e.setStream index (Entry.writeAt (e.stream index) offset buf truncate)
        else e)⟩, (buf.length : Int))
  | some rv =>
    if rv < 0 then (b, rv)
    else
      (⟨b.entries.map (fun e =>
          if e.key = key then
            e.setStream index (Entry.writeAt (e.stream index) offset (buf.take rv.toNat) truncate)
          else e)⟩, rv)

end Backend

/-! ## Blob storage and quota -/

/-- Modelled from the spec: a handle to a blob (`storage::BlobDataHandle`, not
among the sources): the blob's uuid and its bytes. -/
structure BlobDataHandle where
  uuid : String
  data : Bytes
  deriving DecidableEq, Repr

/-- Modelled from the spec: the blob store (`storage::BlobStorageContext`,
not among the sources): the blobs it can resolve. -/
structure BlobStorageContext where
  blobs : List BlobDataHandle
  deriving DecidableEq, Repr

namespace BlobStorageContext

/-- The call `GetBlobDataFromUUID(uuid)`: a handle, or null. -/
def GetBlobDataFromUUID (ctx : BlobStorageContext) (uuid : String) : Option BlobDataHandle :=
  ctx.blobs.find? (fun h => h.uuid = uuid)

/-- The call `AddFinishedBlob(blob_data)`: the blob is registered and a
handle to it returned. -/
def AddFinishedBlob (ctx : BlobStorageContext) (blob_data : BlobDataHandle) :
    BlobStorageContext × BlobDataHandle :=
  (⟨ctx.blobs ++ [blob_data]⟩, blob_data)

end BlobStorageContext

/-- Modelled from the spec: the quota accountant (`storage::QuotaManagerProxy`,
not among the sources): the `(origin, delta)` pairs it was notified of so far
by `NotifyStorageModified`, oldest first. -/
structure QuotaManagerProxy where
  notifications : List (String × Int)
  deriving DecidableEq, Repr

/-- The call `NotifyStorageModified(kServiceWorkerCache, origin,
kStorageTypeTemporary, delta)`. -/
def QuotaManagerProxy.NotifyStorageModified (q : QuotaManagerProxy) (origin : String)
    (delta : Int) : QuotaManagerProxy :=
  ⟨q.notifications ++ [(origin, delta)]⟩

/-! ## What the collaborators deliver during one operation -/

/-- Why the store did not create an entry. -/
inductive CreateFailure where
  /-- A live conflicting operation on the same key. -/
  | conflict
  /-- Any other failure of the store. -/
  | other
  deriving DecidableEq, Repr

/-- The value `CreateEntry` completes with on a failure; the source tests it
against `net::OK` only. -/
def CreateFailure.rv : CreateFailure → Int
  | .conflict => net.ERR_FAILED
  | .other => -405

/-- The outcome of `disk_cache::CreateCacheBackend`. -/
inductive BackendCreation where
  /-- It returned `ERR_IO_PENDING`; the completion comes later. -/
  | pending
  /-- It completed with a value other than `net::OK`. -/
  | failed (rv : Int)
  /-- It completed with `net::OK` and this backend. -/
  | created (backend : Backend)
  deriving DecidableEq, Repr

/-- The behaviour of the collaborators during one operation.  The default
values are a store and a blob source whose operations all succeed.  A step
that is numbered is counted from 0 within the operation. -/
structure Outcomes where
  /-- How backend creation ends, if this operation starts it. -/
  create_backend : BackendCreation := .pending
  /-- The failure of `CreateEntry`, if it fails. -/
  create_entry : Option CreateFailure := none
  /-- Whether `OpenEntry` fails although an entry may be stored. -/
  open_entry_fails : Bool := false
  /-- The value the write of the metadata completes with, if not its length. -/
  write_headers : Option Int := none
  /-- The values the writes of the body complete with, by number. -/
  write_body : List (Option Int) := []
  /-- The number of chunks the blob source delivers before it fails. -/
  blob_read_failure : Option Nat := none
  /-- The values the reads of the metadata complete with, by entry number. -/
  read_headers : List (Option Int) := []
  /-- The values the reads of the body complete with, by number. -/
  read_body : List (Option Int) := []
  /-- The result of `base::GenerateGUID()`. -/
  guid : String := "guid"
  /-- The number of the enumeration step that fails, and its value. -/
  iterator_error : Option (Nat × Int) := none
  /-- The enumeration step before whose completion `Close()` runs. -/
  close_at : Option Nat := none
  deriving DecidableEq, Repr

/-- The collaborators as the callbacks of one pipeline see them. -/
structure Collaborators where
  backend : Backend
  quota_manager_proxy : Option QuotaManagerProxy
  blob_storage : Option BlobStorageContext
  deriving DecidableEq, Repr

/-- The arguments a `ResponseCallback` is run with. -/
structure ResponseCallbackArgs where
  error : ErrorType
  response : Option ServiceWorkerResponse
  blob_data_handle : Option BlobDataHandle
  deriving DecidableEq, Repr

/-- A run of a result callback, with its arguments. -/
inductive CallbackRun where
  /-- A `ResponseCallback` (Put, Match). -/
  | response (args : ResponseCallbackArgs)
  /-- An `ErrorCallback` (Delete). -/
  | error (error : ErrorType)
  /-- A `RequestsCallback` (Keys). -/
  | requests (error : ErrorType) (keys : Option (List ServiceWorkerFetchRequest))
  deriving DecidableEq, Repr


/-! ## Streaming a blob into an entry (`BlobReader`) -/

/-- The buffers a reader with a buffer of `n` bytes gets from a source that
fills the buffer whenever it can; `cur` is the part of the current buffer
filled so far. -/
def chunksAux (n : Nat) : Bytes → Bytes → List Bytes
  | [], cur => if cur.isEmpty then [] else [cur]
  | b :: bs, cur =>
    if cur.length + 1 = n then (cur ++ [b]) :: chunksAux n bs []
    else chunksAux n bs (cur ++ [b])

/-- One completion of a read from the blob request. -/
inductive BlobRead where
  /-- The request's status is success and the buffer holds these bytes. -/
  | data (chunk : Bytes)
  /-- The request's status is not success. -/
  | failure
  deriving DecidableEq, Repr

/-- Modelled from the spec: the completions delivered by the blob request
(`storage::BlobProtocolHandler::CreateBlobRequest`, not among the sources)
that reads `blob` through a buffer of `kBufferSize` bytes: its bytes in
order; after the last of them a read of zero bytes (the end of the list), or
a failure after `fail_after` buffers. -/
def blobReads (blob : BlobDataHandle) (fail_after : Option Nat) : List BlobRead :=
  match fail_after with
  | none => (chunksAux kBufferSize blob.data []).map BlobRead.data
  | some k => ((chunksAux kBufferSize blob.data []).take k).map BlobRead.data ++ [BlobRead.failure]

/-- The loop `ReadFromBlob` / `OnReadCompleted` / `DidWriteDataToEntry` of
`BlobReader` over the completions of the blob request that are still to
come: `write_number` counts the writes done and `cache_entry_offset_` is the
member of that name.  The result is the store and the `success` argument of
the callback. -/
def BlobReader.ReadFromBlob (backend : Backend) (entry_ : String) (write_body : List (Option Int))
    (write_number : Nat) (cache_entry_offset_ : Nat) : List BlobRead → Backend × Bool
  -- OnReadCompleted with bytes_read == 0
  | [] => (backend, true)
  -- !request->status().is_success()
  | .failure :: _ => (backend, false)
  | .data buffer_ :: rest =>
    if buffer_.length = 0 then (backend, true)
    else
      let w := backend.WriteData entry_ .INDEX_RESPONSE_BODY cache_entry_offset_ buffer_ true
        (write_body.getD write_number none)
      -- DidWriteDataToEntry(expected_bytes = bytes_read, rv)
      if w.2 ≠ (buffer_.length : Int) then (w.1, false)
      else
        BlobReader.ReadFromBlob w.1 entry_ write_body (write_number + 1)
          (cache_entry_offset_ + buffer_.length) rest

/-! ## The Put callbacks -/

/-- The state passed between the Put callbacks (`struct PutContext`); the
quota proxy is in `Collaborators` and `cache_entry` is the key of the entry
that `CreateEntry` stores through `entry_ptr`. -/
structure PutContext where
  origin : String
  request : ServiceWorkerFetchRequest
  response : ServiceWorkerResponse
  blob_data_handle : Option BlobDataHandle
  cache_entry : String
  out_blob_data_handle : Option BlobDataHandle
  deriving DecidableEq, Repr

/-- The size `entry->GetDataSize(index)` of the entry named `key`. -/
def Backend.GetDataSize (b : Backend) (key : String) (index : EntryIndex) : Int :=
  match b.OpenEntry key with
  | some e => e.GetDataSize index
  | none => 0

/-- The collaborators after a guarded `NotifyStorageModified`: a null proxy
is skipped. -/
def Collaborators.notify (w : Collaborators) (origin : String) (delta : Int) : Collaborators :=
  { w with quota_manager_proxy :=
      w.quota_manager_proxy.map (fun q => q.NotifyStorageModified origin delta) }

/-- The callback `PutDidWriteBlobToCache(put_context, blob_reader, entry, success)`. -/
def PutDidWriteBlobToCache (w : Collaborators) (put_context : PutContext) (success : Bool) :
    Collaborators × ResponseCallbackArgs :=
  if !success then
    ({ w with backend := w.backend.Doom put_context.cache_entry },
      ⟨.ErrorTypeStorage, none, none⟩)
  else
    (w.notify put_context.origin
        (w.backend.GetDataSize put_context.cache_entry .INDEX_HEADERS +
          w.backend.GetDataSize put_context.cache_entry .INDEX_RESPONSE_BODY),
      ⟨.ErrorTypeOK, some put_context.response, put_context.out_blob_data_handle⟩)

/-- The callback `PutDidWriteHeaders(put_context, expected_bytes, rv)`.  A
null `blob_data_handle` with a non-empty `blob_uuid` is excluded by a DCHECK
in the source; here the blob request then fails at its start. -/
def PutDidWriteHeaders (w : Collaborators) (put_context : PutContext) (expected_bytes rv : Int)
    (o : Outcomes) : Collaborators × ResponseCallbackArgs :=
  if rv ≠ expected_bytes then
    ({ w with backend := w.backend.Doom put_context.cache_entry },
      ⟨.ErrorTypeStorage, none, none⟩)
  else if put_context.response.blob_uuid = "" then
    (w.notify put_context.origin (w.backend.GetDataSize put_context.cache_entry .INDEX_HEADERS),
      ⟨.ErrorTypeOK, some put_context.response, none⟩)
  else
    let reads :=
      match put_context.blob_data_handle with
      | some blob_data_handle => blobReads blob_data_handle o.blob_read_failure
      | none => [BlobRead.failure]
    let streamed :=
      BlobReader.ReadFromBlob w.backend put_context.cache_entry o.write_body 0 0 reads
    PutDidWriteBlobToCache { w with backend := streamed.1 } put_context streamed.2

/-- The metadata record that `PutDidCreateEntry` fills in from the request
and the response of the `PutContext`; the headers are added in the iteration
order of the two maps. -/
def putHeaders (request : ServiceWorkerFetchRequest) (response : ServiceWorkerResponse) :
    ServiceWorkerRequestResponseHeaders where
  method := request.method
  status_code := response.status_code
  status_text := response.status_text
  response_type := WebResponseTypeToProtoResponseType response.response_type
  request_headers := request.headers.entries
  response_headers := response.headers.entries

/-- The callback `PutDidCreateEntry(put_context, rv)`. -/
def PutDidCreateEntry (pb : MetadataCodec) (w : Collaborators) (put_context : PutContext)
    (rv : Int) (o : Outcomes) : Collaborators × ResponseCallbackArgs :=
  if rv ≠ net.OK then (w, ⟨.ErrorTypeExists, none, none⟩)
  else
    match pb.SerializeToString (putHeaders put_context.request put_context.response) with
    | none => (w, ⟨.ErrorTypeStorage, none, none⟩)
    | some serialized =>
      let written :=
        w.backend.WriteData put_context.cache_entry .INDEX_HEADERS 0 serialized true o.write_headers
      PutDidWriteHeaders { w with backend := written.1 } put_context (serialized.length : Int)
        written.2 o

/-! ## Reading the metadata of an entry -/

/-- The functions `ReadHeaders` and `ReadHeadersDidReadHeaderData`: the
metadata handed to the callback, `none` for a null pointer.  With
`forced = some rv` the read completes with `rv` instead of the stream's size. -/
def ReadHeaders (pb : MetadataCodec) (entry : Entry) (forced : Option Int) :
    Option ServiceWorkerRequestResponseHeaders :=
  let buffer_size := entry.GetDataSize .INDEX_HEADERS
  let buffer := entry.ReadData .INDEX_HEADERS 0 buffer_size.toNat
  let rv := forced.getD (buffer.length : Int)
  if rv ≠ buffer_size then none
  else pb.ParseFromArray buffer

/-! ## The Match callbacks -/

/-- The state of the body read loop (`struct ResponseReadContext`): the blob
under construction and the bytes read so far. -/
structure ResponseReadContext where
  blob_data : BlobDataHandle
  total_bytes_read : Int
  deriving DecidableEq, Repr

/-- The callback `MatchDoneWithBody`. -/
def MatchDoneWithBody (blob_storage : Option BlobStorageContext) (response : ServiceWorkerResponse)
    (response_context : ResponseReadContext) :
    Option BlobStorageContext × List ResponseCallbackArgs :=
  match blob_storage with
  | none => (none, [⟨.ErrorTypeStorage, none, none⟩])
  | some ctx =>
    let added := ctx.AddFinishedBlob response_context.blob_data
    (some added.1, [⟨.ErrorTypeOK, some response, some added.2⟩])

/-- The bytes in the buffer and the value the body read with number
`read_number` at `offset` completes with. -/
def readBody (entry : Entry) (o : Outcomes) (read_number : Nat) (offset : Int) : Bytes × Int :=
  let available := entry.ReadData .INDEX_RESPONSE_BODY offset.toNat kBufferSize
  match o.read_body.getD read_number none with
  | none => (available, (available.length : Int))
  | some rv => (available.take rv.toNat, rv)

/-- The callback `MatchDidReadResponseBodyData`, run with the completion
value `rv` of the read with number `read_number`, whose bytes are `buffer`.
The callback re-enters itself once per read; `fuel` bounds the number of
reads, and a loop that is cut short has run no result callback. -/
def MatchDidReadResponseBodyData (fuel : Nat) (blob_storage : Option BlobStorageContext)
    (entry : Entry) (o : Outcomes) (response : ServiceWorkerResponse)
    (response_context : ResponseReadContext) (read_number : Nat) (buffer : Bytes) (rv : Int) :
    Option BlobStorageContext × List ResponseCallbackArgs :=
  match fuel with
  | 0 => (blob_storage, [])
  | fuel + 1 =>
    if rv < 0 then (blob_storage, [⟨.ErrorTypeStorage, none, none⟩])
    else if rv = 0 then
      MatchDoneWithBody blob_storage
        { response with
          blob_uuid := response_context.blob_data.uuid
          blob_size := response_context.total_bytes_read }
        response_context
    else
      let response_context : ResponseReadContext :=
        { blob_data := { response_context.blob_data with
                         data := response_context.blob_data.data ++ buffer }
          total_bytes_read := response_context.total_bytes_read + rv }
      let read := readBody entry o (read_number + 1) response_context.total_bytes_read
      MatchDidReadResponseBodyData fuel blob_storage entry o response response_context
        (read_number + 1) read.1 read.2

/-- The number of body reads after which the loop of Match has ended. -/
def matchFuel (entry : Entry) (o : Outcomes) : Nat :=
  entry.body_stream.length + o.read_body.length + 2

/-- The callback `MatchDidReadHeaderData(request, callback, blob_storage,
entry, headers)`. -/
def MatchDidReadHeaderData (blob_storage : Option BlobStorageContext)
    (request : ServiceWorkerFetchRequest) (entry : Entry) (o : Outcomes)
    (headers : Option ServiceWorkerRequestResponseHeaders) :
    Option BlobStorageContext × List ResponseCallbackArgs :=
  match headers with
  | none => (blob_storage, [⟨.ErrorTypeStorage, none, none⟩])
  | some headers =>
    let response : ServiceWorkerResponse :=
      { url := request.url
        status_code := headers.status_code
        status_text := headers.status_text
        response_type := ProtoResponseTypeToWebResponseType headers.response_type
        headers := headers.response_headers.foldl (fun m h => m.insert h.1 h.2)
          ServiceWorkerHeaderMap.empty
        blob_uuid := ""
        blob_size := 0 }
    let cached_request_headers : ServiceWorkerHeaderMap :=
      headers.request_headers.foldl (fun m h => m.assign h.1 h.2) ServiceWorkerHeaderMap.empty
    if !VaryMatches request.headers cached_request_headers response.headers then
      (blob_storage, [⟨.ErrorTypeNotFound, none, none⟩])
    else if entry.GetDataSize .INDEX_RESPONSE_BODY = 0 then
      (blob_storage, [⟨.ErrorTypeOK, some response, none⟩])
    else if blob_storage.isNone then
      (blob_storage, [⟨.ErrorTypeStorage, none, none⟩])
    else
      let response := { response with blob_uuid := o.guid }
      let read_context : ResponseReadContext := ⟨⟨response.blob_uuid, []⟩, 0⟩
      let read := readBody entry o 0 0
      MatchDidReadResponseBodyData (matchFuel entry o) blob_storage entry o response read_context 0
        read.1 read.2

/-- The callback `MatchDidOpenEntry(request, callback, blob_storage, entryptr,
rv)`; `entryptr` holds an entry when `rv` is `net::OK`. -/
def MatchDidOpenEntry (pb : MetadataCodec) (blob_storage : Option BlobStorageContext)
    (request : ServiceWorkerFetchRequest) (entryptr : Option Entry) (rv : Int) (o : Outcomes) :
    Option BlobStorageContext × List ResponseCallbackArgs :=
  if rv ≠ net.OK then (blob_storage, [⟨.ErrorTypeNotFound, none, none⟩])
  else
    match entryptr with
    | none => (blob_storage, [⟨.ErrorTypeNotFound, none, none⟩])
    | some entry =>
      MatchDidReadHeaderData blob_storage request entry o
        (ReadHeaders pb entry (o.read_headers.getD 0 none))

/-- The entry and the value `backend_->OpenEntry(key, entry_ptr, callback)`
completes with. -/
def openEntry (backend : Backend) (key : String) (o : Outcomes) : Option Entry × Int :=
  if o.open_entry_fails then (none, net.ERR_FAILED)
  else
    match backend.OpenEntry key with
    | some entry => (some entry, net.OK)
    | none => (none, net.ERR_FAILED)

/-! ## The Delete callback -/

/-- The callback `DeleteDidOpenEntry(origin, request, callback, entryptr,
quota_manager_proxy, rv)`. -/
def DeleteDidOpenEntry (w : Collaborators) (origin : String) (entryptr : Option Entry) (rv : Int) :
    Collaborators × ErrorType :=
  if rv ≠ net.OK then (w, .ErrorTypeNotFound)
  else
    match entryptr with
    | none => (w, .ErrorTypeNotFound)
    | some entry =>
      let w := w.notify origin
        (-1 * (entry.GetDataSize .INDEX_HEADERS + entry.GetDataSize .INDEX_RESPONSE_BODY))
      ({ w with backend := w.backend.Doom entry.key }, .ErrorTypeOK)

/-! ## The cache object and its init gate -/

/-- A closure bound to a method of the cache, as held in `init_callbacks_`;
the outcomes are those of the operation the closure completes. -/
inductive Closure where
  | PutImpl (request : ServiceWorkerFetchRequest) (response : ServiceWorkerResponse)
      (blob_data_handle : Option BlobDataHandle) (o : Outcomes)
  | Match (request : ServiceWorkerFetchRequest) (o : Outcomes)
  | Delete (request : ServiceWorkerFetchRequest) (o : Outcomes)
  | Keys (o : Outcomes)
  deriving DecidableEq, Repr

/-- The members of `ServiceWorkerCache`.  A weak pointer that has been
invalidated and a null `scoped_refptr` are `none`.  The last field is not a
member: it counts the calls of `disk_cache::CreateCacheBackend`. -/
structure ServiceWorkerCache where
  origin_ : String
  quota_manager_proxy_ : Option QuotaManagerProxy
  blob_storage_context_ : Option BlobStorageContext
  backend_ : Option Backend
  initialized_ : Bool
  memory_only_ : Bool
  init_callbacks_ : List Closure
  create_backend_calls : Nat
  deriving DecidableEq, Repr

namespace ServiceWorkerCache

/-- The constructor: no backend, not initialized, nothing queued. -/
def new (origin : String) (memory_only : Bool) (quota_manager_proxy : Option QuotaManagerProxy)
    (blob_context : Option BlobStorageContext) : ServiceWorkerCache where
  origin_ := origin
  quota_manager_proxy_ := quota_manager_proxy
  blob_storage_context_ := blob_context
  backend_ := none
  initialized_ := false
  memory_only_ := memory_only
  init_callbacks_ := []
  create_backend_calls := 0

/-- The method `Close()`. -/
def Close (c : ServiceWorkerCache) : ServiceWorkerCache := { c with backend_ := none }

/-- The cache after a pipeline has left the collaborators in the state `w`. -/
def withCollaborators (c : ServiceWorkerCache) (w : Collaborators) : ServiceWorkerCache :=
  { c with
    backend_ := some w.backend
    quota_manager_proxy_ := w.quota_manager_proxy
    blob_storage_context_ := w.blob_storage }

end ServiceWorkerCache

/-- The method `ServiceWorkerCache::PutImpl`. -/
def PutImpl (pb : MetadataCodec) (c : ServiceWorkerCache) (request : ServiceWorkerFetchRequest)
    (response : ServiceWorkerResponse) (blob_data_handle : Option BlobDataHandle) (o : Outcomes) :
    ServiceWorkerCache × List CallbackRun :=
  match c.backend_ with
  | none => (c, [.response ⟨.ErrorTypeStorage, none, none⟩])
  | some backend =>
    let put_context : PutContext :=
      { origin := c.origin_
        request := request
        response := response
        blob_data_handle := blob_data_handle
        cache_entry := request.url
        -- Grab another handle to the blob for the callback response.
        out_blob_data_handle :=
          if blob_data_handle.isSome then
            c.blob_storage_context_.bind (fun ctx => ctx.GetBlobDataFromUUID response.blob_uuid)
          else none }
    let created : Backend × Int :=
      match o.create_entry with
      | some failure => (backend, failure.rv)
      | none => (backend.CreateEntry request.url, net.OK)
    let done :=
      PutDidCreateEntry pb ⟨created.1, c.quota_manager_proxy_, c.blob_storage_context_⟩
        put_context created.2 o
    (c.withCollaborators done.1, [.response done.2])

/-- The method `ServiceWorkerCache::Match` past its init gate. -/
def MatchReady (pb : MetadataCodec) (c : ServiceWorkerCache) (request : ServiceWorkerFetchRequest)
    (o : Outcomes) : ServiceWorkerCache × List CallbackRun :=
  match c.backend_ with
  | none => (c, [.response ⟨.ErrorTypeStorage, none, none⟩])
  | some backend =>
    let opened := openEntry backend request.url o
    let done := MatchDidOpenEntry pb c.blob_storage_context_ request opened.1 opened.2 o
    ({ c with blob_storage_context_ := done.1 }, done.2.map CallbackRun.response)

/-- The method `ServiceWorkerCache::Delete` past its init gate. -/
def DeleteReady (c : ServiceWorkerCache) (request : ServiceWorkerFetchRequest) (o : Outcomes) :
    ServiceWorkerCache × List CallbackRun :=
  match c.backend_ with
  | none => (c, [.error .ErrorTypeStorage])
  | some backend =>
    let opened := openEntry backend request.url o
    let done :=
      DeleteDidOpenEntry ⟨backend, c.quota_manager_proxy_, c.blob_storage_context_⟩ c.origin_
        opened.1 opened.2
    (c.withCollaborators done.1, [.error done.2])

/-! ## The Keys callbacks -/

/-- One completion of `Iterator::OpenNextEntry`. -/
inductive IteratorStep where
  /-- It completed with `net::OK` and this entry. -/
  | entry (e : Entry)
  /-- It completed with this value and no entry; `net::ERR_FAILED` is the
  end of the enumeration. -/
  | stop (rv : Int)
  deriving DecidableEq, Repr

/-- The completions of the iterator over a backend: its entries in order,
then `net::ERR_FAILED`; an injected error replaces the step with its number
and ends the list. -/
def iteratorSteps (backend : Backend) (o : Outcomes) : List IteratorStep :=
  let all := backend.entries.map IteratorStep.entry ++ [IteratorStep.stop net.ERR_FAILED]
  match o.iterator_error with
  | none => all
  | some (step, rv) => if step < all.length then all.take step ++ [IteratorStep.stop rv] else all

/-- The callback `KeysDidReadHeaders(keys_context, iter, headers)`: the store
and `out_keys` afterwards. -/
def KeysDidReadHeaders (backend : Option Backend) (out_keys : List ServiceWorkerFetchRequest)
    (entry : Entry) (headers : Option ServiceWorkerRequestResponseHeaders) :
    Option Backend × List ServiceWorkerFetchRequest :=
  match headers with
  | some headers =>
    (backend, out_keys ++
      [{ url := entry.key
         method := headers.method
         headers := headers.request_headers.foldl (fun m h => m.insert h.1 h.2)
           ServiceWorkerHeaderMap.empty
         referrer := ""
         is_reload := false }])
  | none => (backend.map (fun b => b.Doom entry.key), out_keys)

/-- The method `KeysProcessNextEntry(keys_context, iter)` over the entries
from `iter` on; `index` is the position of `iter`. -/
def KeysProcessNextEntry (pb : MetadataCodec) (o : Outcomes) :
    Option Backend → List ServiceWorkerFetchRequest → Nat → List Entry →
      Option Backend × CallbackRun
  | backend, out_keys, _, [] => (backend, .requests .ErrorTypeOK (some out_keys))
  | backend, out_keys, index, entry :: rest =>
    let read :=
      KeysDidReadHeaders backend out_keys entry
        (ReadHeaders pb entry (o.read_headers.getD index none))
    KeysProcessNextEntry pb o read.1 read.2 (index + 1) rest

/-- The method `KeysDidOpenNextEntry(keys_context, rv)` over the completions
of the iterator that are still to come; `entries` is the member of
`KeysContext` and `step` the number of the completion.  The cache is alive;
a completion without an entry and with a value that is not negative adds no
entry. -/
def KeysDidOpenNextEntry (pb : MetadataCodec) (o : Outcomes) :
    ServiceWorkerCache → List Entry → Nat → List IteratorStep →
      ServiceWorkerCache × List CallbackRun
  | c, _, _, [] => (c, [])
  | c, entries, step, completion :: later =>
    let c := if o.close_at = some step then c.Close else c
    let rv : Int :=
      match completion with
      | .entry _ => net.OK
      | .stop rv => rv
    if rv = net.ERR_FAILED then
      -- Enumeration is complete, extract the requests from the entries.
      let done := KeysProcessNextEntry pb o c.backend_ [] 0 entries
      ({ c with backend_ := done.1 }, [done.2])
    else if rv < 0 then (c, [.requests .ErrorTypeStorage none])
    else if c.backend_.isNone then (c, [.requests .ErrorTypeNotFound none])
    else
      let entries :=
        match completion with
        | .entry e => entries ++ [e]
        | .stop _ => entries
      KeysDidOpenNextEntry pb o c entries (step + 1) later

/-- The method `ServiceWorkerCache::Keys` past its init gate. -/
def KeysReady (pb : MetadataCodec) (c : ServiceWorkerCache) (o : Outcomes) :
    ServiceWorkerCache × List CallbackRun :=
  match c.backend_ with
  | none => (c, [.requests .ErrorTypeStorage none])
  | some backend => KeysDidOpenNextEntry pb o c [] 0 (iteratorSteps backend o)

/-! ## Initialization -/

/-- A closure of `init_callbacks_` is run.  `Match`, `Delete` and `Keys` are
bound to the public methods, which start at the init gate: on a cache that is
not initialized `Init` appends the closure to the queue that is being run,
which then holds more than one closure, and returns. -/
def runClosure (pb : MetadataCodec) (c : ServiceWorkerCache) (closure : Closure) :
    ServiceWorkerCache × List CallbackRun :=
  match closure with
  | .PutImpl request response blob_data_handle o =>
    PutImpl pb c request response blob_data_handle o
  | .Match request o =>
    if !c.initialized_ then ({ c with init_callbacks_ := c.init_callbacks_ ++ [closure] }, [])
    else MatchReady pb c request o
  | .Delete request o =>
    if !c.initialized_ then ({ c with init_callbacks_ := c.init_callbacks_ ++ [closure] }, [])
    else DeleteReady c request o
  | .Keys o =>
    if !c.initialized_ then ({ c with init_callbacks_ := c.init_callbacks_ ++ [closure] }, [])
    else KeysReady pb c o

/-- The loop of `InitDone` over the queue when every store step of the
queued operations returns its value at once, so that each closure has run
its result callback when it returns: the closures are run in order and the
runs of result callbacks are collected in order.  `startClosures` is the
loop for store steps that may return `net::ERR_IO_PENDING`. -/
def runClosures (pb : MetadataCodec) :
    ServiceWorkerCache → List Closure → ServiceWorkerCache × List CallbackRun
  | c, [] => (c, [])
  | c, closure :: rest =>
    let first := runClosure pb c closure
    let others := runClosures pb first.1 rest
    (others.1, first.2 ++ others.2)

/-- The method `ServiceWorkerCache::InitDone(error)` when every store step of
the queued operations returns its value at once; `InitDoneStarting` is the
method for store steps that may return `net::ERR_IO_PENDING`. -/
def InitDone (pb : MetadataCodec) (c : ServiceWorkerCache) (_error : ErrorType) :
    ServiceWorkerCache × List CallbackRun :=
  let c := { c with initialized_ := true }
  let done := runClosures pb c c.init_callbacks_
  ({ done.1 with init_callbacks_ := [] }, done.2)

/-- The callback `CreateBackendDidCreate(callback, backend_ptr, cache, rv)`
for a cache that is alive; the callback is `InitDone`. -/
def CreateBackendDidCreate (pb : MetadataCodec) (c : ServiceWorkerCache)
    (backend_ptr : Option Backend) (rv : Int) : ServiceWorkerCache × List CallbackRun :=
  if rv ≠ net.OK then InitDone pb c .ErrorTypeStorage
  else InitDone pb { c with backend_ := backend_ptr } .ErrorTypeOK

/-- What `it->Run()` does for one closure of the queue when the store steps
of its operation may return `net::ERR_IO_PENDING`.  A closure that passes
the init gate on a cache with a backend makes store steps; with the mode
`some left` it returns at a step that completes later, a store step that
returns `net::ERR_IO_PENDING` or the start of the blob request of a Put
(`blob_request_->Start()`, which reports to `OnResponseStarted` later): no
result callback has run (every operation runs its callback last), the
store is as the steps made so far have left it, with the entries `left`
(any entries: the model does not say which steps were made), the rest of
the cache object is as it was, and the operation is in flight (third
component).  With the mode `none` the operation ends before the closure
returns, every step delivering its value at once (a Put that streams a body
has no such run: its mode is a `some`), and in every other case no store
step is made: the closure runs as `runClosure`. -/
def startClosure (pb : MetadataCodec) (c : ServiceWorkerCache) (closure : Closure)
    (mode : Option Backend) : ServiceWorkerCache × List CallbackRun × List Closure :=
  let passes_gate : Bool :=
    match closure with
    | .PutImpl _ _ _ _ => true
    | _ => c.initialized_
  match mode with
  | some left =>
    if passes_gate && c.backend_.isSome then ({ c with backend_ := some left }, [], [closure])
    else ((runClosure pb c closure).1, (runClosure pb c closure).2, [])
  | none => ((runClosure pb c closure).1, (runClosure pb c closure).2, [])

/-- The loop of `InitDone` over the queue; `modes` gives the mode of each
closure in order (a closure without a mode has the mode `none`).  The result
is the cache, the runs of result callbacks during the loop, and the
operations in flight when the loop ends, in the order in which they were
started. -/
def startClosures (pb : MetadataCodec) :
    ServiceWorkerCache → List Closure → List (Option Backend) →
      ServiceWorkerCache × List CallbackRun × List Closure
  | c, [], _ => (c, [], [])
  | c, closure :: rest, modes =>
    let first := startClosure pb c closure (modes.headD none)
    let others := startClosures pb first.1 rest modes.tail
    (others.1, first.2.1 ++ others.2.1, first.2.2 ++ others.2.2)

/-- The method `ServiceWorkerCache::InitDone(error)`, for store steps that
may return `net::ERR_IO_PENDING`. -/
def InitDoneStarting (pb : MetadataCodec) (c : ServiceWorkerCache) (_error : ErrorType)
    (modes : List (Option Backend)) : ServiceWorkerCache × List CallbackRun × List Closure :=
  let c := { c with initialized_ := true }
  let done := startClosures pb c c.init_callbacks_ modes
  ({ done.1 with init_callbacks_ := [] }, done.2.1, done.2.2)

/-- The callback `CreateBackendDidCreate(callback, backend_ptr, cache, rv)`
for a cache that is alive, for store steps that may return
`net::ERR_IO_PENDING`. -/
def CreateBackendDidCreateStarting (pb : MetadataCodec) (c : ServiceWorkerCache)
    (backend_ptr : Option Backend) (rv : Int) (modes : List (Option Backend)) :
    ServiceWorkerCache × List CallbackRun × List Closure :=
  if rv ≠ net.OK then InitDoneStarting pb c .ErrorTypeStorage modes
  else InitDoneStarting pb { c with backend_ := backend_ptr } .ErrorTypeOK modes

/-- The method `ServiceWorkerCache::CreateBackend(callback)`. -/
def CreateBackend (pb : MetadataCodec) (c : ServiceWorkerCache) (creation : BackendCreation) :
    ServiceWorkerCache × List CallbackRun :=
  let c := { c with create_backend_calls := c.create_backend_calls + 1 }
  match creation with
  | .pending => (c, [])
  | .failed rv => CreateBackendDidCreate pb c none rv
  | .created backend => CreateBackendDidCreate pb c (some backend) net.OK

/-- The method `ServiceWorkerCache::Init(callback)`. -/
def Init (pb : MetadataCodec) (c : ServiceWorkerCache) (callback : Closure)
    (creation : BackendCreation) : ServiceWorkerCache × List CallbackRun :=
  let c := { c with init_callbacks_ := c.init_callbacks_ ++ [callback] }
  -- If this isn't the first call to Init then return as the initialization
  -- has already started.
  if c.init_callbacks_.length > 1 then (c, [])
  else CreateBackend pb c creation

/-! ## The public operations -/

/-- The method `ServiceWorkerCache::Put(request, response, callback)`. -/
def Put (pb : MetadataCodec) (c : ServiceWorkerCache) (request : ServiceWorkerFetchRequest)
    (response : ServiceWorkerResponse) (o : Outcomes) : ServiceWorkerCache × List CallbackRun :=
  let resolved : Option (Option BlobDataHandle) :=
    if response.blob_uuid ≠ "" then
      match c.blob_storage_context_ with
      | none => none
      | some ctx =>
        match ctx.GetBlobDataFromUUID response.blob_uuid with
        | none => none
        | some blob_data_handle => some (some blob_data_handle)
    else some none
  match resolved with
  | none => (c, [.response ⟨.ErrorTypeStorage, none, none⟩])
  | some blob_data_handle =>
    if !c.initialized_ then
      Init pb c (.PutImpl request response blob_data_handle o) o.create_backend
    else PutImpl pb c request response blob_data_handle o

/-- The method `ServiceWorkerCache::Match(request, callback)`. -/
def Match (pb : MetadataCodec) (c : ServiceWorkerCache) (request : ServiceWorkerFetchRequest)
    (o : Outcomes) : ServiceWorkerCache × List CallbackRun :=
  if !c.initialized_ then Init pb c (.Match request o) o.create_backend
  else MatchReady pb c request o

/-- The method `ServiceWorkerCache::Delete(request, callback)`. -/
def Delete (pb : MetadataCodec) (c : ServiceWorkerCache) (request : ServiceWorkerFetchRequest)
    (o : Outcomes) : ServiceWorkerCache × List CallbackRun :=
  if !c.initialized_ then Init pb c (.Delete request o) o.create_backend
  else DeleteReady c request o

/-- The method `ServiceWorkerCache::Keys(callback)`. -/
def Keys (pb : MetadataCodec) (c : ServiceWorkerCache) (o : Outcomes) :
    ServiceWorkerCache × List CallbackRun :=
  if !c.initialized_ then Init pb c (.Keys o) o.create_backend
  else KeysReady pb c o

/-! ## A concrete codec and concrete values for closed instances -/

namespace sample

/-- A string as its length followed by its character codes. -/
def encodeString (s : String) : Bytes := s.data.length :: s.data.map Char.toNat

/-- The inverse of `encodeString` on a prefix of the input. -/
def decodeString : Bytes → Option (String × Bytes)
  | [] => none
  | n :: rest =>
    if rest.length < n then none
    else some (String.mk ((rest.take n).map Char.ofNat), rest.drop n)

/-- A list of headers as its length followed by the names and values. -/
def encodeHeaders (l : List (String × String)) : Bytes :=
  l.length :: (l.map (fun h => encodeString h.1 ++ encodeString h.2)).flatten

/-- The inverse of the body of `encodeHeaders` for `n` headers. -/
def decodeHeaders : Nat → Bytes → Option (List (String × String) × Bytes)
  | 0, b => some ([], b)
  | n + 1, b =>
    match decodeString b with
    | none => none
    | some (name, b) =>
      match decodeString b with
      | none => none
      | some (value, b) =>
        match decodeHeaders n b with
        | none => none
        | some (l, b) => some ((name, value) :: l, b)

/-- The code of a response type. -/
def encodeType : ProtoResponseType → Nat
  | .BASIC_TYPE => 0
  | .CORS_TYPE => 1
  | .DEFAULT_TYPE => 2
  | .ERROR_TYPE => 3
  | .OPAQUE_TYPE => 4

/-- The response type of a code. -/
def decodeType : Nat → Option ProtoResponseType
  | 0 => some .BASIC_TYPE
  | 1 => some .CORS_TYPE
  | 2 => some .DEFAULT_TYPE
  | 3 => some .ERROR_TYPE
  | 4 => some .OPAQUE_TYPE
  | _ => none

/-- The encoding of a metadata record. -/
def encode (h : ServiceWorkerRequestResponseHeaders) : Bytes :=
  encodeString h.method ++ [if h.status_code < 0 then 1 else 0, h.status_code.natAbs] ++
    encodeString h.status_text ++ [encodeType h.response_type] ++
    encodeHeaders h.request_headers ++ encodeHeaders h.response_headers

/-- The decoding of a metadata record; input that is left over is rejected. -/
def decode (b : Bytes) : Option ServiceWorkerRequestResponseHeaders :=
  match decodeString b with
  | some (method, sign :: magnitude :: b) =>
    match decodeString b with
    | some (status_text, type :: n :: b) =>
      match decodeType type, decodeHeaders n b with
      | some response_type, some (request_headers, m :: b) =>
        match decodeHeaders m b with
        | some (response_headers, []) =>
          some
            { method := method
              status_code := if sign = 1 then -(magnitude : Int) else (magnitude : Int)
              status_text := status_text
              response_type := response_type
              request_headers := request_headers
              response_headers := response_headers }
        | _ => none
      | _, _ => none
    | _ => none
  | _ => none

/-- A codec that refuses to serialize a record of more than `limit` bytes,
as the protobuf library does beyond its size limit. -/
def codec (limit : Nat) : MetadataCodec where
  SerializeToString h := if (encode h).length ≤ limit then some (encode h) else none
  ParseFromArray := decode

/-- A cache that is initialized over an empty backend, with a quota proxy
and a blob store that holds the blobs "hello" and "hi". -/
def cache : ServiceWorkerCache where
  origin_ := "https://x/"
  quota_manager_proxy_ := some ⟨[]⟩
  blob_storage_context_ := some ⟨[⟨"blob-1", [104, 101, 108, 108, 111]⟩, ⟨"blob-2", [104, 105]⟩]⟩
  backend_ := some ⟨[]⟩
  initialized_ := true
  memory_only_ := true
  init_callbacks_ := []
  create_backend_calls := 1

/-- A GET request for `https://x/a` with the given headers. -/
def request (headers : List (String × String)) : ServiceWorkerFetchRequest where
  url := "https://x/a"
  method := "GET"
  headers := ⟨headers⟩
  referrer := ""
  is_reload := false

/-- A basic 200 response with the given headers and body reference. -/
def response (headers : List (String × String)) (blob_uuid : String) : ServiceWorkerResponse where
  url := "https://x/a"
  status_code := 200
  status_text := "OK"
  response_type := .Basic
  headers := ⟨headers⟩
  blob_uuid := blob_uuid
  blob_size := 5

end sample

/-! ## Notions used in the statements -/

/-- The map `m'` is `m` with the letter case of header names changed. -/
def ServiceWorkerHeaderMap.CaseVariant (m m' : ServiceWorkerHeaderMap) : Prop :=
  List.Forall₂ (fun a b => foldCase a.1 = foldCase b.1 ∧ a.2 = b.2) m.entries m'.entries

/-- The Vary value `v'` lists the header names of `v`, up to letter case. -/
def VaryCaseVariant (v v' : String) : Prop :=
  List.Forall₂
    (fun t t' => foldCase (TrimWhitespaceASCII t) = foldCase (TrimWhitespaceASCII t'))
    (Tokenize v) (Tokenize v')

/-- The response header map `m'` is `m` with the letter case changed of
header names and of the header names listed in header values. -/
def ServiceWorkerHeaderMap.VaryCaseVariant (m m' : ServiceWorkerHeaderMap) : Prop :=
  List.Forall₂ (fun a b => foldCase a.1 = foldCase b.1 ∧ content.VaryCaseVariant a.2 b.2)
    m.entries m'.entries

/-- The Vary value of the response headers `P` has no token that is `*`
after trimming. -/
def NoWildcardVary (P : ServiceWorkerHeaderMap) : Prop :=
  ∀ v, P.find "vary" = some v → ∀ tok ∈ Tokenize v, TrimWhitespaceASCII tok ≠ "*"

/-- The header `t` is present in `R` exactly when it is present in `C`, and
with the same value when it is present in both. -/
def VaryTokenAgrees (R C : ServiceWorkerHeaderMap) (t : String) : Prop :=
  ((R.find t).isSome ↔ (C.find t).isSome) ∧ ∀ a b, R.find t = some a → C.find t = some b → a = b

/-- The error kind that the specification gives for a failure of the
create-entry step of Put: "Exists error if it stems from a live conflicting
operation, else Storage error". -/
def specifiedCreateError : CreateFailure → ErrorType
  | .conflict => .ErrorTypeExists
  | .other => .ErrorTypeStorage

/-- The store and the blob source do every step of the operation in full. -/
def Outcomes.AllSucceed (o : Outcomes) : Prop :=
  o.create_entry = none ∧ o.open_entry_fails = false ∧ o.write_headers = none ∧
    o.write_body = [] ∧ o.blob_read_failure = none ∧ o.read_headers = [] ∧ o.read_body = [] ∧
    o.iterator_error = none ∧ o.close_at = none

/-- The bytes of the blob behind a handle; no bytes for a null handle. -/
def blobBytes (blob_data_handle : Option BlobDataHandle) : Bytes :=
  match blob_data_handle with
  | some h => h.data
  | none => []

/-- The body bytes that a response supplies to a Put on the cache `c`: the
bytes of the blob that its body reference resolves to in the blob store; no
bytes without a body reference. -/
def suppliedBody (c : ServiceWorkerCache) (response : ServiceWorkerResponse) : Bytes :=
  if response.blob_uuid = "" then []
  else
    match c.blob_storage_context_ with
    | some ctx => blobBytes (ctx.GetBlobDataFromUUID response.blob_uuid)
    | none => []

/-- The codec decodes the record `h` from what it encodes it to. -/
def MetadataCodec.RoundTripsAt (pb : MetadataCodec) (h : ServiceWorkerRequestResponseHeaders) :
    Prop :=
  ∀ b, pb.SerializeToString h = some b → pb.ParseFromArray b = some h

/-- The response that `MatchDidReadHeaderData` builds from the decoded
metadata, before a body is attached. -/
def matchResponse (request : ServiceWorkerFetchRequest)
    (headers : ServiceWorkerRequestResponseHeaders) : ServiceWorkerResponse where
  url := request.url
  status_code := headers.status_code
  status_text := headers.status_text
  response_type := ProtoResponseTypeToWebResponseType headers.response_type
  headers := headers.response_headers.foldl (fun m h => m.insert h.1 h.2)
    ServiceWorkerHeaderMap.empty
  blob_uuid := ""
  blob_size := 0

/-- The request headers that `MatchDidReadHeaderData` rebuilds from the
decoded metadata. -/
def matchCachedRequestHeaders (headers : ServiceWorkerRequestResponseHeaders) :
    ServiceWorkerHeaderMap :=
  headers.request_headers.foldl (fun m h => m.assign h.1 h.2) ServiceWorkerHeaderMap.empty

/-- The entry with the decoded metadata `headers` matches the request: the
Vary check of `MatchDidReadHeaderData` succeeds. -/
def EntryMatches (request : ServiceWorkerFetchRequest)
    (headers : ServiceWorkerRequestResponseHeaders) : Prop :=
  VaryMatches request.headers (matchCachedRequestHeaders headers)
    (matchResponse request headers).headers = true

/-- The request that `KeysDidReadHeaders` adds to `out_keys` for an entry
with the decoded metadata `headers`. -/
def keyRequest (entry : Entry) (headers : ServiceWorkerRequestResponseHeaders) :
    ServiceWorkerFetchRequest where
  url := entry.key
  method := headers.method
  headers := headers.request_headers.foldl (fun m h => m.insert h.1 h.2)
    ServiceWorkerHeaderMap.empty
  referrer := ""
  is_reload := false

/-- The output that the specification gives for phase 2 of Keys over the
collected entries, the first of which has the number `index`: in collection
order, one request per entry whose metadata is read and decoded, with the
URL of the entry's key and the method and headers of the metadata. -/
def keysOutput (pb : MetadataCodec) (o : Outcomes) (index : Nat) (entries : List Entry) :
    List ServiceWorkerFetchRequest :=
  (entries.enumFrom index).filterMap (fun ie =>
    (ReadHeaders pb ie.2 (o.read_headers.getD ie.1 none)).map (keyRequest ie.2))

/-- The keys of the collected entries whose metadata is not read or not
decoded: the entries that the specification has phase 2 of Keys doom. -/
def keysDoomed (pb : MetadataCodec) (o : Outcomes) (index : Nat) (entries : List Entry) :
    List String :=
  ((entries.enumFrom index).filter (fun ie =>
    (ReadHeaders pb ie.2 (o.read_headers.getD ie.1 none)).isNone)).map (fun ie => ie.2.key)

/-- The cache `sample.cache` after the Put of "hello" under `https://x/a`. -/
def sample.stored : ServiceWorkerCache :=
  (Put (sample.codec 1000) sample.cache (sample.request []) (sample.response [] "blob-1") {}).1

/-- The entry that the Put of "hello" has written. -/
def sample.storedEntry : Entry :=
  ⟨"https://x/a", sample.encode (putHeaders (sample.request []) (sample.response [] "blob-1")),
    [104, 101, 108, 108, 111]⟩

/-- What happens to a cache: a call of one of its public operations, with
the outcomes the collaborators deliver to it, or the completion of a pending
`disk_cache::CreateCacheBackend` with a backend pointer and a value. -/
inductive Event where
  | Put (request : ServiceWorkerFetchRequest) (response : ServiceWorkerResponse) (o : Outcomes)
  | Match (request : ServiceWorkerFetchRequest) (o : Outcomes)
  | Delete (request : ServiceWorkerFetchRequest) (o : Outcomes)
  | Keys (o : Outcomes)
  | BackendCreated (backend_ptr : Option Backend) (rv : Int)
  deriving DecidableEq, Repr

/-- A backend creation is in flight: `Init` has queued a closure and
`InitDone` has not run. -/
def ServiceWorkerCache.creationPending (c : ServiceWorkerCache) : Bool :=
  !c.initialized_ && !c.init_callbacks_.isEmpty

/-- The cache after an event, and the runs of result callbacks during it.  A
completion without a creation in flight does not occur and changes nothing. -/
def runEvent (pb : MetadataCodec) (c : ServiceWorkerCache) :
    Event → ServiceWorkerCache × List CallbackRun
  | .Put request response o => Put pb c request response o
  | .Match request o => Match pb c request o
  | .Delete request o => Delete pb c request o
  | .Keys o => Keys pb c o
  | .BackendCreated backend_ptr rv =>
    if c.creationPending then CreateBackendDidCreate pb c backend_ptr rv else (c, [])

/-- The cache after a sequence of events, and the runs of result callbacks
in order. -/
def runEvents (pb : MetadataCodec) :
    ServiceWorkerCache → List Event → ServiceWorkerCache × List CallbackRun
  | c, [] => (c, [])
  | c, event :: rest =>
    let first := runEvent pb c event
    let others := runEvents pb first.1 rest
    (others.1, first.2 ++ others.2)

/-- The run of a result callback reports OK. -/
def CallbackRun.isOK : CallbackRun → Bool
  | .response args => decide (args.error = .ErrorTypeOK)
  | .error e => decide (e = .ErrorTypeOK)
  | .requests e _ => decide (e = .ErrorTypeOK)

/-- The request that the specification has Keys return for a committed
request: its URL, its method and its headers; `KeysDidReadHeaders` fills in
an empty referrer and no reload. -/
def returnedKey (request : ServiceWorkerFetchRequest) : ServiceWorkerFetchRequest where
  url := request.url
  method := request.method
  headers := request.headers
  referrer := ""
  is_reload := false

/-- The entry holds what a Put of the request has stored: it is keyed by the
URL of the request and its metadata decodes to the record of the request and
of some response. -/
def StoredAs (pb : MetadataCodec) (e : Entry) (request : ServiceWorkerFetchRequest) : Prop :=
  e.key = request.url ∧ request.headers.WellFormed ∧
    ∃ response, pb.ParseFromArray e.headers_stream = some (putHeaders request response)

/-- A GET request for `https://x/b` with an `Accept` header. -/
def sample.requestB : ServiceWorkerFetchRequest where
  url := "https://x/b"
  method := "GET"
  headers := ⟨[("Accept", "a")]⟩
  referrer := "https://x/"
  is_reload := true

/-- A Put of "hello" under `https://x/a`, a Put of "hi" under `https://x/b`,
a Put under `https://x/a` whose first write of the body fails, a Put under
`https://x/b` whose body reference does not resolve, and a Delete of
`https://x/a` that finds no entry. -/
def sample.calls : List Event :=
  [.Put (sample.request []) (sample.response [] "blob-1") {},
    .Put sample.requestB (sample.response [] "blob-2") {},
    .Put (sample.request []) (sample.response [] "blob-1") { write_body := [some 0] },
    .Put sample.requestB (sample.response [] "blob-9") {},
    .Delete (sample.request []) {}]

/-- The run of the result callback of a queued operation with Storage and
null pointers. -/
def Closure.storageRun : Closure → CallbackRun
  | .PutImpl _ _ _ _ => .response ⟨.ErrorTypeStorage, none, none⟩
  | .Match _ _ => .response ⟨.ErrorTypeStorage, none, none⟩
  | .Delete _ _ => .error .ErrorTypeStorage
  | .Keys _ => .requests .ErrorTypeStorage none

/-- The runs of result callbacks when the call of an event completes with
Storage and null pointers; the completion of a backend creation has no
result callback. -/
def Event.storageRun : Event → List CallbackRun
  | .Put _ _ _ => [.response ⟨.ErrorTypeStorage, none, none⟩]
  | .Match _ _ => [.response ⟨.ErrorTypeStorage, none, none⟩]
  | .Delete _ _ => [.error .ErrorTypeStorage]
  | .Keys _ => [.requests .ErrorTypeStorage none]
  | .BackendCreated _ _ => []

/-- The closure that a call binds for the init gate, on a cache with the
blob storage context `blob_storage`: `Put` binds `PutImpl` with the handle of
the body, and binds nothing when the body reference does not resolve;
`Match`, `Delete` and `Keys` bind themselves. -/
def Event.closure (blob_storage : Option BlobStorageContext) : Event → Option Closure
  | .Put request response o =>
    if response.blob_uuid ≠ "" then
      match blob_storage with
      | none => none
      | some ctx =>
        match ctx.GetBlobDataFromUUID response.blob_uuid with
        | none => none
        | some blob_data_handle => some (.PutImpl request response (some blob_data_handle) o)
    else some (.PutImpl request response none o)
  | .Match request o => some (.Match request o)
  | .Delete request o => some (.Delete request o)
  | .Keys o => some (.Keys o)
  | .BackendCreated _ _ => none

/-- The operation of a closure run directly, that is, past the init gate. -/
def Closure.runDirect (pb : MetadataCodec) (c : ServiceWorkerCache) :
    Closure → ServiceWorkerCache × List CallbackRun
  | .PutImpl request response blob_data_handle o =>
    content.PutImpl pb c request response blob_data_handle o
  | .Match request o => MatchReady pb c request o
  | .Delete request o => DeleteReady c request o
  | .Keys o => KeysReady pb c o

/-- The replay that the specification gives for the queue when every store
step returns its value at once: every queued operation is run directly,
once, in the order of the queue, each on the cache that the previous one has
left; the runs of result callbacks are collected in that order. -/
def replayInOrder (pb : MetadataCodec) :
    ServiceWorkerCache → List Closure → ServiceWorkerCache × List CallbackRun
  | c, [] => (c, [])
  | c, closure :: rest =>
    let first := closure.runDirect pb c
    let others := replayInOrder pb first.1 rest
    (others.1, first.2 ++ others.2)

/-- The replay that the specification gives for the queue when store steps
may be pending: every queued operation is started directly, once, in the
order of the queue.  An operation that returns at a pending step (mode
`some left`, on a cache with a backend) is left in flight and the next one
is started on the store as it has left it; any other operation is run
directly and the next one is started on the cache it has left.  The result
is the cache, the runs of result callbacks, and the operations in flight,
both in the order of the queue. -/
def startInOrder (pb : MetadataCodec) :
    ServiceWorkerCache → List Closure → List (Option Backend) →
      ServiceWorkerCache × List CallbackRun × List Closure
  | c, [], _ => (c, [], [])
  | c, closure :: rest, modes =>
    match modes.headD none, c.backend_ with
    | some left, some _ =>
      let others := startInOrder pb { c with backend_ := some left } rest modes.tail
      (others.1, others.2.1, closure :: others.2.2)
    | _, _ =>
      let first := closure.runDirect pb c
      let others := startInOrder pb first.1 rest modes.tail
      (others.1, first.2 ++ others.2.1, others.2.2)

/-- The event is a call of Put, Match, Delete or Keys, and a backend
creation that the call starts returns `ERR_IO_PENDING`. -/
def Event.QueuesBehindCreation : Event → Prop
  | .Put _ _ o => o.create_backend = .pending
  | .Match _ o => o.create_backend = .pending
  | .Delete _ o => o.create_backend = .pending
  | .Keys o => o.create_backend = .pending
  | .BackendCreated _ _ => False

/-- The runs of result callbacks while the calls are queued: only a Put
whose body reference does not resolve runs its callback, with Storage. -/
def runsWhileQueued (blob_storage : Option BlobStorageContext) (calls : List Event) :
    List CallbackRun :=
  (calls.map (fun event =>
    if (event.closure blob_storage).isSome then [] else event.storageRun)).flatten

/-- A cache on which a Match, a Put of "hello" and a Keys are queued behind
a backend creation that is pending. -/
def sample.queued : ServiceWorkerCache :=
  (runEvents (sample.codec 1000)
    (ServiceWorkerCache.new "https://x/" true (some ⟨[]⟩)
      (some ⟨[⟨"blob-1", [104, 101, 108, 108, 111]⟩]⟩))
    [.Match (sample.request []) {},
      .Put (sample.request []) (sample.response [] "blob-1") {},
      .Keys {}]).1

/-- The outcome of the backend creation that the call of an event would
start; none for the completion of a creation. -/
def Event.create_backend : Event → Option BackendCreation
  | .Put _ _ o => some o.create_backend
  | .Match _ o => some o.create_backend
  | .Delete _ o => some o.create_backend
  | .Keys o => some o.create_backend
  | .BackendCreated _ _ => none

/-- One call `entry_->WriteData(INDEX_RESPONSE_BODY, offset, buffer,
bytes_read, callback, truncate)` of `BlobReader::OnReadCompleted`. -/
structure BodyWrite where
  offset : Nat
  buffer : Bytes
  truncate : Bool
  deriving DecidableEq, Repr

/-- The calls of `WriteData` that the loop `ReadFromBlob` / `OnReadCompleted` /
`DidWriteDataToEntry` of `BlobReader` issues, in order: the loop of
`BlobReader.ReadFromBlob` with the arguments of each call recorded.  The
source passes `cache_entry_offset_`, the buffer and `true /* truncate */`. -/
def BlobReader.writes (backend : Backend) (entry_ : String) (write_body : List (Option Int))
    (write_number : Nat) (cache_entry_offset_ : Nat) : List BlobRead → List BodyWrite
  | [] => []
  | .failure :: _ => []
  | .data buffer_ :: rest =>
    if buffer_.length = 0 then []
    else
      let w := backend.WriteData entry_ .INDEX_RESPONSE_BODY cache_entry_offset_ buffer_ true
        (write_body.getD write_number none)
      ⟨cache_entry_offset_, buffer_, true⟩ ::
        (if w.2 ≠ (buffer_.length : Int) then []
         else
          BlobReader.writes w.1 entry_ write_body (write_number + 1)
            (cache_entry_offset_ + buffer_.length) rest)

/-- The store after the recorded calls of `WriteData` are made in order on
the entry named `entry_`; the call with number `write_number` completes as
`write_body` says. -/
def applyWrites (entry_ : String) (write_body : List (Option Int)) :
    Backend → Nat → List BodyWrite → Backend
  | backend, _, [] => backend
  | backend, write_number, w :: rest =>
    applyWrites entry_ write_body
      (backend.WriteData entry_ .INDEX_RESPONSE_BODY w.offset w.buffer w.truncate
        (write_body.getD write_number none)).1 (write_number + 1) rest

/-- Modelled from the spec: how a step of the store (`disk_cache`, not among
the sources) delivers its completion value: the call returns it, or the call
returns `net::ERR_IO_PENDING` and the store runs the completion callback
with the value later. -/
inductive StoreStep where
  | immediate (rv : Int)
  | pending (rv : Int)
  deriving DecidableEq, Repr

/-- The value that the call of the step returns. -/
def StoreStep.returned : StoreStep → Int
  | .immediate rv => rv
  | .pending _ => net.ERR_IO_PENDING

/-- The completion value of the step. -/
def StoreStep.value : StoreStep → Int
  | .immediate rv => rv
  | .pending rv => rv

/-- The idiom of every store step in the source,
`int rv = step(..., callback); if (rv != net::ERR_IO_PENDING) callback.Run(rv);`,
followed by the run of the callback that the store makes for a pending
step: the runs of the callback, in order. -/
def dispatch {α : Type} (step : StoreStep) (callback : Int → α) : List α :=
  (if step.returned ≠ net.ERR_IO_PENDING then [callback step.returned] else []) ++
    (match step with
      | .immediate _ => []
      | .pending rv => [callback rv])

/-- The operation of the closure ends: an enumeration error of a Keys is a
negative value. -/
def Closure.Completes : Closure → Prop
  | .Keys o => ∀ p, o.iterator_error = some p → p.2 < 0
  | _ => True

/-- The sum of the byte deltas that the quota proxy has been notified of. -/
def QuotaManagerProxy.total (q : QuotaManagerProxy) : Int :=
  (q.notifications.map (fun n => n.2)).sum

/-- The sum of the sizes of the two streams of an entry. -/
def Entry.storedBytes (e : Entry) : Int :=
  e.GetDataSize .INDEX_HEADERS + e.GetDataSize .INDEX_RESPONSE_BODY

/-- The sum of the sizes of the two streams of the entries in the store. -/
def Backend.storedBytes (b : Backend) : Int :=
  (b.entries.map Entry.storedBytes).sum

/-- The condition under which `PutImpl` evaluates
`blob_storage_context_->GetBlobDataFromUUID(...)` on a weak pointer that has
been invalidated: the cache has a backend, the handle of the body is not
null, and the blob storage context is gone. -/
def usesTornDownBlobStorage (c : ServiceWorkerCache) (blob_data_handle : Option BlobDataHandle) :
    Bool :=
  c.backend_.isSome && blob_data_handle.isSome && c.blob_storage_context_.isNone

/-- Whether a `PutImpl` of the queue evaluates
`blob_storage_context_->GetBlobDataFromUUID(...)` on an invalidated weak
pointer while the queue is replayed on the cache `c`. -/
def replayUsesTornDownBlobStorage (pb : MetadataCodec) :
    ServiceWorkerCache → List Closure → Bool
  | _, [] => false
  | c, closure :: rest =>
    (match closure with
      | .PutImpl _ _ blob_data_handle _ => usesTornDownBlobStorage c blob_data_handle
      | _ => false) ||
      replayUsesTornDownBlobStorage pb (closure.runDirect pb c).1 rest

/-- The entry of a Put of "hi" under `https://x/b`. -/
def sample.storedEntryB : Entry :=
  ⟨"https://x/b", sample.encode (putHeaders sample.requestB (sample.response [] "blob-2")),
    [104, 105]⟩

/-- The cache `sample.cache` with the entries of "hello" and of "hi" in its
store. -/
def sample.storedTwo : ServiceWorkerCache :=
  { sample.cache with backend_ := some ⟨[sample.storedEntry, sample.storedEntryB]⟩ }

/-- The store creates the entry of the call: the call is a Put on a cache
with a backend, its body reference (if any) resolves, and `CreateEntry`
does not fail. -/
def Event.createsEntry (c : ServiceWorkerCache) : Event → Bool
  | .Put request response o =>
    c.backend_.isSome && ((Event.Put request response o).closure c.blob_storage_context_).isSome &&
      o.create_entry.isNone
  | _ => false

/-- The requests committed on an initialized cache `c` after one call whose
result callback was run as `runs`: a Put that completes OK commits its
request under its URL, in place of what was committed under that URL; a Put
that does not complete OK although the store created its entry leaves
nothing committed under its URL; a Delete that completes OK removes what
was committed under its URL; any other call leaves the committed requests
as they were. -/
def committedAfterCall (c : ServiceWorkerCache) (event : Event) (runs : List CallbackRun)
    (committed : List ServiceWorkerFetchRequest) : List ServiceWorkerFetchRequest :=
  match event with
  | .Put request _ _ =>
    if runs.any CallbackRun.isOK then
      committed.filter (fun r => decide (r.url ≠ request.url)) ++ [request]
    else if event.createsEntry c then committed.filter (fun r => decide (r.url ≠ request.url))
    else committed
  | .Delete request _ =>
    if runs.any CallbackRun.isOK then committed.filter (fun r => decide (r.url ≠ request.url))
    else committed
  | _ => committed

/-- The requests committed after a sequence of calls on the cache `c`, from
the requests committed before it. -/
def committedAfter (pb : MetadataCodec) :
    ServiceWorkerCache → List Event → List ServiceWorkerFetchRequest →
      List ServiceWorkerFetchRequest
  | _, [], committed => committed
  | c, event :: rest, committed =>
    committedAfter pb (runEvent pb c event).1 rest
      (committedAfterCall c event (runEvent pb c event).2 committed)

/-- The committed requests in the words of the specification, "Put'd and
not Deleted", after a sequence of calls: those of the Puts that completed
OK, less those under a URL that a Delete completed OK for since. -/
def putAndNotDeleted (pb : MetadataCodec) :
    ServiceWorkerCache → List Event → List ServiceWorkerFetchRequest →
      List ServiceWorkerFetchRequest
  | _, [], committed => committed
  | c, event :: rest, committed =>
    putAndNotDeleted pb (runEvent pb c event).1 rest
      (if (runEvent pb c event).2.any CallbackRun.isOK then
        match event with
        | .Put request _ _ =>
          committed.filter (fun r => decide (r.url ≠ request.url)) ++ [request]
        | .Delete request _ => committed.filter (fun r => decide (r.url ≠ request.url))
        | _ => committed
      else committed)

/-- The event is a Delete, or a Put whose metadata the codec decodes again
if it serializes it, and whose request headers are a well-formed map.  The
outcomes of the store operations of the call are arbitrary. -/
def Event.IsPutOrDelete (pb : MetadataCodec) : Event → Prop
  | .Put request response _ =>
    pb.RoundTripsAt (putHeaders request response) ∧ request.headers.WellFormed
  | .Delete _ _ => True
  | _ => False

/-- The metadata of the entry decodes. -/
def Entry.decodes (pb : MetadataCodec) (e : Entry) : Bool :=
  (pb.ParseFromArray e.headers_stream).isSome

/-- A Put of "hello" under `https://x/a` followed by a Put under the same
URL whose first write of the body fails. -/
def sample.callsFailing : List Event :=
  [.Put (sample.request []) (sample.response [] "blob-1") {},
    .Put (sample.request []) (sample.response [] "blob-1") { write_body := [some 0] }]

/-- The cache on which the loop of `InitDone` starts after the completion of
the backend creation with `backend_ptr` and `rv`: `CreateBackendDidCreate`
has set the backend when `rv` is `net::OK`, and `InitDone` has set
`initialized_`. -/
def ServiceWorkerCache.readied (c : ServiceWorkerCache) (backend_ptr : Option Backend)
    (rv : Int) : ServiceWorkerCache :=
  { c with
    backend_ := if rv ≠ net.OK then c.backend_ else backend_ptr
    initialized_ := true }

/-! ## The operations step by step

The operations once more, with every call of a store step written as in the
source, `int rv = step(..., callback); if (rv != net::ERR_IO_PENDING)
callback.Run(rv);`: the call is the last statement of its function, so that
what follows it is what its callback does.  `modes` says of the store steps
of an operation, in the order in which they are made, which ones return
`net::ERR_IO_PENDING` (`true`); a step without a mode returns its value at
once.  The result of a function is the list of the ways in which the
pipeline ended, in order: the state it has left and the runs of the result
callback.  The completions of the blob request of a Put are not store
steps: they are the reads of `blobReads`, in every mode; a `Close()` during
a Keys is the one that `o.close_at` gives, in every mode. -/

/-- The store step that completes with `rv`, as a call that returns
`net::ERR_IO_PENDING` (`pending = true`) or as one that returns `rv`. -/
def StoreStep.ofMode (pending : Bool) (rv : Int) : StoreStep :=
  if pending then .pending rv else .immediate rv

/-- The loop `ReadFromBlob` / `OnReadCompleted` / `DidWriteDataToEntry` of
`BlobReader`, with the write of `OnReadCompleted` as a store step;
`callback_` is the member of that name, run with the store and `success`. -/
def BlobReader.ReadFromBlobSteps {α : Type} (callback_ : Backend → Bool → List α)
    (entry_ : String) (write_body : List (Option Int)) :
    Backend → Nat → Nat → List BlobRead → List Bool → List α
  -- OnReadCompleted with bytes_read == 0
  | backend, _, _, [], _ => callback_ backend true
  -- !request->status().is_success()
  | backend, _, _, .failure :: _, _ => callback_ backend false
  | backend, write_number, cache_entry_offset_, .data buffer_ :: rest, modes =>
    if buffer_.length = 0 then callback_ backend true
    else
      let w := backend.WriteData entry_ .INDEX_RESPONSE_BODY cache_entry_offset_ buffer_ true
        (write_body.getD write_number none)
      (dispatch (StoreStep.ofMode (modes.headD false) w.2) (fun rv =>
        -- DidWriteDataToEntry(expected_bytes = bytes_read, rv)
        if rv ≠ (buffer_.length : Int) then callback_ w.1 false
        else
          BlobReader.ReadFromBlobSteps callback_ entry_ write_body w.1 (write_number + 1)
            (cache_entry_offset_ + buffer_.length) rest modes.tail)).flatten

/-- The callback `PutDidWriteHeaders(put_context, expected_bytes, rv)`, with
the store steps of the `BlobReader` it starts. -/
def PutDidWriteHeadersSteps (w : Collaborators) (put_context : PutContext)
    (expected_bytes rv : Int) (o : Outcomes) (modes : List Bool) :
    List (Collaborators × ResponseCallbackArgs) :=
  if rv ≠ expected_bytes then
    [({ w with backend := w.backend.Doom put_context.cache_entry },
      ⟨.ErrorTypeStorage, none, none⟩)]
  else if put_context.response.blob_uuid = "" then
    [(w.notify put_context.origin (w.backend.GetDataSize put_context.cache_entry .INDEX_HEADERS),
      ⟨.ErrorTypeOK, some put_context.response, none⟩)]
  else
    let reads :=
      match put_context.blob_data_handle with
      | some blob_data_handle => blobReads blob_data_handle o.blob_read_failure
      | none => [BlobRead.failure]
    BlobReader.ReadFromBlobSteps
      (fun backend success =>
        [PutDidWriteBlobToCache { w with backend := backend } put_context success])
      put_context.cache_entry o.write_body w.backend 0 0 reads modes

/-- The callback `PutDidCreateEntry(put_context, rv)`, with the write of the
metadata as a store step. -/
def PutDidCreateEntrySteps (pb : MetadataCodec) (w : Collaborators) (put_context : PutContext)
    (rv : Int) (o : Outcomes) (modes : List Bool) : List (Collaborators × ResponseCallbackArgs) :=
  if rv ≠ net.OK then [(w, ⟨.ErrorTypeExists, none, none⟩)]
  else
    match pb.SerializeToString (putHeaders put_context.request put_context.response) with
    | none => [(w, ⟨.ErrorTypeStorage, none, none⟩)]
    | some serialized =>
      let written :=
        w.backend.WriteData put_context.cache_entry .INDEX_HEADERS 0 serialized true o.write_headers
      (dispatch (StoreStep.ofMode (modes.headD false) written.2) (fun rv =>
        PutDidWriteHeadersSteps { w with backend := written.1 } put_context
          (serialized.length : Int) rv o modes.tail)).flatten

/-- The method `ServiceWorkerCache::PutImpl`, with `CreateEntry` as a store
step. -/
def PutImplSteps (pb : MetadataCodec) (c : ServiceWorkerCache)
    (request : ServiceWorkerFetchRequest) (response : ServiceWorkerResponse)
    (blob_data_handle : Option BlobDataHandle) (o : Outcomes) (modes : List Bool) :
    List (ServiceWorkerCache × List CallbackRun) :=
  match c.backend_ with
  | none => [(c, [.response ⟨.ErrorTypeStorage, none, none⟩])]
  | some backend =>
    let put_context : PutContext :=
      { origin := c.origin_
        request := request
        response := response
        blob_data_handle := blob_data_handle
        cache_entry := request.url
        -- Grab another handle to the blob for the callback response.
        out_blob_data_handle :=
          if blob_data_handle.isSome then
            c.blob_storage_context_.bind (fun ctx => ctx.GetBlobDataFromUUID response.blob_uuid)
          else none }
    let created : Backend × Int :=
      match o.create_entry with
      | some failure => (backend, failure.rv)
      | none => (backend.CreateEntry request.url, net.OK)
    (dispatch (StoreStep.ofMode (modes.headD false) created.2) (fun rv =>
      (PutDidCreateEntrySteps pb ⟨created.1, c.quota_manager_proxy_, c.blob_storage_context_⟩
          put_context rv o modes.tail).map
        (fun done => (c.withCollaborators done.1, [.response done.2])))).flatten

/-- The functions `ReadHeaders` and `ReadHeadersDidReadHeaderData`, with the
read of the metadata as a store step; `callback` is run with the metadata,
`none` for a null pointer. -/
def ReadHeadersSteps {α : Type} (pb : MetadataCodec) (entry : Entry) (forced : Option Int)
    (pending : Bool) (callback : Option ServiceWorkerRequestResponseHeaders → List α) : List α :=
  let buffer_size := entry.GetDataSize .INDEX_HEADERS
  let buffer := entry.ReadData .INDEX_HEADERS 0 buffer_size.toNat
  (dispatch (StoreStep.ofMode pending (forced.getD (buffer.length : Int))) (fun rv =>
    if rv ≠ buffer_size then callback none
    else callback (pb.ParseFromArray buffer))).flatten

/-- The callback `MatchDidReadResponseBodyData`, with the next read of the
body as a store step. -/
def MatchDidReadResponseBodyDataSteps (blob_storage : Option BlobStorageContext)
    (entry : Entry) (o : Outcomes) (response : ServiceWorkerResponse) :
    Nat → ResponseReadContext → Nat → Bytes → Int → List Bool →
      List (Option BlobStorageContext × List ResponseCallbackArgs)
  | 0, _, _, _, _, _ => [(blob_storage, [])]
  | fuel + 1, response_context, read_number, buffer, rv, modes =>
    if rv < 0 then [(blob_storage, [⟨.ErrorTypeStorage, none, none⟩])]
    else if rv = 0 then
      [MatchDoneWithBody blob_storage
        { response with
          blob_uuid := response_context.blob_data.uuid
          blob_size := response_context.total_bytes_read }
        response_context]
    else
      let response_context : ResponseReadContext :=
        { blob_data := { response_context.blob_data with
                         data := response_context.blob_data.data ++ buffer }
          total_bytes_read := response_context.total_bytes_read + rv }
      let read := readBody entry o (read_number + 1) response_context.total_bytes_read
      (dispatch (StoreStep.ofMode (modes.headD false) read.2) (fun rv =>
        MatchDidReadResponseBodyDataSteps blob_storage entry o response fuel response_context
          (read_number + 1) read.1 rv modes.tail)).flatten

/-- The callback `MatchDidReadHeaderData(request, callback, blob_storage,
entry, headers)`, with the first read of the body as a store step. -/
def MatchDidReadHeaderDataSteps (blob_storage : Option BlobStorageContext)
    (request : ServiceWorkerFetchRequest) (entry : Entry) (o : Outcomes)
    (headers : Option ServiceWorkerRequestResponseHeaders) (modes : List Bool) :
    List (Option BlobStorageContext × List ResponseCallbackArgs) :=
  match headers with
  | none => [(blob_storage, [⟨.ErrorTypeStorage, none, none⟩])]
  | some headers =>
    let response : ServiceWorkerResponse :=
      { url := request.url
        status_code := headers.status_code
        status_text := headers.status_text
        response_type := ProtoResponseTypeToWebResponseType headers.response_type
        headers := headers.response_headers.foldl (fun m h => m.insert h.1 h.2)
          ServiceWorkerHeaderMap.empty
        blob_uuid := ""
        blob_size := 0 }
    let cached_request_headers : ServiceWorkerHeaderMap :=
      headers.request_headers.foldl (fun m h => m.assign h.1 h.2) ServiceWorkerHeaderMap.empty
    if !VaryMatches request.headers cached_request_headers response.headers then
      [(blob_storage, [⟨.ErrorTypeNotFound, none, none⟩])]
    else if entry.GetDataSize .INDEX_RESPONSE_BODY = 0 then
      [(blob_storage, [⟨.ErrorTypeOK, some response, none⟩])]
    else if blob_storage.isNone then
      [(blob_storage, [⟨.ErrorTypeStorage, none, none⟩])]
    else
      let response := { response with blob_uuid := o.guid }
      let read_context : ResponseReadContext := ⟨⟨response.blob_uuid, []⟩, 0⟩
      let read := readBody entry o 0 0
      (dispatch (StoreStep.ofMode (modes.headD false) read.2) (fun rv =>
        MatchDidReadResponseBodyDataSteps blob_storage entry o response (matchFuel entry o)
          read_context 0 read.1 rv modes.tail)).flatten

/-- The callback `MatchDidOpenEntry(request, callback, blob_storage, entryptr,
rv)`, with the store step of `ReadHeaders`. -/
def MatchDidOpenEntrySteps (pb : MetadataCodec) (blob_storage : Option BlobStorageContext)
    (request : ServiceWorkerFetchRequest) (entryptr : Option Entry) (rv : Int) (o : Outcomes)
    (modes : List Bool) : List (Option BlobStorageContext × List ResponseCallbackArgs) :=
  if rv ≠ net.OK then [(blob_storage, [⟨.ErrorTypeNotFound, none, none⟩])]
  else
    match entryptr with
    | none => [(blob_storage, [⟨.ErrorTypeNotFound, none, none⟩])]
    | some entry =>
      ReadHeadersSteps pb entry (o.read_headers.getD 0 none) (modes.headD false)
        (fun headers => MatchDidReadHeaderDataSteps blob_storage request entry o headers modes.tail)

/-- The method `ServiceWorkerCache::Match` past its init gate, with
`OpenEntry` as a store step. -/
def MatchReadySteps (pb : MetadataCodec) (c : ServiceWorkerCache)
    (request : ServiceWorkerFetchRequest) (o : Outcomes) (modes : List Bool) :
    List (ServiceWorkerCache × List CallbackRun) :=
  match c.backend_ with
  | none => [(c, [.response ⟨.ErrorTypeStorage, none, none⟩])]
  | some backend =>
    let opened := openEntry backend request.url o
    (dispatch (StoreStep.ofMode (modes.headD false) opened.2) (fun rv =>
      (MatchDidOpenEntrySteps pb c.blob_storage_context_ request opened.1 rv o modes.tail).map
        (fun done =>
          ({ c with blob_storage_context_ := done.1 }, done.2.map CallbackRun.response)))).flatten

/-- The method `ServiceWorkerCache::Delete` past its init gate, with
`OpenEntry` as a store step. -/
def DeleteReadySteps (c : ServiceWorkerCache) (request : ServiceWorkerFetchRequest)
    (o : Outcomes) (modes : List Bool) : List (ServiceWorkerCache × List CallbackRun) :=
  match c.backend_ with
  | none => [(c, [.error .ErrorTypeStorage])]
  | some backend =>
    let opened := openEntry backend request.url o
    dispatch (StoreStep.ofMode (modes.headD false) opened.2) (fun rv =>
      let done :=
        DeleteDidOpenEntry ⟨backend, c.quota_manager_proxy_, c.blob_storage_context_⟩ c.origin_
          opened.1 rv
      (c.withCollaborators done.1, [.error done.2]))

/-- The method `KeysProcessNextEntry(keys_context, iter)` over the entries
from `iter` on, with the store step of `ReadHeaders`. -/
def KeysProcessNextEntrySteps (pb : MetadataCodec) (o : Outcomes) :
    Option Backend → List ServiceWorkerFetchRequest → Nat → List Entry → List Bool →
      List (Option Backend × CallbackRun)
  | backend, out_keys, _, [], _ => [(backend, .requests .ErrorTypeOK (some out_keys))]
  | backend, out_keys, index, entry :: rest, modes =>
    ReadHeadersSteps pb entry (o.read_headers.getD index none) (modes.headD false)
      (fun headers =>
        let read := KeysDidReadHeaders backend out_keys entry headers
        KeysProcessNextEntrySteps pb o read.1 read.2 (index + 1) rest modes.tail)

/-- The call `iterator.OpenNextEntry(enumerated_entry, open_entry_callback)`
that `Keys` and `KeysDidOpenNextEntry` end with, as a store step, and the
callback `KeysDidOpenNextEntry(keys_context, rv)` that it runs, over the
completions of the iterator that are still to come. -/
def KeysDidOpenNextEntrySteps (pb : MetadataCodec) (o : Outcomes) :
    ServiceWorkerCache → List Entry → Nat → List IteratorStep → List Bool →
      List (ServiceWorkerCache × List CallbackRun)
  | c, _, _, [], _ => [(c, [])]
  | c, entries, step, completion :: later, modes =>
    let value : Int :=
      match completion with
      | .entry _ => net.OK
      | .stop rv => rv
    (dispatch (StoreStep.ofMode (modes.headD false) value) (fun rv =>
      let c := if o.close_at = some step then c.Close else c
      if rv = net.ERR_FAILED then
        -- Enumeration is complete, extract the requests from the entries.
        (KeysProcessNextEntrySteps pb o c.backend_ [] 0 entries modes.tail).map
          (fun done => ({ c with backend_ := done.1 }, [done.2]))
      else if rv < 0 then [(c, [.requests .ErrorTypeStorage none])]
      else if c.backend_.isNone then [(c, [.requests .ErrorTypeNotFound none])]
      else
        let entries :=
          match completion with
          | .entry e => entries ++ [e]
          | .stop _ => entries
        KeysDidOpenNextEntrySteps pb o c entries (step + 1) later modes.tail)).flatten

/-- The method `ServiceWorkerCache::Keys` past its init gate, with the
enumeration steps as store steps. -/
def KeysReadySteps (pb : MetadataCodec) (c : ServiceWorkerCache) (o : Outcomes)
    (modes : List Bool) : List (ServiceWorkerCache × List CallbackRun) :=
  match c.backend_ with
  | none => [(c, [.requests .ErrorTypeStorage none])]
  | some backend => KeysDidOpenNextEntrySteps pb o c [] 0 (iteratorSteps backend o) modes

/-- The operation of a closure run directly, step by step. -/
def Closure.runSteps (pb : MetadataCodec) (c : ServiceWorkerCache) :
    Closure → List Bool → List (ServiceWorkerCache × List CallbackRun)
  | .PutImpl request response blob_data_handle o, modes =>
    PutImplSteps pb c request response blob_data_handle o modes
  | .Match request o, modes => MatchReadySteps pb c request o modes
  | .Delete request o, modes => DeleteReadySteps c request o modes
  | .Keys o, modes => KeysReadySteps pb c o modes

/-- The outcomes of the operation that the closure completes. -/
def Closure.outcomes : Closure → Outcomes
  | .PutImpl _ _ _ o => o
  | .Match _ o => o
  | .Delete _ o => o
  | .Keys o => o

/-- The values that the store steps of the operation complete with are
completion values: none of them is `net::ERR_IO_PENDING`, the value that a
call returns for a step that has not completed. -/
def Outcomes.NoPendingValue (o : Outcomes) : Prop :=
  o.write_headers ≠ some net.ERR_IO_PENDING ∧
    (∀ v ∈ o.write_body, v ≠ some net.ERR_IO_PENDING) ∧
    (∀ v ∈ o.read_headers, v ≠ some net.ERR_IO_PENDING) ∧
    (∀ v ∈ o.read_body, v ≠ some net.ERR_IO_PENDING) ∧
    ∀ p, o.iterator_error = some p → p.2 ≠ net.ERR_IO_PENDING

/-! ## The header map -/

theorem lexLess_irrefl (a : List Nat) : lexLess a a = false := by
  induction a with
  | nil => rfl
  | cons x xs ih => simp [lexLess, ih]

theorem lexLess_asymm : ∀ a b : List Nat, lexLess a b = true → lexLess b a = false
  | [], [], _ => rfl
  | [], _ :: _, _ => rfl
  | _ :: _, [], h => by simp [lexLess] at h
  | x :: xs, y :: ys, h => by
    simp only [lexLess] at h ⊢
    by_cases hxy : x < y
    · have : ¬ y < x := by omega
      simp [this, hxy]
    · by_cases hyx : y < x
      · simp [hxy, hyx] at h
      · simp only [hxy, hyx, if_false] at h ⊢
        exact lexLess_asymm xs ys h

theorem lexLess_eq_of_not : ∀ a b : List Nat, lexLess a b = false → lexLess b a = false → a = b
  | [], [], _, _ => rfl
  | [], _ :: _, h, _ => by simp [lexLess] at h
  | _ :: _, [], _, h => by simp [lexLess] at h
  | x :: xs, y :: ys, h1, h2 => by
    simp only [lexLess] at h1 h2
    by_cases hxy : x < y
    · simp [hxy] at h1
    · by_cases hyx : y < x
      · simp [hyx] at h2
      · simp only [hxy, hyx, if_false] at h1 h2
        have hx : x = y := by omega
        rw [hx, lexLess_eq_of_not xs ys h1 h2]

theorem sameKey_iff (a b : String) : sameKey a b = true ↔ foldCase a = foldCase b := by
  unfold sameKey ServiceWorkerCaseInsensitiveCompare
  constructor
  · intro h
    simp only [Bool.and_eq_true, Bool.not_eq_true'] at h
    exact lexLess_eq_of_not _ _ h.1 h.2
  · intro h
    rw [h]
    simp [lexLess_irrefl]

theorem insertEntries_append (name value : String) :
    ∀ l : List (String × String),
      (∀ e ∈ l, ServiceWorkerCaseInsensitiveCompare e.1 name = true) →
        ServiceWorkerHeaderMap.insertEntries name value l = l ++ [(name, value)]
  | [], _ => rfl
  | e :: rest, h => by
    have he : ServiceWorkerCaseInsensitiveCompare e.1 name = true := h e (List.mem_cons_self _ _)
    have hne : ServiceWorkerCaseInsensitiveCompare name e.1 = false := lexLess_asymm _ _ he
    simp only [ServiceWorkerHeaderMap.insertEntries, hne, he, if_true, List.cons_append]
    rw [insertEntries_append name value rest (fun x hx => h x (List.mem_cons_of_mem _ hx))]
    simp

theorem assignEntries_append (name value : String) :
    ∀ l : List (String × String),
      (∀ e ∈ l, ServiceWorkerCaseInsensitiveCompare e.1 name = true) →
        ServiceWorkerHeaderMap.assignEntries name value l = l ++ [(name, value)]
  | [], _ => rfl
  | e :: rest, h => by
    have he : ServiceWorkerCaseInsensitiveCompare e.1 name = true := h e (List.mem_cons_self _ _)
    have hne : ServiceWorkerCaseInsensitiveCompare name e.1 = false := lexLess_asymm _ _ he
    simp only [ServiceWorkerHeaderMap.assignEntries, hne, he, if_true, List.cons_append]
    rw [assignEntries_append name value rest (fun x hx => h x (List.mem_cons_of_mem _ hx))]
    simp

/-- Inserting the elements of a well-formed map in order rebuilds the map. -/
theorem foldl_insert_entries :
    ∀ (l acc : List (String × String)),
      (acc ++ l).Pairwise (fun a b => ServiceWorkerCaseInsensitiveCompare a.1 b.1 = true) →
        l.foldl (fun m h => ServiceWorkerHeaderMap.insert m h.1 h.2) ⟨acc⟩ = ⟨acc ++ l⟩
  | [], acc, _ => by simp
  | x :: xs, acc, hp => by
    have hacc : ∀ e ∈ acc, ServiceWorkerCaseInsensitiveCompare e.1 x.1 = true := by
      intro e he
      exact (List.pairwise_append.1 hp).2.2 e he x (List.mem_cons_self _ _)
    have hp2 : ((acc ++ [x]) ++ xs).Pairwise
        (fun a b => ServiceWorkerCaseInsensitiveCompare a.1 b.1 = true) := by
      simpa using hp
    have hstep : ServiceWorkerHeaderMap.insert ⟨acc⟩ x.1 x.2 = ⟨acc ++ [x]⟩ := by
      simp only [ServiceWorkerHeaderMap.insert]
      rw [insertEntries_append x.1 x.2 acc hacc]
    rw [List.foldl_cons, hstep, foldl_insert_entries xs (acc ++ [x]) hp2]
    simp

/-- Assigning the elements of a well-formed map in order rebuilds the map. -/
theorem foldl_assign_entries :
    ∀ (l acc : List (String × String)),
      (acc ++ l).Pairwise (fun a b => ServiceWorkerCaseInsensitiveCompare a.1 b.1 = true) →
        l.foldl (fun m h => ServiceWorkerHeaderMap.assign m h.1 h.2) ⟨acc⟩ = ⟨acc ++ l⟩
  | [], acc, _ => by simp
  | x :: xs, acc, hp => by
    have hacc : ∀ e ∈ acc, ServiceWorkerCaseInsensitiveCompare e.1 x.1 = true := by
      intro e he
      exact (List.pairwise_append.1 hp).2.2 e he x (List.mem_cons_self _ _)
    have hp2 : ((acc ++ [x]) ++ xs).Pairwise
        (fun a b => ServiceWorkerCaseInsensitiveCompare a.1 b.1 = true) := by
      simpa using hp
    have hstep : ServiceWorkerHeaderMap.assign ⟨acc⟩ x.1 x.2 = ⟨acc ++ [x]⟩ := by
      simp only [ServiceWorkerHeaderMap.assign]
      rw [assignEntries_append x.1 x.2 acc hacc]
    rw [List.foldl_cons, hstep, foldl_assign_entries xs (acc ++ [x]) hp2]
    simp

theorem foldl_insert_wellFormed (m : ServiceWorkerHeaderMap) (h : m.WellFormed) :
    m.entries.foldl (fun m h => ServiceWorkerHeaderMap.insert m h.1 h.2)
      ServiceWorkerHeaderMap.empty = m := by
  have := foldl_insert_entries m.entries [] (by simpa using h)
  simpa [ServiceWorkerHeaderMap.empty] using this

theorem foldl_assign_wellFormed (m : ServiceWorkerHeaderMap) (h : m.WellFormed) :
    m.entries.foldl (fun m h => ServiceWorkerHeaderMap.assign m h.1 h.2)
      ServiceWorkerHeaderMap.empty = m := by
  have := foldl_assign_entries m.entries [] (by simpa using h)
  simpa [ServiceWorkerHeaderMap.empty] using this

/-! ## Vary matching -/

theorem VaryMatchesLoop_wildcard (R C : ServiceWorkerHeaderMap) :
    ∀ toks : List String, (∃ tok ∈ toks, TrimWhitespaceASCII tok = "*") →
      VaryMatchesLoop R C toks = false
  | [], h => by simp at h
  | t :: rest, h => by
    by_cases ht : TrimWhitespaceASCII t = "*"
    · simp [VaryMatchesLoop, ht]
    · have hrest : ∃ tok ∈ rest, TrimWhitespaceASCII tok = "*" := by
        obtain ⟨tok, hmem, hstar⟩ := h
        rcases List.mem_cons.1 hmem with rfl | hmem
        · exact absurd hstar ht
        · exact ⟨tok, hmem, hstar⟩
      simp only [VaryMatchesLoop, ht, if_false]
      split
      · rfl
      · split
        · rfl
        · exact VaryMatchesLoop_wildcard R C rest hrest

theorem VaryMatchesLoop_iff (R C : ServiceWorkerHeaderMap) :
    ∀ toks : List String, (∀ tok ∈ toks, TrimWhitespaceASCII tok ≠ "*") →
      (VaryMatchesLoop R C toks = true ↔
        ∀ tok ∈ toks, VaryTokenAgrees R C (TrimWhitespaceASCII tok))
  | [], _ => by simp [VaryMatchesLoop]
  | t :: rest, h => by
    have ht : TrimWhitespaceASCII t ≠ "*" := h t (List.mem_cons_self _ _)
    have ih := VaryMatchesLoop_iff R C rest (fun x hx => h x (List.mem_cons_of_mem _ hx))
    simp only [VaryMatchesLoop, ht, if_false, List.forall_mem_cons, VaryTokenAgrees]
    cases hr : R.find (TrimWhitespaceASCII t) <;> cases hc : C.find (TrimWhitespaceASCII t)
    · simpa [VaryTokenAgrees] using ih
    · simp
    · simp
    · rename_i a b
      by_cases hab : a = b
      · subst hab
        simpa [VaryTokenAgrees] using ih
      · simp [hab]

theorem VaryMatchesLoop_self (R : ServiceWorkerHeaderMap) (toks : List String)
    (h : ∀ tok ∈ toks, TrimWhitespaceASCII tok ≠ "*") : VaryMatchesLoop R R toks = true := by
  rw [VaryMatchesLoop_iff R R toks h]
  intro tok _
  refine ⟨Iff.rfl, ?_⟩
  intro a b ha hb
  rw [ha] at hb
  exact Option.some.inj hb

/-- A request matches the cached request with the same headers, when the
Vary value has no wildcard. -/
theorem VaryMatches_self (R P : ServiceWorkerHeaderMap) (h : NoWildcardVary P) :
    VaryMatches R R P = true := by
  unfold VaryMatches
  cases hv : P.find "vary" with
  | none => rfl
  | some v => exact VaryMatchesLoop_self R _ (h v hv)

theorem find_cons (e : String × String) (l : List (String × String)) (k : String) :
    ServiceWorkerHeaderMap.find ⟨e :: l⟩ k =
      if sameKey e.1 k then some e.2 else ServiceWorkerHeaderMap.find ⟨l⟩ k := by
  unfold ServiceWorkerHeaderMap.find
  by_cases h : sameKey e.1 k = true
  · simp [List.find?, h]
  · simp [List.find?, h]

theorem sameKey_congr {a a' b b' : String} (ha : foldCase a = foldCase a')
    (hb : foldCase b = foldCase b') : sameKey a b = sameKey a' b' := by
  unfold sameKey ServiceWorkerCaseInsensitiveCompare
  rw [ha, hb]

/-- Lookup commutes with a change of letter case in the names of a map and
in the name that is looked up; the values found are related as the values
of the two maps are. -/
theorem find_forall₂ (Rv : String → String → Prop) (k k' : String)
    (hk : foldCase k = foldCase k') :
    ∀ l l' : List (String × String),
      List.Forall₂ (fun a b => foldCase a.1 = foldCase b.1 ∧ Rv a.2 b.2) l l' →
        (ServiceWorkerHeaderMap.find ⟨l⟩ k = none ∧ ServiceWorkerHeaderMap.find ⟨l'⟩ k' = none) ∨
          ∃ v v', ServiceWorkerHeaderMap.find ⟨l⟩ k = some v ∧
            ServiceWorkerHeaderMap.find ⟨l'⟩ k' = some v' ∧ Rv v v'
  | _, _, .nil => Or.inl ⟨rfl, rfl⟩
  | e :: l, e' :: l', .cons he hl => by
    rw [find_cons, find_cons, sameKey_congr he.1 hk]
    by_cases hs : sameKey e'.1 k' = true
    · simp only [hs, if_true]
      exact Or.inr ⟨e.2, e'.2, rfl, rfl, he.2⟩
    · simp only [hs]
      exact find_forall₂ Rv k k' hk l l' hl

theorem find_caseVariant {m m' : ServiceWorkerHeaderMap} (h : m.CaseVariant m') {k k' : String}
    (hk : foldCase k = foldCase k') : m.find k = m'.find k' := by
  rcases find_forall₂ (fun a b => a = b) k k' hk m.entries m'.entries h with ⟨h1, h2⟩ |
    ⟨v, v', h1, h2, hv⟩
  · exact h1.trans h2.symm
  · subst hv
    exact h1.trans h2.symm

theorem eq_star_iff (s : String) : s = "*" ↔ foldCase s = [42] := by
  constructor
  · intro h
    subst h
    decide
  · intro h
    obtain ⟨l⟩ := s
    unfold foldCase at h
    simp only at h
    match l, h with
    | [], h => simp at h
    | _ :: _ :: _, h => simp at h
    | [c], h =>
      simp only [List.map_cons, List.map_nil, List.cons.injEq, and_true] at h
      have hc : c.toNat = 42 := by
        unfold toLowerASCII at h
        split at h <;> omega
      have : c = Char.ofNat 42 := by rw [← hc, Char.ofNat_toNat]
      subst this
      rfl

theorem eq_star_congr {s s' : String} (h : foldCase s = foldCase s') : s = "*" ↔ s' = "*" := by
  rw [eq_star_iff, eq_star_iff, h]

theorem VaryMatchesLoop_caseVariant {R R' C C' : ServiceWorkerHeaderMap} (hR : R.CaseVariant R')
    (hC : C.CaseVariant C') :
    ∀ toks toks' : List String,
      List.Forall₂
        (fun t t' => foldCase (TrimWhitespaceASCII t) = foldCase (TrimWhitespaceASCII t'))
        toks toks' →
        VaryMatchesLoop R C toks = VaryMatchesLoop R' C' toks'
  | _, _, .nil => rfl
  | t :: rest, t' :: rest', .cons ht hrest => by
    have ih := VaryMatchesLoop_caseVariant hR hC rest rest' hrest
    simp only [VaryMatchesLoop]
    rw [find_caseVariant hR ht, find_caseVariant hC ht, ih]
    by_cases hs : TrimWhitespaceASCII t' = "*"
    · rw [if_pos hs, if_pos ((eq_star_congr ht).2 hs)]
    · rw [if_neg hs, if_neg (fun h => hs ((eq_star_congr ht).1 h))]

/-- C4: `VaryMatches(R, C, P)` is true when `P` has no Vary header; when `P`
has one and no trimmed token of its value is `*`, it is true exactly when
every trimmed token is present in `R` exactly when it is present in `C`, and
with equal values when it is present in both. -/
theorem vary_matches_characterised (R C P : ServiceWorkerHeaderMap) :
    (P.find "vary" = none → VaryMatches R C P = true) ∧
      (∀ v, P.find "vary" = some v →
        (∀ tok ∈ Tokenize v, TrimWhitespaceASCII tok ≠ "*") →
          (VaryMatches R C P = true ↔
            ∀ tok ∈ Tokenize v, VaryTokenAgrees R C (TrimWhitespaceASCII tok))) := by
  constructor
  · intro h
    simp [VaryMatches, h]
  · intro v hv hstar
    simp only [VaryMatches, hv]
    exact VaryMatchesLoop_iff R C (Tokenize v) hstar

/-- An instance of C4: the request and the cached request agree on the two
headers that the Vary value lists. -/
theorem vary_matches_characterised_witness :
    ∀ tok ∈ Tokenize "Accept, X",
      VaryTokenAgrees ⟨[("Accept", "a")]⟩ ⟨[("accept", "a")]⟩ (TrimWhitespaceASCII tok) :=
  ((vary_matches_characterised ⟨[("Accept", "a")]⟩ ⟨[("accept", "a")]⟩
      ⟨[("Vary", "Accept, X")]⟩).2 "Accept, X" (by decide) (by decide)).1 (by decide)

/-- C5: when the Vary value of `P` has a token that is `*` after trimming,
`VaryMatches(R, C, P)` is false, wherever the token stands and whatever `R`
and `C` are. -/
theorem vary_wildcard_never_matches (R C P : ServiceWorkerHeaderMap) (v tok : String)
    (hvary : P.find "vary" = some v) (htok : tok ∈ Tokenize v)
    (hstar : TrimWhitespaceASCII tok = "*") : VaryMatches R C P = false := by
  simp only [VaryMatches, hvary]
  exact VaryMatchesLoop_wildcard R C (Tokenize v) ⟨tok, htok, hstar⟩

/-- An instance of C5: the wildcard is the last of two tokens and the two
requests have the same headers. -/
theorem vary_wildcard_never_matches_witness :
    VaryMatches ⟨[("Accept", "a")]⟩ ⟨[("Accept", "a")]⟩ ⟨[("Vary", "Accept, *")]⟩ = false :=
  vary_wildcard_never_matches ⟨[("Accept", "a")]⟩ ⟨[("Accept", "a")]⟩ ⟨[("Vary", "Accept, *")]⟩
    "Accept, *" " *" (by decide) (by decide) (by decide)

/-- C6: the result of `VaryMatches(R, C, P)` does not change when the letter
case is changed of header names in `R`, in `C` and in `P` (the name of the
Vary header among them) and of the header names that the Vary value lists. -/
theorem vary_matches_case_insensitive (R R' C C' P P' : ServiceWorkerHeaderMap)
    (hR : R.CaseVariant R') (hC : C.CaseVariant C') (hP : P.VaryCaseVariant P') :
    VaryMatches R C P = VaryMatches R' C' P' := by
  obtain ⟨l⟩ := P
  obtain ⟨l'⟩ := P'
  unfold VaryMatches
  rcases find_forall₂ VaryCaseVariant "vary" "vary" rfl l l' hP with ⟨h1, h2⟩ |
    ⟨v, v', h1, h2, hv⟩
  · rw [h1, h2]
  · rw [h1, h2]
    exact VaryMatchesLoop_caseVariant hR hC _ _ hv

/-- An instance of C6: the names `Accept` and `Vary` in other letter cases. -/
theorem vary_matches_case_insensitive_witness :
    VaryMatches ⟨[("Accept", "a")]⟩ ⟨[("accept", "a")]⟩ ⟨[("Vary", "Accept")]⟩ =
      VaryMatches ⟨[("ACCEPT", "a")]⟩ ⟨[("accept", "a")]⟩ ⟨[("VARY", "aCCEPT")]⟩ :=
  vary_matches_case_insensitive ⟨[("Accept", "a")]⟩ ⟨[("ACCEPT", "a")]⟩ ⟨[("accept", "a")]⟩
    ⟨[("accept", "a")]⟩ ⟨[("Vary", "Accept")]⟩ ⟨[("VARY", "aCCEPT")]⟩
    (List.Forall₂.cons ⟨by decide, rfl⟩ List.Forall₂.nil)
    (List.Forall₂.cons ⟨by decide, rfl⟩ List.Forall₂.nil)
    (List.Forall₂.cons
      ⟨by decide, by
        unfold VaryCaseVariant
        rw [show Tokenize "Accept" = ["Accept"] by decide,
          show Tokenize "aCCEPT" = ["aCCEPT"] by decide]
        exact List.Forall₂.cons (by decide) List.Forall₂.nil⟩
      List.Forall₂.nil)

/-! ## The entry store -/

theorem find?_key_filter_ne (l : List Entry) (k : String) :
    (l.filter (fun e => e.key ≠ k)).find? (fun e => e.key = k) = none := by
  rw [List.find?_eq_none]
  intro e he
  simpa using (List.mem_filter.1 he).2

theorem OpenEntry_Doom (b : Backend) (k : String) : (b.Doom k).OpenEntry k = none :=
  find?_key_filter_ne b.entries k

theorem Doom_key_ne (b : Backend) (k : String) : ∀ e ∈ (b.Doom k).entries, e.key ≠ k := by
  intro e he
  simpa [Backend.Doom] using (List.mem_filter.1 he).2

theorem OpenEntry_append_new (pre : List Entry) (e : Entry) (hpre : ∀ x ∈ pre, x.key ≠ e.key) :
    Backend.OpenEntry ⟨pre ++ [e]⟩ e.key = some e := by
  unfold Backend.OpenEntry
  induction pre with
  | nil => simp [List.find?]
  | cons x xs ih =>
    have hx : x.key ≠ e.key := hpre x (List.mem_cons_self _ _)
    simp only [List.cons_append, List.find?, hx, decide_False]
    exact ih (fun y hy => hpre y (List.mem_cons_of_mem _ hy))

theorem map_key_ne (f : Entry → Entry) (k : String) :
    ∀ pre : List Entry, (∀ x ∈ pre, x.key ≠ k) →
      pre.map (fun e => if e.key = k then f e else e) = pre
  | [], _ => rfl
  | x :: xs, h => by
    have hx : x.key ≠ k := h x (List.mem_cons_self _ _)
    simp only [List.map_cons, hx, if_false]
    rw [map_key_ne f k xs (fun y hy => h y (List.mem_cons_of_mem _ hy))]

theorem WriteData_append_new (pre : List Entry) (e : Entry) (hpre : ∀ x ∈ pre, x.key ≠ e.key)
    (index : EntryIndex) (offset : Nat) (buf : Bytes) (truncate : Bool) :
    Backend.WriteData ⟨pre ++ [e]⟩ e.key index offset buf truncate none =
      (⟨pre ++ [e.setStream index (Entry.writeAt (e.stream index) offset buf truncate)]⟩,
        (buf.length : Int)) := by
  simp only [Backend.WriteData, List.map_append, List.map_cons, List.map_nil, if_true]
  rw [map_key_ne _ e.key pre hpre]

theorem writeAt_end (old buf : Bytes) : Entry.writeAt old old.length buf true = old ++ buf := by
  simp [Entry.writeAt]

/-! ## Streaming the body -/

theorem chunksAux_flatten (n : Nat) :
    ∀ data cur : Bytes, (chunksAux n data cur).flatten = cur ++ data
  | [], cur => by
    unfold chunksAux
    by_cases h : cur.isEmpty = true
    · simp only [h, if_true]
      simp [List.isEmpty_iff.1 h]
    · simp [h]
  | b :: bs, cur => by
    unfold chunksAux
    by_cases h : cur.length + 1 = n
    · simp only [h, if_true, List.flatten_cons]
      rw [chunksAux_flatten n bs []]
      simp
    · simp only [h, if_false]
      rw [chunksAux_flatten n bs (cur ++ [b])]
      simp

theorem chunksAux_ne_nil (n : Nat) :
    ∀ data cur : Bytes, ∀ ch ∈ chunksAux n data cur, ch ≠ []
  | [], cur => by
    unfold chunksAux
    by_cases h : cur.isEmpty = true
    · simp [h]
    · intro ch hch
      simp only [h] at hch
      have : ch = cur := by simpa using hch
      subst this
      intro hnil
      exact h (by simp [hnil])
  | b :: bs, cur => by
    unfold chunksAux
    by_cases h : cur.length + 1 = n
    · simp only [h, if_true]
      intro ch hch
      rcases List.mem_cons.1 hch with rfl | hch
      · simp
      · exact chunksAux_ne_nil n bs [] ch hch
    · simp only [h, if_false]
      exact chunksAux_ne_nil n bs (cur ++ [b])

/-- With a store that writes every buffer in full, the reader leaves in the
body stream the bytes that were there followed by the buffers in read order. -/
theorem ReadFromBlob_all (pre : List Entry) (k : String) (h : Bytes)
    (hpre : ∀ x ∈ pre, x.key ≠ k) :
    ∀ (chunks : List Bytes) (d : Bytes) (n : Nat), (∀ ch ∈ chunks, ch ≠ []) →
      BlobReader.ReadFromBlob ⟨pre ++ [⟨k, h, d⟩]⟩ k [] n d.length (chunks.map BlobRead.data) =
        (⟨pre ++ [⟨k, h, d ++ chunks.flatten⟩]⟩, true)
  | [], d, n, _ => by simp [BlobReader.ReadFromBlob]
  | ch :: rest, d, n, hne => by
    have hch : ch.length ≠ 0 := by
      intro h0
      exact hne ch (List.mem_cons_self _ _) (List.length_eq_zero.1 h0)
    have hw := WriteData_append_new pre ⟨k, h, d⟩ hpre .INDEX_RESPONSE_BODY d.length ch true
    simp only [Entry.stream, Entry.setStream, writeAt_end] at hw
    simp only [List.map_cons, BlobReader.ReadFromBlob, hch, if_false, List.getD_nil, hw,
      ne_eq, not_true_eq_false]
    have ih := ReadFromBlob_all pre k h hpre rest (d ++ ch) (n + 1)
      (fun x hx => hne x (List.mem_cons_of_mem _ hx))
    simp only [List.length_append] at ih
    rw [ih]
    simp

/-! ## Put on a store whose operations succeed -/

/-- The entries of the store after a Put that wrote the metadata `s` and the
body `body` under `url`. -/
theorem PutDidWriteHeaders_succeeds (pre : List Entry) (q : Option QuotaManagerProxy)
    (bs : Option BlobStorageContext) (put_context : PutContext) (s : Bytes) (o : Outcomes)
    (hpre : ∀ x ∈ pre, x.key ≠ put_context.cache_entry) (ho : o.AllSucceed)
    (hbody : put_context.response.blob_uuid = "" ∨ ∃ bh, put_context.blob_data_handle = some bh) :
    (PutDidWriteHeaders ⟨⟨pre ++ [⟨put_context.cache_entry, s, []⟩]⟩, q, bs⟩ put_context
        (s.length : Int) (s.length : Int) o).1.backend =
        ⟨pre ++ [⟨put_context.cache_entry, s,
          if put_context.response.blob_uuid = "" then []
          else blobBytes put_context.blob_data_handle⟩]⟩ ∧
      (PutDidWriteHeaders ⟨⟨pre ++ [⟨put_context.cache_entry, s, []⟩]⟩, q, bs⟩ put_context
        (s.length : Int) (s.length : Int) o).1.blob_storage = bs ∧
      (PutDidWriteHeaders ⟨⟨pre ++ [⟨put_context.cache_entry, s, []⟩]⟩, q, bs⟩ put_context
        (s.length : Int) (s.length : Int) o).2 =
        ⟨.ErrorTypeOK, some put_context.response,
          if put_context.response.blob_uuid = "" then none
          else put_context.out_blob_data_handle⟩ := by
  obtain ⟨-, -, -, hwb, hbr, -⟩ := ho
  by_cases hu : put_context.response.blob_uuid = ""
  · simp [PutDidWriteHeaders, hu, Collaborators.notify]
  · rcases hbody with h | ⟨bh, hbh⟩
    · exact absurd h hu
    · have hloop := ReadFromBlob_all pre put_context.cache_entry s hpre
        (chunksAux kBufferSize bh.data []) [] 0 (chunksAux_ne_nil kBufferSize bh.data [])
      simp only [List.length_nil, List.nil_append, chunksAux_flatten] at hloop
      simp [PutDidWriteHeaders, hu, hbh, hwb, hbr, blobReads, hloop, PutDidWriteBlobToCache,
        Collaborators.notify, blobBytes]

theorem PutImpl_succeeds (pb : MetadataCodec) (c : ServiceWorkerCache) (b : Backend)
    (request : ServiceWorkerFetchRequest) (response : ServiceWorkerResponse)
    (blob_data_handle : Option BlobDataHandle) (o : Outcomes) (s : Bytes)
    (hb : c.backend_ = some b) (ho : o.AllSucceed)
    (hs : pb.SerializeToString (putHeaders request response) = some s)
    (hbody : response.blob_uuid = "" ∨ ∃ bh, blob_data_handle = some bh) :
    (PutImpl pb c request response blob_data_handle o).1.backend_ =
        some ⟨(b.Doom request.url).entries ++ [⟨request.url, s,
          if response.blob_uuid = "" then [] else blobBytes blob_data_handle⟩]⟩ ∧
      (PutImpl pb c request response blob_data_handle o).1.blob_storage_context_ =
        c.blob_storage_context_ ∧
      (PutImpl pb c request response blob_data_handle o).1.initialized_ = c.initialized_ ∧
      ∃ out, (PutImpl pb c request response blob_data_handle o).2 =
        [.response ⟨.ErrorTypeOK, some response, out⟩] := by
  have hce := ho.1
  have hwh := ho.2.2.1
  have hw := WriteData_append_new (b.Doom request.url).entries ⟨request.url, [], []⟩
    (Doom_key_ne b request.url) .INDEX_HEADERS 0 s true
  simp only [Entry.stream, Entry.setStream, Entry.writeAt, List.take_nil, List.length_nil,
    Nat.sub_zero, List.replicate_zero, List.nil_append, if_true, List.append_nil] at hw
  have hput := PutDidWriteHeaders_succeeds (b.Doom request.url).entries c.quota_manager_proxy_
    c.blob_storage_context_
    { origin := c.origin_
      request := request
      response := response
      blob_data_handle := blob_data_handle
      cache_entry := request.url
      out_blob_data_handle :=
        if blob_data_handle.isSome then
          c.blob_storage_context_.bind (fun ctx => ctx.GetBlobDataFromUUID response.blob_uuid)
        else none } s o (Doom_key_ne b request.url) ho hbody
  simp only at hput
  obtain ⟨h1, h2, h3⟩ := hput
  simp only [PutImpl, hb, hce, PutDidCreateEntry, ne_eq, not_true_eq_false, if_false, hs,
    Backend.CreateEntry, hwh, hw, ServiceWorkerCache.withCollaborators, h1, h2, h3]
  exact ⟨trivial, trivial, trivial, _, rfl⟩

/-! ## Match on a store whose operations succeed -/

theorem take_length_take (K : Nat) (x : Bytes) : x.take (x.take K).length = x.take K := by
  rw [List.length_take]
  rcases Nat.le_total K x.length with h | h
  · rw [Nat.min_eq_left h]
  · rw [Nat.min_eq_right h, List.take_length, List.take_of_length_le h]

theorem take_append_read (stream : Bytes) (offset K : Nat) :
    stream.take offset ++ (stream.drop offset).take K =
      stream.take (offset + ((stream.drop offset).take K).length) := by
  rw [List.take_add, take_length_take]

theorem readBody_succeeds (entry : Entry) (o : Outcomes) (ho : o.read_body = [])
    (read_number offset : Nat) :
    readBody entry o read_number (offset : Int) =
      ((entry.body_stream.drop offset).take kBufferSize,
        (((entry.body_stream.drop offset).take kBufferSize).length : Int)) := by
  simp [readBody, ho, Entry.ReadData, Entry.stream]

/-- With a store that reads all it can, the read loop of Match ends and the
blob it finishes holds the body stream. -/
theorem MatchDidReadResponseBodyData_all (ctx : BlobStorageContext) (entry : Entry) (o : Outcomes)
    (ho : o.read_body = []) (response : ServiceWorkerResponse) (uuid : String) :
    ∀ (fuel offset read_number : Nat), offset ≤ entry.body_stream.length →
      entry.body_stream.length - offset < fuel →
        MatchDidReadResponseBodyData fuel (some ctx) entry o response
            ⟨⟨uuid, entry.body_stream.take offset⟩, (offset : Int)⟩ read_number
            ((entry.body_stream.drop offset).take kBufferSize)
            (((entry.body_stream.drop offset).take kBufferSize).length : Int) =
          MatchDoneWithBody (some ctx)
            { response with blob_uuid := uuid, blob_size := (entry.body_stream.length : Int) }
            ⟨⟨uuid, entry.body_stream⟩, (entry.body_stream.length : Int)⟩
  | 0, _, _, _, hfuel => absurd hfuel (Nat.not_lt_zero _)
  | fuel + 1, offset, read_number, hle, hfuel => by
    unfold MatchDidReadResponseBodyData
    have hnn : ¬ ((((entry.body_stream.drop offset).take kBufferSize).length : Int) < 0) := by
      omega
    simp only [hnn, if_false]
    by_cases hz : ((entry.body_stream.drop offset).take kBufferSize).length = 0
    · have hlen : entry.body_stream.length ≤ offset := by
        rw [List.length_take, List.length_drop] at hz
        have hK : 0 < kBufferSize := by decide
        omega
      have hoff : offset = entry.body_stream.length := by omega
      simp only [hz, Nat.cast_zero, if_true]
      rw [hoff, List.take_length]
    · have hz' : ¬ ((((entry.body_stream.drop offset).take kBufferSize).length : Int) = 0) := by
        omega
      simp only [hz', if_false]
      have hbound : ((entry.body_stream.drop offset).take kBufferSize).length ≤
          entry.body_stream.length - offset := by
        rw [List.length_take, List.length_drop]
        exact Nat.min_le_right _ _
      have hcast : (offset : Int) + (((entry.body_stream.drop offset).take kBufferSize).length : Int)
          = ((offset + ((entry.body_stream.drop offset).take kBufferSize).length : Nat) : Int) := by
        push_cast
        rfl
      rw [hcast, readBody_succeeds entry o ho, take_append_read]
      exact MatchDidReadResponseBodyData_all ctx entry o ho response uuid fuel
        (offset + ((entry.body_stream.drop offset).take kBufferSize).length) (read_number + 1)
        (by omega) (by omega)

theorem ProtoResponseType_round_trip (t : WebServiceWorkerResponseType) :
    ProtoResponseTypeToWebResponseType (WebResponseTypeToProtoResponseType t) = t := by
  cases t <;> rfl

theorem ReadHeaders_succeeds (pb : MetadataCodec) (entry : Entry) :
    ReadHeaders pb entry none = pb.ParseFromArray entry.headers_stream := by
  simp [ReadHeaders, Entry.GetDataSize, Entry.ReadData, Entry.stream]

/-- The response that Match builds from the metadata of a Put of `response`,
before the body is attached. -/
theorem MatchDidReadHeaderData_stored (bs : Option BlobStorageContext)
    (request cached : ServiceWorkerFetchRequest) (response : ServiceWorkerResponse)
    (entry : Entry) (o : Outcomes) (hc : cached.headers.WellFormed)
    (hr : response.headers.WellFormed) (ho : o.read_body = []) :
    (VaryMatches request.headers cached.headers response.headers = false →
        (MatchDidReadHeaderData bs request entry o (some (putHeaders cached response))).2 =
          [⟨.ErrorTypeNotFound, none, none⟩]) ∧
      (VaryMatches request.headers cached.headers response.headers = true →
        entry.body_stream = [] →
        (MatchDidReadHeaderData bs request entry o (some (putHeaders cached response))).2 =
          [⟨.ErrorTypeOK,
            some { response with url := request.url, blob_uuid := "", blob_size := 0 }, none⟩]) ∧
      (VaryMatches request.headers cached.headers response.headers = true →
        entry.body_stream ≠ [] → ∀ ctx, bs = some ctx →
        (MatchDidReadHeaderData bs request entry o (some (putHeaders cached response))).2 =
          [⟨.ErrorTypeOK,
            some { response with
                   url := request.url
                   blob_uuid := o.guid
                   blob_size := (entry.body_stream.length : Int) },
            some ⟨o.guid, entry.body_stream⟩⟩]) := by
  have h1 := foldl_insert_wellFormed response.headers hr
  have h2 := foldl_assign_wellFormed cached.headers hc
  refine ⟨?_, ?_, ?_⟩
  · intro hv
    simp [MatchDidReadHeaderData, putHeaders, h1, h2, hv]
  · intro hv hbody
    simp [MatchDidReadHeaderData, putHeaders, h1, h2, hv, hbody, Entry.GetDataSize, Entry.stream,
      ProtoResponseType_round_trip]
  · intro hv hbody ctx hbs
    subst hbs
    have hlen : entry.body_stream.length ≠ 0 := fun h => hbody (List.length_eq_zero.1 h)
    have hloop := MatchDidReadResponseBodyData_all ctx entry o ho
      { response with url := request.url, blob_uuid := o.guid, blob_size := 0 } o.guid
      (matchFuel entry o) 0 0 (Nat.zero_le _) (by unfold matchFuel; omega)
    simp only [List.take_zero, List.drop_zero, Nat.cast_zero] at hloop
    have hread := readBody_succeeds entry o ho 0 0
    simp only [List.drop_zero, Nat.cast_zero] at hread
    simp [MatchDidReadHeaderData, putHeaders, h1, h2, hv, hlen, Entry.GetDataSize, Entry.stream,
      ProtoResponseType_round_trip, hread, hloop, MatchDoneWithBody,
      BlobStorageContext.AddFinishedBlob, -List.length_take]

theorem MatchReady_found (pb : MetadataCodec) (c : ServiceWorkerCache) (b : Backend)
    (request : ServiceWorkerFetchRequest) (entry : Entry) (o : Outcomes)
    (hb : c.backend_ = some b) (he : b.OpenEntry request.url = some entry)
    (hopen : o.open_entry_fails = false) (hread : o.read_headers = []) :
    (MatchReady pb c request o).2 =
      (MatchDidReadHeaderData c.blob_storage_context_ request entry o
        (pb.ParseFromArray entry.headers_stream)).2.map CallbackRun.response := by
  simp [MatchReady, hb, openEntry, hopen, he, MatchDidOpenEntry, hread, ReadHeaders_succeeds,
    net.OK]

theorem MatchReady_not_found (pb : MetadataCodec) (c : ServiceWorkerCache) (b : Backend)
    (request : ServiceWorkerFetchRequest) (o : Outcomes) (hb : c.backend_ = some b)
    (he : b.OpenEntry request.url = none ∨ o.open_entry_fails = true) :
    MatchReady pb c request o = (c, [.response ⟨.ErrorTypeNotFound, none, none⟩]) := by
  have hopen : openEntry b request.url o = (none, net.ERR_FAILED) := by
    unfold openEntry
    rcases he with he | he
    · by_cases ho : o.open_entry_fails = true <;> simp [ho, he]
    · simp [he]
  cases c
  simp only at hb
  subst hb
  simp [MatchReady, hopen, MatchDidOpenEntry, net.OK, net.ERR_FAILED]

/-! ## Put followed by Match -/

theorem PutImpl_serialize_fails (pb : MetadataCodec) (c : ServiceWorkerCache) (b : Backend)
    (request : ServiceWorkerFetchRequest) (response : ServiceWorkerResponse)
    (blob_data_handle : Option BlobDataHandle) (o : Outcomes) (hb : c.backend_ = some b)
    (hce : o.create_entry = none)
    (hs : pb.SerializeToString (putHeaders request response) = none) :
    PutImpl pb c request response blob_data_handle o =
      (c.withCollaborators
          ⟨b.CreateEntry request.url, c.quota_manager_proxy_, c.blob_storage_context_⟩,
        [.response ⟨.ErrorTypeStorage, none, none⟩]) := by
  simp [PutImpl, hb, hce, PutDidCreateEntry, hs]

/-- A Put that completes with OK on a ready cache has resolved the body
reference, if there is one, and has serialized the metadata. -/
theorem Put_ok_inv (pb : MetadataCodec) (c : ServiceWorkerCache) (b : Backend)
    (request : ServiceWorkerFetchRequest) (response : ServiceWorkerResponse) (o : Outcomes)
    (r : Option ServiceWorkerResponse) (h : Option BlobDataHandle)
    (hinit : c.initialized_ = true) (hb : c.backend_ = some b) (ho : o.AllSucceed)
    (hput : (Put pb c request response o).2 = [.response ⟨.ErrorTypeOK, r, h⟩]) :
    ∃ hdl s, Put pb c request response o = PutImpl pb c request response hdl o ∧
      pb.SerializeToString (putHeaders request response) = some s ∧
      ((response.blob_uuid = "" ∧ hdl = none) ∨
        (response.blob_uuid ≠ "" ∧ ∃ ctx bh, c.blob_storage_context_ = some ctx ∧
          ctx.GetBlobDataFromUUID response.blob_uuid = some bh ∧ hdl = some bh)) := by
  have hser : ∀ hdl, Put pb c request response o = PutImpl pb c request response hdl o →
      ∃ s, pb.SerializeToString (putHeaders request response) = some s := by
    intro hdl heq
    cases hs : pb.SerializeToString (putHeaders request response) with
    | some s => exact ⟨s, rfl⟩
    | none =>
      rw [heq, PutImpl_serialize_fails pb c b request response hdl o hb ho.1 hs] at hput
      simp at hput
  by_cases hu : response.blob_uuid = ""
  · have heq : Put pb c request response o = PutImpl pb c request response none o := by
      simp [Put, hu, hinit]
    obtain ⟨s, hs⟩ := hser none heq
    exact ⟨none, s, heq, hs, Or.inl ⟨hu, rfl⟩⟩
  · cases hctx : c.blob_storage_context_ with
    | none => simp [Put, hu, hctx] at hput
    | some ctx =>
      cases hget : ctx.GetBlobDataFromUUID response.blob_uuid with
      | none => simp [Put, hu, hctx, hget] at hput
      | some bh =>
        have heq : Put pb c request response o = PutImpl pb c request response (some bh) o := by
          simp [Put, hu, hctx, hget, hinit]
        obtain ⟨s, hs⟩ := hser (some bh) heq
        exact ⟨some bh, s, heq, hs, Or.inr ⟨hu, ctx, bh, rfl, hget, rfl⟩⟩

/-- What a Match finds after a Put that completed with OK, on a store whose
operations succeed: NotFound when the Vary check fails; otherwise OK with the
response of the Put and its body. -/
theorem Match_after_Put (pb : MetadataCodec) (c : ServiceWorkerCache) (b : Backend)
    (request request' : ServiceWorkerFetchRequest) (response : ServiceWorkerResponse)
    (o o' : Outcomes) (r : Option ServiceWorkerResponse) (h : Option BlobDataHandle)
    (hinit : c.initialized_ = true) (hb : c.backend_ = some b)
    (hq : request.headers.WellFormed) (hp : response.headers.WellFormed)
    (hpb : pb.RoundTripsAt (putHeaders request response))
    (ho : o.AllSucceed) (ho' : o'.AllSucceed)
    (hput : (Put pb c request response o).2 = [.response ⟨.ErrorTypeOK, r, h⟩])
    (hurl : request'.url = request.url) :
    (VaryMatches request'.headers request.headers response.headers = false →
        (Match pb (Put pb c request response o).1 request' o').2 =
          [.response ⟨.ErrorTypeNotFound, none, none⟩]) ∧
      (VaryMatches request'.headers request.headers response.headers = true →
        ∃ r' h', (Match pb (Put pb c request response o).1 request' o').2 =
            [.response ⟨.ErrorTypeOK, some r', h'⟩] ∧
          r'.status_code = response.status_code ∧ r'.status_text = response.status_text ∧
          r'.response_type = response.response_type ∧ r'.headers = response.headers ∧
          blobBytes h' = suppliedBody c response) := by
  obtain ⟨hdl, s, hPutEq, hs, hcase⟩ := Put_ok_inv pb c b request response o r h hinit hb ho hput
  have hbody : response.blob_uuid = "" ∨ ∃ bh, hdl = some bh := by
    rcases hcase with ⟨hu, -⟩ | ⟨-, -, bh, -, -, hh⟩
    · exact Or.inl hu
    · exact Or.inr ⟨bh, hh⟩
  obtain ⟨hbk, hbs, hini, -⟩ :=
    PutImpl_succeeds pb c b request response hdl o s hb ho hs hbody
  rw [hPutEq]
  have hparse := hpb s hs
  have hopen := OpenEntry_append_new (b.Doom request.url).entries
    ⟨request.url, s, if response.blob_uuid = "" then [] else blobBytes hdl⟩
    (Doom_key_ne b request.url)
  simp only at hopen
  rw [← hurl] at hopen
  have hfound := MatchReady_found pb (PutImpl pb c request response hdl o).1 _ request' _ o'
    (by rw [hbk, hurl]) hopen ho'.2.1 ho'.2.2.2.2.2.1
  have hMatch : Match pb (PutImpl pb c request response hdl o).1 request' o' =
      MatchReady pb (PutImpl pb c request response hdl o).1 request' o' := by
    simp [Match, hini, hinit]
  rw [hMatch, hfound]
  simp only [hparse, hbs]
  have hst := MatchDidReadHeaderData_stored c.blob_storage_context_ request' request response
    ⟨request'.url, s, if response.blob_uuid = "" then [] else blobBytes hdl⟩ o' hq hp
    ho'.2.2.2.2.2.2.1
  obtain ⟨hnf, hempty, hfull⟩ := hst
  constructor
  · intro hv
    rw [hnf hv]
    rfl
  · intro hv
    have hsup : suppliedBody c response = if response.blob_uuid = "" then [] else blobBytes hdl := by
      unfold suppliedBody
      rcases hcase with ⟨hu, -⟩ | ⟨hu, ctx, bh, hctx, hget, hh⟩
      · simp [hu]
      · simp [hu, hctx, hget, hh]
    by_cases hnil : (if response.blob_uuid = "" then [] else blobBytes hdl) = []
    · rw [hempty hv hnil]
      exact ⟨_, none, rfl, rfl, rfl, rfl, rfl, by rw [hsup, hnil]; rfl⟩
    · have hu : response.blob_uuid ≠ "" := by
        intro hu
        exact hnil (by simp [hu])
      rcases hcase with ⟨hu', -⟩ | ⟨-, ctx, bh, hctx, -, -⟩
      · exact absurd hu' hu
      · rw [hfull hv hnil ctx hctx]
        exact ⟨_, _, rfl, rfl, rfl, rfl, rfl, by rw [hsup]; rfl⟩

theorem allSucceed_default : Outcomes.AllSucceed {} :=
  ⟨rfl, rfl, rfl, rfl, rfl, rfl, rfl, rfl, rfl⟩

/-- The sample codec decodes a record from what it serializes it to, when
the decoder inverts the encoder on that record. -/
theorem sample.roundTripsAt (limit : Nat) (h : ServiceWorkerRequestResponseHeaders)
    (hd : sample.decode (sample.encode h) = some h) : (sample.codec limit).RoundTripsAt h := by
  intro b hb
  unfold sample.codec at hb ⊢
  simp only at hb ⊢
  split at hb
  · cases hb
    exact hd
  · cases hb

/-- C1, as amended: on a ready cache whose store operations succeed, if
`Put(req, resp)` completes with OK, the Vary value of `resp` (if any) has no
`*` token, and `Match` is then issued with the same URL and the same request
headers, `Match` completes with OK, its response has the status code, status
text, response type and header map of `resp`, and the bytes of the returned
blob (none, without a handle) are the body bytes supplied to `Put`. -/
theorem put_then_match_round_trip (pb : MetadataCodec) (c : ServiceWorkerCache) (b : Backend)
    (request request' : ServiceWorkerFetchRequest) (response : ServiceWorkerResponse)
    (o o' : Outcomes) (r : Option ServiceWorkerResponse) (h : Option BlobDataHandle)
    (hinit : c.initialized_ = true) (hb : c.backend_ = some b)
    (hq : request.headers.WellFormed) (hp : response.headers.WellFormed)
    (hpb : pb.RoundTripsAt (putHeaders request response))
    (ho : o.AllSucceed) (ho' : o'.AllSucceed)
    (hput : (Put pb c request response o).2 = [.response ⟨.ErrorTypeOK, r, h⟩])
    (hurl : request'.url = request.url) (hheaders : request'.headers = request.headers)
    (hvary : NoWildcardVary response.headers) :
    ∃ r' h', (Match pb (Put pb c request response o).1 request' o').2 =
        [.response ⟨.ErrorTypeOK, some r', h'⟩] ∧
      r'.status_code = response.status_code ∧ r'.status_text = response.status_text ∧
      r'.response_type = response.response_type ∧ r'.headers = response.headers ∧
      blobBytes h' = suppliedBody c response := by
  have hv : VaryMatches request'.headers request.headers response.headers = true := by
    rw [hheaders]
    exact VaryMatches_self _ _ hvary
  exact (Match_after_Put pb c b request request' response o o' r h hinit hb hq hp hpb ho ho'
    hput hurl).2 hv

/-- An instance of C1 as amended: the response "hello" with `Vary: Accept`
is put and matched with the header `Accept: a`. -/
theorem put_then_match_round_trip_witness :
    ∃ r' h',
      (Match (sample.codec 1000)
          (Put (sample.codec 1000) sample.cache (sample.request [("Accept", "a")])
            (sample.response [("Vary", "Accept")] "blob-1") {}).1
          (sample.request [("Accept", "a")]) {}).2 =
        [.response ⟨.ErrorTypeOK, some r', h'⟩] ∧
      r'.status_code = 200 ∧ r'.status_text = "OK" ∧
      r'.response_type = WebServiceWorkerResponseType.Basic ∧
      r'.headers = ⟨[("Vary", "Accept")]⟩ ∧
      blobBytes h' = suppliedBody sample.cache (sample.response [("Vary", "Accept")] "blob-1") :=
  put_then_match_round_trip (sample.codec 1000) sample.cache ⟨[]⟩
    (sample.request [("Accept", "a")]) (sample.request [("Accept", "a")])
    (sample.response [("Vary", "Accept")] "blob-1") {} {}
    (some (sample.response [("Vary", "Accept")] "blob-1"))
    (some ⟨"blob-1", [104, 101, 108, 108, 111]⟩) rfl rfl (by decide) (by decide)
    (sample.roundTripsAt 1000 _ (by decide)) allSucceed_default allSucceed_default (by decide)
    rfl rfl
    (fun v hv => by
      have hf : ServiceWorkerHeaderMap.find
          (sample.response [("Vary", "Accept")] "blob-1").headers "vary" = some "Accept" := by
        decide
      rw [hf] at hv
      cases hv
      decide)

/-- The claim C1 fails for a response with `Vary: *`: the Put completes with
OK and the Match with the same request completes with NotFound. -/
theorem put_then_match_round_trip_counterexample :
    (Put (sample.codec 1000) sample.cache (sample.request [("Accept", "a")])
        (sample.response [("Vary", "*")] "blob-1") {}).2 =
        [.response ⟨.ErrorTypeOK, some (sample.response [("Vary", "*")] "blob-1"),
          some ⟨"blob-1", [104, 101, 108, 108, 111]⟩⟩] ∧
      (Match (sample.codec 1000)
          (Put (sample.codec 1000) sample.cache (sample.request [("Accept", "a")])
            (sample.response [("Vary", "*")] "blob-1") {}).1
          (sample.request [("Accept", "a")]) {}).2 =
        [.response ⟨.ErrorTypeNotFound, none, none⟩] := by
  decide

/-- C3: on a cache with a usable backing store, `Match(req)` for a URL under
which no entry is stored, or for which the store's open fails, completes with
NotFound, an empty response and an empty blob handle, and changes nothing. -/
theorem match_without_entry_not_found (pb : MetadataCodec) (c : ServiceWorkerCache) (b : Backend)
    (request : ServiceWorkerFetchRequest) (o : Outcomes) (hinit : c.initialized_ = true)
    (hb : c.backend_ = some b)
    (he : b.OpenEntry request.url = none ∨ o.open_entry_fails = true) :
    Match pb c request o = (c, [.response ⟨.ErrorTypeNotFound, none, none⟩]) := by
  have hm : Match pb c request o = MatchReady pb c request o := by simp [Match, hinit]
  rw [hm]
  exact MatchReady_not_found pb c b request o hb he

/-- An instance of C3: a Match on a cache into which nothing was put. -/
theorem match_without_entry_not_found_witness :
    Match (sample.codec 1000) sample.cache (sample.request []) {} =
      (sample.cache, [.response ⟨.ErrorTypeNotFound, none, none⟩]) :=
  match_without_entry_not_found (sample.codec 1000) sample.cache ⟨[]⟩ (sample.request []) {} rfl
    rfl (Or.inl (by decide))

/-! ## Failures of Put -/

theorem CreateFailure.rv_ne_OK (failure : CreateFailure) : failure.rv ≠ net.OK := by
  cases failure <;> decide

/-- C9, as amended: when the store's create-entry step of Put fails, Put
reports Exists with an empty response and an empty blob handle, whatever the
cause of the failure, and the store is as it was; the callback
`PutDidCreateEntry` does so for every completion value other than OK. -/
theorem put_create_failure_reports_exists (pb : MetadataCodec) (c : ServiceWorkerCache)
    (b : Backend) (request : ServiceWorkerFetchRequest) (response : ServiceWorkerResponse)
    (blob_data_handle : Option BlobDataHandle) (o : Outcomes) (failure : CreateFailure)
    (hb : c.backend_ = some b) (hf : o.create_entry = some failure) :
    (PutImpl pb c request response blob_data_handle o).2 =
        [.response ⟨.ErrorTypeExists, none, none⟩] ∧
      (PutImpl pb c request response blob_data_handle o).1.backend_ = some b ∧
      ∀ (w : Collaborators) (put_context : PutContext) (rv : Int), rv ≠ net.OK →
        PutDidCreateEntry pb w put_context rv o = (w, ⟨.ErrorTypeExists, none, none⟩) := by
  have hrv := failure.rv_ne_OK
  refine ⟨?_, ?_, ?_⟩
  · simp [PutImpl, hb, hf, PutDidCreateEntry, hrv]
  · simp [PutImpl, hb, hf, PutDidCreateEntry, hrv, ServiceWorkerCache.withCollaborators]
  · intro w put_context rv hne
    simp [PutDidCreateEntry, hne]

/-- An instance of C9 as amended: a creation failure that is not a conflict. -/
theorem put_create_failure_reports_exists_witness :
    (PutImpl (sample.codec 1000) sample.cache (sample.request []) (sample.response [] "") none
        { create_entry := some CreateFailure.other }).2 =
      [.response ⟨.ErrorTypeExists, none, none⟩] :=
  (put_create_failure_reports_exists (sample.codec 1000) sample.cache ⟨[]⟩ (sample.request [])
    (sample.response [] "") none { create_entry := some CreateFailure.other }
    CreateFailure.other rfl rfl).1

/-- The claim C9 fails for a creation failure that does not stem from a
conflict: Put reports Exists, not the Storage error that is specified. -/
theorem put_create_failure_counterexample :
    (Put (sample.codec 1000) sample.cache (sample.request []) (sample.response [] "")
        { create_entry := some CreateFailure.other }).2 =
        [.response ⟨.ErrorTypeExists, none, none⟩] ∧
      (Put (sample.codec 1000) sample.cache (sample.request []) (sample.response [] "")
        { create_entry := some CreateFailure.other }).2 ≠
        [.response ⟨specifiedCreateError CreateFailure.other, none, none⟩] := by
  decide

/-- C10, at the failing input: when the metadata does not serialize, Put
completes with Storage and the entry that was created is not doomed: the
store still holds an entry, with two empty streams, for the URL. -/
theorem put_serialize_failure_leaves_entry (pb : MetadataCodec) (c : ServiceWorkerCache)
    (b : Backend) (request : ServiceWorkerFetchRequest) (response : ServiceWorkerResponse)
    (blob_data_handle : Option BlobDataHandle) (o : Outcomes) (hb : c.backend_ = some b)
    (hce : o.create_entry = none)
    (hs : pb.SerializeToString (putHeaders request response) = none) :
    (PutImpl pb c request response blob_data_handle o).2 =
        [.response ⟨.ErrorTypeStorage, none, none⟩] ∧
      ∃ b', (PutImpl pb c request response blob_data_handle o).1.backend_ = some b' ∧
        b'.OpenEntry request.url = some ⟨request.url, [], []⟩ := by
  rw [PutImpl_serialize_fails pb c b request response blob_data_handle o hb hce hs]
  refine ⟨rfl, b.CreateEntry request.url, rfl, ?_⟩
  exact OpenEntry_append_new (b.Doom request.url).entries ⟨request.url, [], []⟩
    (Doom_key_ne b request.url)

/-- An instance of C10 at the failing input: a codec that refuses records of
more than ten bytes. -/
theorem put_serialize_failure_leaves_entry_witness :
    (PutImpl (sample.codec 10) sample.cache (sample.request []) (sample.response [] "") none {}).2 =
        [.response ⟨.ErrorTypeStorage, none, none⟩] ∧
      ∃ b', (PutImpl (sample.codec 10) sample.cache (sample.request []) (sample.response [] "")
          none {}).1.backend_ = some b' ∧
        b'.OpenEntry "https://x/a" = some ⟨"https://x/a", [], []⟩ :=
  put_serialize_failure_leaves_entry (sample.codec 10) sample.cache ⟨[]⟩ (sample.request [])
    (sample.response [] "") none {} rfl rfl (by decide)

/-! ## Delete -/

/-- A Delete past the init gate that completes with OK leaves a backend that
holds no entry for the URL. -/
theorem DeleteReady_ok_inv (c : ServiceWorkerCache) (request : ServiceWorkerFetchRequest)
    (o : Outcomes) (hdel : (DeleteReady c request o).2 = [.error .ErrorTypeOK]) :
    (DeleteReady c request o).1.initialized_ = c.initialized_ ∧
      ∃ b', (DeleteReady c request o).1.backend_ = some b' ∧ b'.OpenEntry request.url = none := by
  unfold DeleteReady at hdel ⊢
  cases hb : c.backend_ with
  | none => simp [hb] at hdel
  | some b =>
    simp only [hb] at hdel ⊢
    unfold openEntry at hdel ⊢
    by_cases hf : o.open_entry_fails = true
    · simp [hf, DeleteDidOpenEntry, net.OK, net.ERR_FAILED] at hdel
    · cases he : b.OpenEntry request.url with
      | none => simp [hf, he, DeleteDidOpenEntry, net.OK, net.ERR_FAILED] at hdel
      | some e =>
        have hkey : e.key = request.url := by
          have := List.find?_some he
          simpa using this
        have hf' : o.open_entry_fails = false := by simpa using hf
        simp only [hf', he, DeleteDidOpenEntry, net.OK, ne_eq, not_true_eq_false, if_false,
          ServiceWorkerCache.withCollaborators, Collaborators.notify, hkey, Bool.false_eq_true]
        exact ⟨trivial, _, rfl, OpenEntry_Doom b request.url⟩

theorem InitDone_single_Delete (pb : MetadataCodec) (c : ServiceWorkerCache)
    (request : ServiceWorkerFetchRequest) (o : Outcomes) (error : ErrorType)
    (hq : c.init_callbacks_ = [.Delete request o]) :
    InitDone pb c error =
      ({ (DeleteReady { c with initialized_ := true } request o).1 with init_callbacks_ := [] },
        (DeleteReady { c with initialized_ := true } request o).2) := by
  simp [InitDone, hq, runClosures, runClosure]

/-- A Delete that completes with OK leaves an initialized cache whose
backend holds no entry for the URL, also when the Delete went through the
init gate. -/
theorem Delete_ok_inv (pb : MetadataCodec) (c : ServiceWorkerCache)
    (request : ServiceWorkerFetchRequest) (o : Outcomes)
    (hdel : (Delete pb c request o).2 = [.error .ErrorTypeOK]) :
    (Delete pb c request o).1.initialized_ = true ∧
      ∃ b', (Delete pb c request o).1.backend_ = some b' ∧ b'.OpenEntry request.url = none := by
  by_cases hinit : c.initialized_ = true
  · have heq : Delete pb c request o = DeleteReady c request o := by simp [Delete, hinit]
    rw [heq] at hdel ⊢
    obtain ⟨h1, h2⟩ := DeleteReady_ok_inv c request o hdel
    exact ⟨h1.trans hinit, h2⟩
  · have hinit' : c.initialized_ = false := by simpa using hinit
    have key : ∀ (c' : ServiceWorkerCache) (error : ErrorType),
        c'.init_callbacks_ = [.Delete request o] →
        (InitDone pb c' error).2 = [.error .ErrorTypeOK] →
        (InitDone pb c' error).1.initialized_ = true ∧
          ∃ b', (InitDone pb c' error).1.backend_ = some b' ∧ b'.OpenEntry request.url = none := by
      intro c' error hq hres
      rw [InitDone_single_Delete pb c' request o error hq] at hres ⊢
      obtain ⟨h1, h2⟩ := DeleteReady_ok_inv _ request o hres
      exact ⟨h1, h2⟩
    cases hq : c.init_callbacks_ with
    | cons x xs => simp [Delete, hinit', Init, hq] at hdel
    | nil =>
      cases hcb : o.create_backend with
      | pending => simp [Delete, hinit', Init, hq, CreateBackend, hcb] at hdel
      | failed rv =>
        by_cases hrv : rv = net.OK
        · have heq : Delete pb c request o =
              InitDone pb { c with
                init_callbacks_ := [.Delete request o]
                create_backend_calls := c.create_backend_calls + 1
                backend_ := none } .ErrorTypeOK := by
            simp [Delete, hinit', Init, hq, CreateBackend, hcb, CreateBackendDidCreate, hrv]
          rw [heq] at hdel ⊢
          exact key _ _ rfl hdel
        · have heq : Delete pb c request o =
              InitDone pb { c with
                init_callbacks_ := [.Delete request o]
                create_backend_calls := c.create_backend_calls + 1 } .ErrorTypeStorage := by
            simp [Delete, hinit', Init, hq, CreateBackend, hcb, CreateBackendDidCreate, hrv]
          rw [heq] at hdel ⊢
          exact key _ _ rfl hdel
      | created backend =>
        have heq : Delete pb c request o =
            InitDone pb { c with
              init_callbacks_ := [.Delete request o]
              create_backend_calls := c.create_backend_calls + 1
              backend_ := some backend } .ErrorTypeOK := by
          simp [Delete, hinit', Init, hq, CreateBackend, hcb, CreateBackendDidCreate]
        rw [heq] at hdel ⊢
        exact key _ _ rfl hdel

/-- C2: after `Put(req, resp)` completes with OK and `Delete(req)` completes
with OK, a following `Match` on the same URL completes with NotFound. -/
theorem put_delete_match_not_found (pb : MetadataCodec) (c : ServiceWorkerCache)
    (request request' : ServiceWorkerFetchRequest) (response : ServiceWorkerResponse)
    (o₁ o₂ o₃ : Outcomes) (r : Option ServiceWorkerResponse) (h : Option BlobDataHandle)
    (_hput : (Put pb c request response o₁).2 = [.response ⟨.ErrorTypeOK, r, h⟩])
    (hdel : (Delete pb (Put pb c request response o₁).1 request o₂).2 = [.error .ErrorTypeOK])
    (hurl : request'.url = request.url) :
    (Match pb (Delete pb (Put pb c request response o₁).1 request o₂).1 request' o₃).2 =
      [.response ⟨.ErrorTypeNotFound, none, none⟩] := by
  obtain ⟨hinit, b', hb', hopen⟩ := Delete_ok_inv pb _ request o₂ hdel
  have hm : Match pb (Delete pb (Put pb c request response o₁).1 request o₂).1 request' o₃ =
      MatchReady pb (Delete pb (Put pb c request response o₁).1 request o₂).1 request' o₃ := by
    simp [Match, hinit]
  rw [hm, MatchReady_not_found pb _ b' request' o₃ hb' (Or.inl (by rw [hurl]; exact hopen))]

/-- An instance of C2: the scenario of the specification, with the body
"hello". -/
theorem put_delete_match_not_found_witness :
    (Match (sample.codec 1000)
        (Delete (sample.codec 1000)
          (Put (sample.codec 1000) sample.cache (sample.request [])
            (sample.response [] "blob-1") {}).1
          (sample.request []) {}).1
        (sample.request []) {}).2 =
      [.response ⟨.ErrorTypeNotFound, none, none⟩] :=
  put_delete_match_not_found (sample.codec 1000) sample.cache (sample.request [])
    (sample.request []) (sample.response [] "blob-1") {} {} {}
    (some (sample.response [] "blob-1")) (some ⟨"blob-1", [104, 101, 108, 108, 111]⟩)
    (by decide) (by decide) rfl

/-! ## The Vary law through the store -/

theorem VaryMatches_single (R C P : ServiceWorkerHeaderMap) (v X : String)
    (hv : P.find "vary" = some v) (hX : (Tokenize v).map TrimWhitespaceASCII = [X])
    (hne : X ≠ "*") : VaryMatches R C P = true ↔ R.find X = C.find X := by
  simp only [VaryMatches, hv]
  match hT : Tokenize v, hX with
  | [t], hX =>
    simp only [List.map_cons, List.map_nil, List.cons.injEq, and_true] at hX
    simp only [VaryMatchesLoop, hX, hne, if_false]
    cases R.find X <;> cases C.find X <;> simp

theorem VaryMatches_wildcard (R C P : ServiceWorkerHeaderMap) (v : String)
    (hv : P.find "vary" = some v) (hstar : ∃ tok ∈ Tokenize v, TrimWhitespaceASCII tok = "*") :
    VaryMatches R C P = false := by
  simp only [VaryMatches, hv]
  exact VaryMatchesLoop_wildcard R C (Tokenize v) hstar

/-- C7: after `Put(cached, resp)` completes with OK, where `resp` has a Vary
header, a `Match(req)` on the same URL, which compares `req` with the request
headers decoded from the entry's metadata, completes with OK when the Vary
value lists the one header `X` and both requests lack `X`; with NotFound when
both have `X`, with different values; and with NotFound when the Vary value
has a `*` token, whatever the headers of the two requests are. -/
theorem vary_law_through_store (pb : MetadataCodec) (c : ServiceWorkerCache) (b : Backend)
    (cached request : ServiceWorkerFetchRequest) (response : ServiceWorkerResponse)
    (o o' : Outcomes) (r : Option ServiceWorkerResponse) (h : Option BlobDataHandle) (v : String)
    (hinit : c.initialized_ = true) (hb : c.backend_ = some b)
    (hq : cached.headers.WellFormed) (hp : response.headers.WellFormed)
    (hpb : pb.RoundTripsAt (putHeaders cached response))
    (ho : o.AllSucceed) (ho' : o'.AllSucceed)
    (hput : (Put pb c cached response o).2 = [.response ⟨.ErrorTypeOK, r, h⟩])
    (hurl : request.url = cached.url) (hvary : response.headers.find "vary" = some v) :
    (∀ X, (Tokenize v).map TrimWhitespaceASCII = [X] → X ≠ "*" →
        request.headers.find X = none → cached.headers.find X = none →
        ∃ r' h', (Match pb (Put pb c cached response o).1 request o').2 =
            [.response ⟨.ErrorTypeOK, some r', h'⟩] ∧
          r'.headers = response.headers ∧ blobBytes h' = suppliedBody c response) ∧
      (∀ X a a', (Tokenize v).map TrimWhitespaceASCII = [X] →
        request.headers.find X = some a → cached.headers.find X = some a' → a ≠ a' →
        (Match pb (Put pb c cached response o).1 request o').2 =
          [.response ⟨.ErrorTypeNotFound, none, none⟩]) ∧
      ((∃ tok ∈ Tokenize v, TrimWhitespaceASCII tok = "*") →
        (Match pb (Put pb c cached response o).1 request o').2 =
          [.response ⟨.ErrorTypeNotFound, none, none⟩]) := by
  obtain ⟨hnf, hok⟩ :=
    Match_after_Put pb c b cached request response o o' r h hinit hb hq hp hpb ho ho' hput hurl
  refine ⟨?_, ?_, ?_⟩
  · intro X hX hne hr hc
    have hv : VaryMatches request.headers cached.headers response.headers = true :=
      (VaryMatches_single _ _ _ v X hvary hX hne).2 (hr.trans hc.symm)
    obtain ⟨r', h', h1, -, -, -, h5, h6⟩ := hok hv
    exact ⟨r', h', h1, h5, h6⟩
  · intro X a a' hX hr hc hne
    apply hnf
    by_cases hstar : X = "*"
    · refine VaryMatches_wildcard _ _ _ v hvary ?_
      match hT : Tokenize v, hX with
      | [t], hX =>
        simp only [List.map_cons, List.map_nil, List.cons.injEq, and_true] at hX
        exact ⟨t, List.mem_singleton.2 rfl, hX.trans hstar⟩
    · cases hvm : VaryMatches request.headers cached.headers response.headers with
      | false => rfl
      | true =>
        have := (VaryMatches_single _ _ _ v X hvary hX hstar).1 hvm
        rw [hr, hc] at this
        exact absurd (Option.some.inj this) hne
  · intro hstar
    exact hnf (VaryMatches_wildcard _ _ _ v hvary hstar)

/-- An instance of C7: the cached request has `Accept: b`, the new request
`Accept: a`, and the response `Vary: Accept`. -/
theorem vary_law_through_store_witness :
    (Match (sample.codec 1000)
        (Put (sample.codec 1000) sample.cache (sample.request [("Accept", "b")])
          (sample.response [("Vary", "Accept")] "blob-1") {}).1
        (sample.request [("Accept", "a")]) {}).2 =
      [.response ⟨.ErrorTypeNotFound, none, none⟩] :=
  (vary_law_through_store (sample.codec 1000) sample.cache ⟨[]⟩
    (sample.request [("Accept", "b")]) (sample.request [("Accept", "a")])
    (sample.response [("Vary", "Accept")] "blob-1") {} {}
    (some (sample.response [("Vary", "Accept")] "blob-1"))
    (some ⟨"blob-1", [104, 101, 108, 108, 111]⟩) "Accept" rfl rfl (by decide) (by decide)
    (sample.roundTripsAt 1000 _ (by decide)) allSucceed_default allSucceed_default (by decide)
    rfl (by decide)).2.1 "Accept" "a" "b" (by decide) (by decide) (by decide) (by decide)

/-! ## Two Puts to the same URL -/

/-- C12: a Put of a response that carries a body reference, on a cache whose
blob store has been torn down or cannot resolve the reference, completes at
once with Storage, an empty response and an empty blob handle, and leaves
the cache as it was: no entry is created, no backend creation is started and
the init queue is unchanged. -/
theorem put_unresolved_body_fails_at_once (pb : MetadataCodec) (c : ServiceWorkerCache)
    (request : ServiceWorkerFetchRequest) (response : ServiceWorkerResponse) (o : Outcomes)
    (hbody : response.blob_uuid ≠ "")
    (hblob : c.blob_storage_context_ = none ∨
      ∃ ctx, c.blob_storage_context_ = some ctx ∧
        ctx.GetBlobDataFromUUID response.blob_uuid = none) :
    Put pb c request response o = (c, [.response ⟨.ErrorTypeStorage, none, none⟩]) ∧
      (Put pb c request response o).1.backend_ = c.backend_ ∧
      (Put pb c request response o).1.create_backend_calls = c.create_backend_calls ∧
      (Put pb c request response o).1.init_callbacks_ = c.init_callbacks_ := by
  have h : Put pb c request response o = (c, [.response ⟨.ErrorTypeStorage, none, none⟩]) := by
    rcases hblob with hnone | ⟨ctx, hctx, hget⟩
    · simp [Put, hbody, hnone]
    · simp [Put, hbody, hctx, hget]
  rw [h]
  exact ⟨rfl, rfl, rfl, rfl⟩

/-- An instance of C12: a body reference that the blob store does not know,
on a cache that is not initialized. -/
theorem put_unresolved_body_fails_at_once_witness :
    Put (sample.codec 1000) (ServiceWorkerCache.new "https://x/" true none (some ⟨[]⟩))
        (sample.request []) (sample.response [] "blob-9") {} =
      (ServiceWorkerCache.new "https://x/" true none (some ⟨[]⟩),
        [.response ⟨.ErrorTypeStorage, none, none⟩]) :=
  (put_unresolved_body_fails_at_once (sample.codec 1000)
    (ServiceWorkerCache.new "https://x/" true none (some ⟨[]⟩)) (sample.request [])
    (sample.response [] "blob-9") {} (by decide) (Or.inr ⟨⟨[]⟩, rfl, by decide⟩)).1

/-! ## The contract of Delete -/

theorem find?_filter_other (k key : String) (h : key ≠ k) :
    ∀ l : List Entry,
      (l.filter (fun e => e.key ≠ k)).find? (fun e => e.key = key) =
        l.find? (fun e => e.key = key)
  | [] => rfl
  | x :: xs => by
    have ih := find?_filter_other k key h xs
    by_cases hx : x.key = k
    · have hxk : ¬ x.key = key := by
        rw [hx]
        exact fun h' => h h'.symm
      rw [List.filter_cons_of_neg (by simpa using hx), List.find?_cons_of_neg _ (by simpa using hxk)]
      exact ih
    · rw [List.filter_cons_of_pos (by simpa using hx)]
      by_cases hxk : x.key = key
      · rw [List.find?_cons_of_pos _ (by simpa using hxk),
          List.find?_cons_of_pos _ (by simpa using hxk)]
      · rw [List.find?_cons_of_neg _ (by simpa using hxk),
          List.find?_cons_of_neg _ (by simpa using hxk)]
        exact ih

theorem OpenEntry_Doom_ne (b : Backend) (k key : String) (h : key ≠ k) :
    (b.Doom k).OpenEntry key = b.OpenEntry key :=
  find?_filter_other k key h b.entries

theorem OpenEntry_key {b : Backend} {k : String} {e : Entry} (h : b.OpenEntry k = some e) :
    e.key = k := by
  have := List.find?_some h
  simpa using this

theorem DeleteReady_not_found (c : ServiceWorkerCache) (b : Backend)
    (request : ServiceWorkerFetchRequest) (o : Outcomes) (hb : c.backend_ = some b)
    (he : b.OpenEntry request.url = none ∨ o.open_entry_fails = true) :
    DeleteReady c request o = (c, [.error .ErrorTypeNotFound]) := by
  have hopen : openEntry b request.url o = (none, net.ERR_FAILED) := by
    unfold openEntry
    rcases he with he | he
    · by_cases ho : o.open_entry_fails = true <;> simp [ho, he]
    · simp [he]
  cases c
  simp only at hb
  subst hb
  simp [DeleteReady, hopen, DeleteDidOpenEntry, net.OK, net.ERR_FAILED,
    ServiceWorkerCache.withCollaborators]

theorem DeleteReady_found (c : ServiceWorkerCache) (b : Backend)
    (request : ServiceWorkerFetchRequest) (o : Outcomes) (e : Entry) (hb : c.backend_ = some b)
    (he : b.OpenEntry request.url = some e) (hopen : o.open_entry_fails = false) :
    DeleteReady c request o =
      ({ c with
          backend_ := some (b.Doom request.url)
          quota_manager_proxy_ := c.quota_manager_proxy_.map (fun q =>
            q.NotifyStorageModified c.origin_
              (-1 * (e.GetDataSize .INDEX_HEADERS + e.GetDataSize .INDEX_RESPONSE_BODY))) },
        [.error .ErrorTypeOK]) := by
  have hkey := OpenEntry_key he
  simp [DeleteReady, hb, openEntry, hopen, he, DeleteDidOpenEntry, net.OK,
    ServiceWorkerCache.withCollaborators, Collaborators.notify, hkey]

/-- C14: on a cache with a usable backing store, `Delete(req)` completes with
NotFound and leaves the cache, its store and its quota proxy as they were
when no entry exists for the URL; when the store opens an entry for the URL,
it notifies the quota proxy (once, if there is one) of minus the sum of the
sizes of the entry's two streams, dooms the entry and completes with OK, and
every entry under another key is as it was. -/
theorem delete_contract (pb : MetadataCodec) (c : ServiceWorkerCache) (b : Backend)
    (request : ServiceWorkerFetchRequest) (o : Outcomes) (hinit : c.initialized_ = true)
    (hb : c.backend_ = some b) :
    (b.OpenEntry request.url = none →
        Delete pb c request o = (c, [.error .ErrorTypeNotFound])) ∧
      (∀ e, b.OpenEntry request.url = some e → o.open_entry_fails = false →
        (Delete pb c request o).2 = [.error .ErrorTypeOK] ∧
        (Delete pb c request o).1.quota_manager_proxy_ =
          c.quota_manager_proxy_.map (fun q =>
            ⟨q.notifications ++
              [(c.origin_, -((e.headers_stream.length : Int) + (e.body_stream.length : Int)))]⟩) ∧
        (Delete pb c request o).1.backend_ =
          some ⟨b.entries.filter (fun x => x.key ≠ request.url)⟩ ∧
        (∀ b', (Delete pb c request o).1.backend_ = some b' →
          b'.OpenEntry request.url = none ∧
            ∀ key, key ≠ request.url → b'.OpenEntry key = b.OpenEntry key)) := by
  have hd : Delete pb c request o = DeleteReady c request o := by simp [Delete, hinit]
  rw [hd]
  constructor
  · intro he
    exact DeleteReady_not_found c b request o hb (Or.inl he)
  · intro e he hopen
    rw [DeleteReady_found c b request o e hb he hopen]
    refine ⟨rfl, ?_, rfl, ?_⟩
    · simp only [Entry.GetDataSize, Entry.stream, QuotaManagerProxy.NotifyStorageModified,
        neg_one_mul]
    · intro b' hb'
      simp only [Option.some.injEq] at hb'
      subst hb'
      exact ⟨OpenEntry_Doom b request.url, fun key hk => OpenEntry_Doom_ne b request.url key hk⟩

/-- An instance of C14: the entry written by a Put of "hello" is deleted. -/
theorem delete_contract_witness :
    (Delete (sample.codec 1000)
        (Put (sample.codec 1000) sample.cache (sample.request [])
          (sample.response [] "blob-1") {}).1
        (sample.request []) {}).2 = [.error .ErrorTypeOK] :=
  ((delete_contract (sample.codec 1000)
    (Put (sample.codec 1000) sample.cache (sample.request []) (sample.response [] "blob-1") {}).1
    ⟨[⟨"https://x/a", [3, 71, 69, 84, 0, 200, 2, 79, 75, 0, 0, 0], [104, 101, 108, 108, 111]⟩]⟩
    (sample.request []) {} (by decide) (by decide)).2
    ⟨"https://x/a", [3, 71, 69, 84, 0, 200, 2, 79, 75, 0, 0, 0], [104, 101, 108, 108, 111]⟩
    (by decide) rfl).1

/-! ## Match on an entry whose metadata does not decode -/

theorem ReadHeaders_fails (pb : MetadataCodec) (e : Entry) (forced : Option Int)
    (hfail : (∃ rv, forced = some rv ∧ rv ≠ (e.headers_stream.length : Int)) ∨
      pb.ParseFromArray e.headers_stream = none) : ReadHeaders pb e forced = none := by
  cases forced with
  | none =>
    rcases hfail with ⟨rv, h, -⟩ | h
    · cases h
    · simp [ReadHeaders, Entry.GetDataSize, Entry.ReadData, Entry.stream, h]
  | some rv =>
    by_cases hrv : rv = (e.headers_stream.length : Int)
    · rcases hfail with ⟨rv', h, hne⟩ | h
      · cases h
        exact absurd hrv hne
      · simp [ReadHeaders, Entry.GetDataSize, Entry.ReadData, Entry.stream, h, hrv]
    · simp [ReadHeaders, Entry.GetDataSize, Entry.ReadData, Entry.stream, hrv]

/-- C15: when the read of stream 0 of the entry that Match opens completes
with a byte count other than the size of the stream, or the bytes of the
stream do not decode as metadata, Match completes with Storage, an empty
response and an empty blob handle, and leaves the cache as it was. -/
theorem match_undecodable_metadata_storage (pb : MetadataCodec) (c : ServiceWorkerCache)
    (b : Backend) (request : ServiceWorkerFetchRequest) (e : Entry) (o : Outcomes)
    (hinit : c.initialized_ = true) (hb : c.backend_ = some b)
    (he : b.OpenEntry request.url = some e) (hopen : o.open_entry_fails = false)
    (hfail : (∃ rv, o.read_headers.getD 0 none = some rv ∧ rv ≠ (e.headers_stream.length : Int)) ∨
      pb.ParseFromArray e.headers_stream = none) :
    Match pb c request o = (c, [.response ⟨.ErrorTypeStorage, none, none⟩]) := by
  have hm : Match pb c request o = MatchReady pb c request o := by simp [Match, hinit]
  have hread := ReadHeaders_fails pb e (o.read_headers.getD 0 none) hfail
  rw [hm]
  cases c
  simp only at hb
  subst hb
  simp only [MatchReady, openEntry, hopen, he, MatchDidOpenEntry, hread, MatchDidReadHeaderData,
    ne_eq, not_true_eq_false, if_false, Bool.false_eq_true, List.map_cons, List.map_nil]

/-- An instance of C15: an entry whose metadata stream is two bytes that the
codec rejects. -/
theorem match_undecodable_metadata_storage_witness :
    Match (sample.codec 1000)
        { sample.cache with backend_ := some ⟨[⟨"https://x/a", [9, 9], []⟩]⟩ }
        (sample.request []) {} =
      ({ sample.cache with backend_ := some ⟨[⟨"https://x/a", [9, 9], []⟩]⟩ },
        [.response ⟨.ErrorTypeStorage, none, none⟩]) :=
  match_undecodable_metadata_storage (sample.codec 1000)
    { sample.cache with backend_ := some ⟨[⟨"https://x/a", [9, 9], []⟩]⟩ }
    ⟨[⟨"https://x/a", [9, 9], []⟩]⟩ (sample.request []) ⟨"https://x/a", [9, 9], []⟩ {} rfl rfl
    (by decide) rfl (Or.inr (by decide))

/-! ## Failures while the body is streamed -/

theorem WriteData_forced_snd (b : Backend) (key : String) (index : EntryIndex) (offset : Nat)
    (buf : Bytes) (truncate : Bool) (rv : Int) :
    (b.WriteData key index offset buf truncate (some rv)).2 = rv := by
  unfold Backend.WriteData
  by_cases h : rv < 0 <;> simp [h]

/-- A write that completes with the length of the buffer has written the
whole buffer. -/
theorem WriteData_full (b : Backend) (key : String) (index : EntryIndex) (offset : Nat)
    (buf : Bytes) (truncate : Bool) (forced : Option Int)
    (h : (b.WriteData key index offset buf truncate forced).2 = (buf.length : Int)) :
    b.WriteData key index offset buf truncate forced =
      b.WriteData key index offset buf truncate none := by
  cases forced with
  | none => rfl
  | some rv =>
    rw [WriteData_forced_snd] at h
    subst h
    have hnn : ¬ ((buf.length : Int) < 0) := by omega
    simp [Backend.WriteData, hnn]

/-- The reader reports a failure when the blob source fails after any
number of buffers. -/
theorem ReadFromBlob_read_failure (key : String) (wb : List (Option Int)) :
    ∀ (chunks : List Bytes) (backend : Backend) (n off : Nat), (∀ ch ∈ chunks, ch ≠ []) →
      (BlobReader.ReadFromBlob backend key wb n off
        (chunks.map BlobRead.data ++ [BlobRead.failure])).2 = false
  | [], _, _, _, _ => by simp [BlobReader.ReadFromBlob]
  | ch :: rest, backend, n, off, hne => by
    have hch : ch.length ≠ 0 := fun h0 =>
      hne ch (List.mem_cons_self _ _) (List.length_eq_zero.1 h0)
    simp only [List.map_cons, List.cons_append, BlobReader.ReadFromBlob, hch, if_false]
    split
    · rfl
    · exact ReadFromBlob_read_failure key wb rest _ _ _
        (fun x hx => hne x (List.mem_cons_of_mem _ hx))

/-- The reader reports a failure when a write of a buffer completes with a
value other than the length of the buffer. -/
theorem ReadFromBlob_write_failure (key : String) (wb : List (Option Int)) (tail : List BlobRead) :
    ∀ (chunks : List Bytes) (j : Nat) (ch : Bytes) (rv : Int) (backend : Backend) (n off : Nat),
      chunks[j]? = some ch → wb.getD (n + j) none = some rv → rv ≠ (ch.length : Int) →
      (∀ x ∈ chunks, x ≠ []) →
      (BlobReader.ReadFromBlob backend key wb n off (chunks.map BlobRead.data ++ tail)).2 = false
  | [], j, ch, rv, _, _, _, hj, _, _, _ => by simp at hj
  | c0 :: rest, 0, ch, rv, backend, n, off, hj, hw, hrv, hne => by
    have hc0 : c0 = ch := by simpa using hj
    subst hc0
    have hch : c0.length ≠ 0 := fun h0 =>
      hne c0 (List.mem_cons_self _ _) (List.length_eq_zero.1 h0)
    have hw' : wb.getD n none = some rv := by simpa using hw
    simp only [List.map_cons, List.cons_append, BlobReader.ReadFromBlob, hch, if_false, hw',
      WriteData_forced_snd, ne_eq, hrv, not_false_eq_true, if_true]
  | c0 :: rest, j + 1, ch, rv, backend, n, off, hj, hw, hrv, hne => by
    have hch : c0.length ≠ 0 := fun h0 =>
      hne c0 (List.mem_cons_self _ _) (List.length_eq_zero.1 h0)
    have hj' : rest[j]? = some ch := by simpa using hj
    have hw' : wb.getD (n + 1 + j) none = some rv := by
      rw [← hw]
      congr 1
      omega
    simp only [List.map_cons, List.cons_append, BlobReader.ReadFromBlob, hch, if_false]
    split
    · rfl
    · exact ReadFromBlob_write_failure key wb tail rest j ch rv _ (n + 1) _ hj' hw' hrv
        (fun x hx => hne x (List.mem_cons_of_mem _ hx))

/-- A reader that reports success has left the store as a reader does whose
writes are all done in full. -/
theorem ReadFromBlob_success (key : String) (wb : List (Option Int)) :
    ∀ (reads : List BlobRead) (backend : Backend) (n off : Nat),
      (BlobReader.ReadFromBlob backend key wb n off reads).2 = true →
        BlobReader.ReadFromBlob backend key wb n off reads =
          BlobReader.ReadFromBlob backend key [] n off reads
  | [], _, _, _, _ => by simp [BlobReader.ReadFromBlob]
  | .failure :: _, _, _, _, h => by simp [BlobReader.ReadFromBlob] at h
  | .data buffer_ :: rest, backend, n, off, h => by
    by_cases hz : buffer_.length = 0
    · simp [BlobReader.ReadFromBlob, hz]
    · simp only [BlobReader.ReadFromBlob, hz, if_false] at h ⊢
      by_cases hw : (backend.WriteData key .INDEX_RESPONSE_BODY off buffer_ true
          (wb.getD n none)).2 = (buffer_.length : Int)
      · have hfull := WriteData_full backend key .INDEX_RESPONSE_BODY off buffer_ true _ hw
        rw [hfull] at h ⊢
        have hlen : (backend.WriteData key .INDEX_RESPONSE_BODY off buffer_ true none).2 =
            (buffer_.length : Int) := rfl
        simp only [hlen, ne_eq, not_true_eq_false, if_false, List.getD_nil] at h ⊢
        exact ReadFromBlob_success key wb rest _ _ _ h
      · rw [if_pos hw] at h
        cases h

theorem PutDidWriteHeaders_body_fails (w : Collaborators) (put_context : PutContext)
    (expected_bytes rv : Int) (o : Outcomes) (bh : BlobDataHandle)
    (hu : put_context.response.blob_uuid ≠ "") (hh : put_context.blob_data_handle = some bh)
    (hfail : o.blob_read_failure.isSome = true ∨
      ∃ j ch rv', (chunksAux kBufferSize bh.data [])[j]? = some ch ∧
        o.write_body.getD j none = some rv' ∧ rv' ≠ (ch.length : Int)) :
    (PutDidWriteHeaders w put_context expected_bytes rv o).2 = ⟨.ErrorTypeStorage, none, none⟩ ∧
      ∃ X : Backend,
        (PutDidWriteHeaders w put_context expected_bytes rv o).1.backend =
          X.Doom put_context.cache_entry := by
  unfold PutDidWriteHeaders
  by_cases hrv : rv ≠ expected_bytes
  · rw [if_pos hrv]
    exact ⟨rfl, _, rfl⟩
  · rw [if_neg hrv, if_neg hu]
    simp only [hh]
    have hfalse : (BlobReader.ReadFromBlob w.backend put_context.cache_entry o.write_body 0 0
        (blobReads bh o.blob_read_failure)).2 = false := by
      cases hbr : o.blob_read_failure with
      | some k =>
        simp only [blobReads]
        exact ReadFromBlob_read_failure _ _ _ _ _ _
          (fun x hx => chunksAux_ne_nil kBufferSize bh.data [] x (List.mem_of_mem_take hx))
      | none =>
        rcases hfail with h | ⟨j, ch, rv', hj, hw, hne⟩
        · rw [hbr] at h
          cases h
        · simp only [blobReads]
          have := ReadFromBlob_write_failure put_context.cache_entry o.write_body []
            (chunksAux kBufferSize bh.data []) j ch rv' w.backend 0 0 hj
            (by rw [Nat.zero_add]; exact hw) hne (chunksAux_ne_nil kBufferSize bh.data [])
          rwa [List.append_nil] at this
    simp only [PutDidWriteBlobToCache, hfalse, Bool.not_false, if_true]
    exact ⟨trivial, _, rfl⟩

/-- C11: a Put of a response with a body, on a ready cache whose store
created the entry and whose metadata serialized, completes with Storage, an
empty response and an empty blob handle when the blob source fails after any
number of chunks or when the write of a chunk completes with a byte count
other than the size of the chunk; a following Match on that URL completes
with NotFound. -/
theorem put_body_failure_storage (pb : MetadataCodec) (c : ServiceWorkerCache) (b : Backend)
    (ctx : BlobStorageContext) (bh : BlobDataHandle) (request : ServiceWorkerFetchRequest)
    (response : ServiceWorkerResponse) (o : Outcomes) (s : Bytes)
    (hinit : c.initialized_ = true) (hb : c.backend_ = some b)
    (hbody : response.blob_uuid ≠ "") (hctx : c.blob_storage_context_ = some ctx)
    (hget : ctx.GetBlobDataFromUUID response.blob_uuid = some bh)
    (hce : o.create_entry = none)
    (hs : pb.SerializeToString (putHeaders request response) = some s)
    (hfail : o.blob_read_failure.isSome = true ∨
      ∃ j ch rv, (chunksAux kBufferSize bh.data [])[j]? = some ch ∧
        o.write_body.getD j none = some rv ∧ rv ≠ (ch.length : Int)) :
    (Put pb c request response o).2 = [.response ⟨.ErrorTypeStorage, none, none⟩] ∧
      ∀ request' o', request'.url = request.url →
        (Match pb (Put pb c request response o).1 request' o').2 =
          [.response ⟨.ErrorTypeNotFound, none, none⟩] := by
  have heq : Put pb c request response o = PutImpl pb c request response (some bh) o := by
    simp [Put, hbody, hctx, hget, hinit]
  rw [heq]
  obtain ⟨h2, X, h1⟩ := PutDidWriteHeaders_body_fails
    ⟨(b.CreateEntry request.url).WriteData request.url .INDEX_HEADERS 0 s true o.write_headers |>.1,
      c.quota_manager_proxy_, c.blob_storage_context_⟩
    { origin := c.origin_
      request := request
      response := response
      blob_data_handle := some bh
      cache_entry := request.url
      out_blob_data_handle :=
        c.blob_storage_context_.bind (fun ctx => ctx.GetBlobDataFromUUID response.blob_uuid) }
    (s.length : Int)
    ((b.CreateEntry request.url).WriteData request.url .INDEX_HEADERS 0 s true o.write_headers).2
    o bh hbody rfl hfail
  simp only at h1 h2
  have hres : (PutImpl pb c request response (some bh) o).2 =
      [.response ⟨.ErrorTypeStorage, none, none⟩] := by
    simp [PutImpl, hb, hce, PutDidCreateEntry, hs, h2]
  have hbk : (PutImpl pb c request response (some bh) o).1.backend_ =
      some (X.Doom request.url) := by
    simp [PutImpl, hb, hce, PutDidCreateEntry, hs, ServiceWorkerCache.withCollaborators, h1]
  have hini : (PutImpl pb c request response (some bh) o).1.initialized_ = true := by
    simp [PutImpl, hb, ServiceWorkerCache.withCollaborators, hinit]
  refine ⟨hres, ?_⟩
  intro request' o' hurl
  have hm : Match pb (PutImpl pb c request response (some bh) o).1 request' o' =
      MatchReady pb (PutImpl pb c request response (some bh) o).1 request' o' := by
    simp [Match, hini]
  rw [hm, MatchReady_not_found pb _ (X.Doom request.url) request' o' hbk
    (Or.inl (by rw [hurl]; exact OpenEntry_Doom X request.url))]

/-- An instance of C11: the blob source fails after the first chunk of
"hello" was written. -/
theorem put_body_failure_storage_witness :
    (Match (sample.codec 1000)
        (Put (sample.codec 1000) sample.cache (sample.request [])
          (sample.response [] "blob-1") { blob_read_failure := some 1 }).1
        (sample.request []) {}).2 =
      [.response ⟨.ErrorTypeNotFound, none, none⟩] :=
  (put_body_failure_storage (sample.codec 1000) sample.cache ⟨[]⟩
    ⟨[⟨"blob-1", [104, 101, 108, 108, 111]⟩, ⟨"blob-2", [104, 105]⟩]⟩
    ⟨"blob-1", [104, 101, 108, 108, 111]⟩ (sample.request []) (sample.response [] "blob-1")
    { blob_read_failure := some 1 }
    (sample.encode (putHeaders (sample.request []) (sample.response [] "blob-1")))
    rfl rfl (by decide) rfl (by decide) rfl (by decide) (Or.inl rfl)).2 (sample.request []) {} rfl

/-! ## What a successful Put has done -/

theorem GetDataSize_append_new (pre : List Entry) (e : Entry) (hpre : ∀ x ∈ pre, x.key ≠ e.key)
    (index : EntryIndex) : Backend.GetDataSize ⟨pre ++ [e]⟩ e.key index = e.GetDataSize index := by
  unfold Backend.GetDataSize
  rw [OpenEntry_append_new pre e hpre]

/-- A `PutDidWriteHeaders` that runs the callback with OK, after the
metadata `s` was written in full to the new entry, has written the body in
full and notified the quota proxy of the sizes of the two streams. -/
theorem PutDidWriteHeaders_ok_state (pre : List Entry) (q : Option QuotaManagerProxy)
    (bs : Option BlobStorageContext) (put_context : PutContext) (s : Bytes) (o : Outcomes)
    (hpre : ∀ x ∈ pre, x.key ≠ put_context.cache_entry)
    (hok : (PutDidWriteHeaders ⟨⟨pre ++ [⟨put_context.cache_entry, s, []⟩]⟩, q, bs⟩ put_context
      (s.length : Int) (s.length : Int) o).2.error = .ErrorTypeOK) :
    (put_context.response.blob_uuid = "" ∨ ∃ bh, put_context.blob_data_handle = some bh) ∧
      PutDidWriteHeaders ⟨⟨pre ++ [⟨put_context.cache_entry, s, []⟩]⟩, q, bs⟩ put_context
          (s.length : Int) (s.length : Int) o =
        (⟨⟨pre ++ [⟨put_context.cache_entry, s,
              if put_context.response.blob_uuid = "" then []
              else blobBytes put_context.blob_data_handle⟩]⟩,
            q.map (fun q => q.NotifyStorageModified put_context.origin
              ((s.length : Int) +
                ((if put_context.response.blob_uuid = "" then []
                  else blobBytes put_context.blob_data_handle).length : Int))),
            bs⟩,
          ⟨.ErrorTypeOK, some put_context.response,
            if put_context.response.blob_uuid = "" then none
            else put_context.out_blob_data_handle⟩) := by
  by_cases hu : put_context.response.blob_uuid = ""
  · have hsz := GetDataSize_append_new pre ⟨put_context.cache_entry, s, []⟩ hpre .INDEX_HEADERS
    simp only at hsz
    refine ⟨Or.inl hu, ?_⟩
    simp [PutDidWriteHeaders, hu, Collaborators.notify, hsz, Entry.GetDataSize, Entry.stream]
  · cases hh : put_context.blob_data_handle with
    | none =>
      simp [PutDidWriteHeaders, hu, hh, BlobReader.ReadFromBlob, PutDidWriteBlobToCache] at hok
    | some bh =>
      have hchunks := chunksAux_ne_nil kBufferSize bh.data []
      cases hbr : o.blob_read_failure with
      | some k =>
        have hfalse := ReadFromBlob_read_failure put_context.cache_entry o.write_body
          ((chunksAux kBufferSize bh.data []).take k)
          ⟨pre ++ [⟨put_context.cache_entry, s, []⟩]⟩ 0 0
          (fun x hx => hchunks x (List.mem_of_mem_take hx))
        rw [List.map_take] at hfalse
        simp [PutDidWriteHeaders, hu, hh, hbr, blobReads, hfalse, PutDidWriteBlobToCache] at hok
      | none =>
        cases hst : (BlobReader.ReadFromBlob ⟨pre ++ [⟨put_context.cache_entry, s, []⟩]⟩
            put_context.cache_entry o.write_body 0 0
            ((chunksAux kBufferSize bh.data []).map BlobRead.data)).2 with
        | false =>
          simp [PutDidWriteHeaders, hu, hh, hbr, blobReads, hst, PutDidWriteBlobToCache] at hok
        | true =>
          have heq := ReadFromBlob_success _ _ _ _ _ _ hst
          have hall := ReadFromBlob_all pre put_context.cache_entry s hpre
            (chunksAux kBufferSize bh.data []) [] 0 hchunks
          simp only [List.length_nil, List.nil_append, chunksAux_flatten] at hall
          rw [hall] at heq
          have hsz0 := GetDataSize_append_new pre ⟨put_context.cache_entry, s, bh.data⟩ hpre
            .INDEX_HEADERS
          have hsz1 := GetDataSize_append_new pre ⟨put_context.cache_entry, s, bh.data⟩ hpre
            .INDEX_RESPONSE_BODY
          simp only at hsz0 hsz1
          refine ⟨Or.inr ⟨bh, rfl⟩, ?_⟩
          simp [PutDidWriteHeaders, hu, hh, hbr, blobReads, heq, PutDidWriteBlobToCache,
            Collaborators.notify, hsz0, hsz1, Entry.GetDataSize, Entry.stream, blobBytes]

/-- A `PutImpl` that runs the callback with OK has created the entry,
written the metadata and the body in full, and notified the quota proxy of
the sizes of the two streams. -/
theorem PutImpl_ok_state (pb : MetadataCodec) (c : ServiceWorkerCache) (b : Backend)
    (request : ServiceWorkerFetchRequest) (response : ServiceWorkerResponse)
    (hdl : Option BlobDataHandle) (o : Outcomes) (r : Option ServiceWorkerResponse)
    (h : Option BlobDataHandle) (hb : c.backend_ = some b)
    (hok : (PutImpl pb c request response hdl o).2 = [.response ⟨.ErrorTypeOK, r, h⟩]) :
    ∃ s, pb.SerializeToString (putHeaders request response) = some s ∧
      (response.blob_uuid = "" ∨ ∃ bh, hdl = some bh) ∧
      PutImpl pb c request response hdl o =
        (c.withCollaborators
          ⟨⟨(b.Doom request.url).entries ++ [⟨request.url, s,
              if response.blob_uuid = "" then [] else blobBytes hdl⟩]⟩,
            c.quota_manager_proxy_.map (fun q => q.NotifyStorageModified c.origin_
              ((s.length : Int) +
                ((if response.blob_uuid = "" then [] else blobBytes hdl).length : Int))),
            c.blob_storage_context_⟩,
          [.response ⟨.ErrorTypeOK, some response,
            if response.blob_uuid = "" then none
            else if hdl.isSome then
              c.blob_storage_context_.bind (fun ctx => ctx.GetBlobDataFromUUID response.blob_uuid)
            else none⟩]) := by
  cases hce : o.create_entry with
  | some f =>
    have hrv := f.rv_ne_OK
    simp [PutImpl, hb, hce, PutDidCreateEntry, hrv] at hok
  | none =>
    cases hs : pb.SerializeToString (putHeaders request response) with
    | none =>
      rw [PutImpl_serialize_fails pb c b request response hdl o hb hce hs] at hok
      simp at hok
    | some s =>
      have hE : PutImpl pb c request response hdl o =
          (c.withCollaborators
            (PutDidWriteHeaders
              ⟨((b.CreateEntry request.url).WriteData request.url .INDEX_HEADERS 0 s true
                  o.write_headers).1, c.quota_manager_proxy_, c.blob_storage_context_⟩
              { origin := c.origin_
                request := request
                response := response
                blob_data_handle := hdl
                cache_entry := request.url
                out_blob_data_handle :=
                  if hdl.isSome then
                    c.blob_storage_context_.bind
                      (fun ctx => ctx.GetBlobDataFromUUID response.blob_uuid)
                  else none }
              (s.length : Int)
              ((b.CreateEntry request.url).WriteData request.url .INDEX_HEADERS 0 s true
                  o.write_headers).2 o).1,
            [.response (PutDidWriteHeaders
              ⟨((b.CreateEntry request.url).WriteData request.url .INDEX_HEADERS 0 s true
                  o.write_headers).1, c.quota_manager_proxy_, c.blob_storage_context_⟩
              { origin := c.origin_
                request := request
                response := response
                blob_data_handle := hdl
                cache_entry := request.url
                out_blob_data_handle :=
                  if hdl.isSome then
                    c.blob_storage_context_.bind
                      (fun ctx => ctx.GetBlobDataFromUUID response.blob_uuid)
                  else none }
              (s.length : Int)
              ((b.CreateEntry request.url).WriteData request.url .INDEX_HEADERS 0 s true
                  o.write_headers).2 o).2]) := by
        simp [PutImpl, hb, hce, PutDidCreateEntry, hs]
      by_cases hw : ((b.CreateEntry request.url).WriteData request.url .INDEX_HEADERS 0 s true
          o.write_headers).2 = (s.length : Int)
      · have hfull := WriteData_full (b.CreateEntry request.url) request.url .INDEX_HEADERS 0 s
          true o.write_headers hw
        have hnew := WriteData_append_new (b.Doom request.url).entries ⟨request.url, [], []⟩
          (Doom_key_ne b request.url) .INDEX_HEADERS 0 s true
        simp only [Entry.stream, Entry.setStream, Entry.writeAt, List.take_nil, List.length_nil,
          Nat.sub_zero, List.replicate_zero, List.nil_append, if_true, List.append_nil] at hnew
        have hW : (b.CreateEntry request.url).WriteData request.url .INDEX_HEADERS 0 s true
            o.write_headers =
            (⟨(b.Doom request.url).entries ++ [⟨request.url, s, []⟩]⟩, (s.length : Int)) := by
          rw [hfull]
          exact hnew
        rw [hW] at hE
        simp only at hE
        rw [hE] at hok
        have hok' := congrArg (fun l => l.map (fun run =>
          match run with
          | CallbackRun.response args => args.error
          | _ => ErrorType.ErrorTypeStorage)) hok
        simp only [List.map_cons, List.map_nil, List.cons.injEq, and_true] at hok'
        obtain ⟨hbody, hst⟩ := PutDidWriteHeaders_ok_state (b.Doom request.url).entries
          c.quota_manager_proxy_ c.blob_storage_context_ _ s o (Doom_key_ne b request.url) hok'
        simp only at hbody hst
        rw [hE, hst]
        exact ⟨s, rfl, hbody, rfl⟩
      · rw [hE] at hok
        simp [PutDidWriteHeaders, hw] at hok

/-- A Put that completes with OK on a ready cache is a `PutImpl` with the
handle that the body reference resolves to. -/
theorem Put_ok_resolved (pb : MetadataCodec) (c : ServiceWorkerCache)
    (request : ServiceWorkerFetchRequest) (response : ServiceWorkerResponse) (o : Outcomes)
    (r : Option ServiceWorkerResponse) (h : Option BlobDataHandle)
    (hinit : c.initialized_ = true)
    (hput : (Put pb c request response o).2 = [.response ⟨.ErrorTypeOK, r, h⟩]) :
    (response.blob_uuid = "" ∧
        Put pb c request response o = PutImpl pb c request response none o) ∨
      (response.blob_uuid ≠ "" ∧ ∃ ctx bh, c.blob_storage_context_ = some ctx ∧
        ctx.GetBlobDataFromUUID response.blob_uuid = some bh ∧
        Put pb c request response o = PutImpl pb c request response (some bh) o) := by
  by_cases hu : response.blob_uuid = ""
  · exact Or.inl ⟨hu, by simp [Put, hu, hinit]⟩
  · cases hctx : c.blob_storage_context_ with
    | none => simp [Put, hu, hctx] at hput
    | some ctx =>
      cases hget : ctx.GetBlobDataFromUUID response.blob_uuid with
      | none => simp [Put, hu, hctx, hget] at hput
      | some bh =>
        exact Or.inr ⟨hu, ctx, bh, rfl, hget, by simp [Put, hu, hctx, hget, hinit]⟩

/-- C13: a Put that completes with OK on a ready cache with a quota proxy
has notified the proxy exactly once, of a delta that is the number of bytes
it stored: the length of the serialized metadata plus the length of the body
(no bytes when the response has no body), which is positive when the
metadata is not empty; the callback gets the caller's response unchanged,
with an empty blob handle when the response has no body and with the handle
that the blob store resolves the body reference to when it has one. -/
theorem successful_put_notifies_quota (pb : MetadataCodec) (c : ServiceWorkerCache) (b : Backend)
    (q : QuotaManagerProxy) (request : ServiceWorkerFetchRequest)
    (response : ServiceWorkerResponse) (o : Outcomes) (r : Option ServiceWorkerResponse)
    (h : Option BlobDataHandle) (hinit : c.initialized_ = true) (hb : c.backend_ = some b)
    (hq : c.quota_manager_proxy_ = some q)
    (hput : (Put pb c request response o).2 = [.response ⟨.ErrorTypeOK, r, h⟩]) :
    ∃ s, pb.SerializeToString (putHeaders request response) = some s ∧
      (Put pb c request response o).1.backend_ =
        some ⟨(b.Doom request.url).entries ++
          [⟨request.url, s, suppliedBody c response⟩]⟩ ∧
      (Put pb c request response o).1.quota_manager_proxy_ =
        some ⟨q.notifications ++
          [(c.origin_, (s.length : Int) + ((suppliedBody c response).length : Int))]⟩ ∧
      (s ≠ [] → 0 < (s.length : Int) + ((suppliedBody c response).length : Int)) ∧
      r = some response ∧
      (response.blob_uuid = "" → h = none) ∧
      (response.blob_uuid ≠ "" → ∃ ctx bh, c.blob_storage_context_ = some ctx ∧
        ctx.GetBlobDataFromUUID response.blob_uuid = some bh ∧ h = some bh ∧
        bh.data = suppliedBody c response) := by
  have hpos : ∀ s : Bytes, s ≠ [] →
      0 < (s.length : Int) + ((suppliedBody c response).length : Int) := by
    intro s hs
    have : 0 < s.length := List.length_pos.2 hs
    omega
  rcases Put_ok_resolved pb c request response o r h hinit hput with ⟨hu, heq⟩ |
    ⟨hu, ctx, bh, hctx, hget, heq⟩
  · rw [heq] at hput ⊢
    obtain ⟨s, hs, -, hst⟩ := PutImpl_ok_state pb c b request response none o r h hb hput
    have hsup : suppliedBody c response = [] := by simp [suppliedBody, hu]
    rw [hst] at hput
    simp only [hu, if_true, List.cons.injEq, CallbackRun.response.injEq,
      ResponseCallbackArgs.mk.injEq, true_and, and_true] at hput
    rw [hst]
    refine ⟨s, hs, ?_, ?_, hpos s, hput.1.symm, fun _ => hput.2.symm, fun hne => absurd hu hne⟩
    · simp [ServiceWorkerCache.withCollaborators, hu, hsup]
    · simp [ServiceWorkerCache.withCollaborators, hu, hsup, hq,
        QuotaManagerProxy.NotifyStorageModified]
  · rw [heq] at hput ⊢
    obtain ⟨s, hs, -, hst⟩ := PutImpl_ok_state pb c b request response (some bh) o r h hb hput
    have hsup : suppliedBody c response = bh.data := by
      simp [suppliedBody, hu, hctx, hget, blobBytes]
    rw [hst] at hput
    simp only [hu, if_false, Option.isSome_some, if_true, hctx, Option.bind_some, hget,
      List.cons.injEq, CallbackRun.response.injEq, ResponseCallbackArgs.mk.injEq, true_and,
      and_true] at hput
    rw [hst]
    refine ⟨s, hs, ?_, ?_, hpos s, hput.1.symm, fun h0 => absurd h0 hu,
      fun _ => ⟨ctx, bh, hctx, hget, hput.2.symm.trans (by simp [hget]), hsup.symm⟩⟩
    · simp [ServiceWorkerCache.withCollaborators, hu, hsup, blobBytes]
    · simp [ServiceWorkerCache.withCollaborators, hu, hsup, hq, blobBytes,
        QuotaManagerProxy.NotifyStorageModified]

/-- An instance of C13: the Put of "hello" notifies the quota proxy of the
twelve bytes of metadata and the five bytes of the body. -/
theorem successful_put_notifies_quota_witness :
    ∃ s, (sample.codec 1000).SerializeToString
        (putHeaders (sample.request []) (sample.response [] "blob-1")) = some s ∧
      (Put (sample.codec 1000) sample.cache (sample.request [])
          (sample.response [] "blob-1") {}).1.quota_manager_proxy_ =
        some ⟨[] ++ [("https://x/", (s.length : Int) +
          ((suppliedBody sample.cache (sample.response [] "blob-1")).length : Int))]⟩ :=
  match successful_put_notifies_quota (sample.codec 1000) sample.cache ⟨[]⟩ ⟨[]⟩
      (sample.request []) (sample.response [] "blob-1") {}
      (some (sample.response [] "blob-1")) (some ⟨"blob-1", [104, 101, 108, 108, 111]⟩)
      rfl rfl rfl (by decide) with
  | ⟨s, hs, _, hquota, _⟩ => ⟨s, hs, hquota⟩

/-! ## The body read loop of Match -/

/-- The read loop of Match ends with one run of the result callback,
whatever the reads of the body complete with: the fuel of `matchFuel` is
never used up. -/
theorem MatchDidReadResponseBodyData_completes (bs : Option BlobStorageContext) (e : Entry)
    (o : Outcomes) (response : ServiceWorkerResponse) :
    ∀ (fuel k : Nat) (rc : ResponseReadContext), 0 ≤ rc.total_bytes_read →
      (o.read_body.length - k) + (e.body_stream.length - rc.total_bytes_read.toNat) < fuel →
      ∃ args, (MatchDidReadResponseBodyData fuel bs e o response rc k
        (readBody e o k rc.total_bytes_read).1 (readBody e o k rc.total_bytes_read).2).2 = [args]
  | 0, _, _, _, h => absurd h (Nat.not_lt_zero _)
  | fuel + 1, k, rc, hnn, hfuel => by
    unfold MatchDidReadResponseBodyData
    by_cases hneg : (readBody e o k rc.total_bytes_read).2 < 0
    · exact ⟨_, by rw [if_pos hneg]⟩
    · rw [if_neg hneg]
      by_cases hz : (readBody e o k rc.total_bytes_read).2 = 0
      · rw [if_pos hz]
        cases bs with
        | none => exact ⟨_, rfl⟩
        | some ctx => exact ⟨_, rfl⟩
      · rw [if_neg hz]
        have hpos : 0 < (readBody e o k rc.total_bytes_read).2 := by omega
        have hmeasure : (o.read_body.length - (k + 1)) +
            (e.body_stream.length -
              (rc.total_bytes_read + (readBody e o k rc.total_bytes_read).2).toNat) < fuel := by
          by_cases hk : k < o.read_body.length
          · have : (rc.total_bytes_read + (readBody e o k rc.total_bytes_read).2).toNat ≥
                rc.total_bytes_read.toNat := by omega
            omega
          · have hnone : o.read_body.getD k none = none :=
              List.getD_eq_default _ _ (by omega)
            have hrv : (readBody e o k rc.total_bytes_read).2 =
                (((e.body_stream.drop rc.total_bytes_read.toNat).take kBufferSize).length : Int) := by
              simp only [readBody, hnone, Entry.ReadData, Entry.stream]
            rw [hrv] at hpos ⊢
            have hle : ((e.body_stream.drop rc.total_bytes_read.toNat).take kBufferSize).length ≤
                e.body_stream.length - rc.total_bytes_read.toNat := by
              rw [List.length_take, List.length_drop]
              exact Nat.min_le_right _ _
            omega
        exact MatchDidReadResponseBodyData_completes bs e o response fuel (k + 1)
          ⟨⟨rc.blob_data.uuid, rc.blob_data.data ++ (readBody e o k rc.total_bytes_read).1⟩,
            rc.total_bytes_read + (readBody e o k rc.total_bytes_read).2⟩ (by simp only; omega)
          hmeasure

theorem MatchReady_decoded (pb : MetadataCodec) (c : ServiceWorkerCache) (b : Backend)
    (request : ServiceWorkerFetchRequest) (e : Entry) (o : Outcomes)
    (hd : ServiceWorkerRequestResponseHeaders) (hb : c.backend_ = some b)
    (he : b.OpenEntry request.url = some e) (hopen : o.open_entry_fails = false)
    (hread : o.read_headers.getD 0 none = none)
    (hparse : pb.ParseFromArray e.headers_stream = some hd) :
    MatchReady pb c request o =
      ({ c with blob_storage_context_ :=
            (MatchDidReadHeaderData c.blob_storage_context_ request e o (some hd)).1 },
        (MatchDidReadHeaderData c.blob_storage_context_ request e o (some hd)).2.map
          CallbackRun.response) := by
  simp only [MatchReady, hb, openEntry, hopen, he, MatchDidOpenEntry, hread, ReadHeaders_succeeds,
    hparse, ne_eq, not_true_eq_false, if_false, Bool.false_eq_true]

theorem MatchDidReadHeaderData_matching (bs : Option BlobStorageContext)
    (request : ServiceWorkerFetchRequest) (e : Entry) (o : Outcomes)
    (hd : ServiceWorkerRequestResponseHeaders) (hmatch : EntryMatches request hd) :
    (e.body_stream = [] →
        MatchDidReadHeaderData bs request e o (some hd) =
          (bs, [⟨.ErrorTypeOK, some (matchResponse request hd), none⟩])) ∧
      (e.body_stream ≠ [] → bs = none →
        MatchDidReadHeaderData bs request e o (some hd) =
          (bs, [⟨.ErrorTypeStorage, none, none⟩])) ∧
      (e.body_stream ≠ [] → bs.isSome = true →
        MatchDidReadHeaderData bs request e o (some hd) =
          MatchDidReadResponseBodyData (matchFuel e o) bs e o
            { matchResponse request hd with blob_uuid := o.guid } ⟨⟨o.guid, []⟩, 0⟩ 0
            (readBody e o 0 0).1 (readBody e o 0 0).2) := by
  unfold EntryMatches matchCachedRequestHeaders matchResponse at hmatch
  simp only at hmatch
  refine ⟨?_, ?_, ?_⟩
  · intro hbody
    simp [MatchDidReadHeaderData, hmatch, hbody, Entry.GetDataSize, Entry.stream, matchResponse]
  · intro hbody hbs
    have hlen : e.body_stream.length ≠ 0 := fun h => hbody (List.length_eq_zero.1 h)
    simp [MatchDidReadHeaderData, hmatch, hlen, Entry.GetDataSize, Entry.stream, hbs]
  · intro hbody hbs
    have hlen : e.body_stream.length ≠ 0 := fun h => hbody (List.length_eq_zero.1 h)
    have hbs' : bs.isNone = false := by
      cases bs with
      | none => cases hbs
      | some _ => rfl
    simp only [MatchDidReadHeaderData, hmatch, Bool.not_true, Bool.false_eq_true, if_false,
      Entry.GetDataSize, Entry.stream, Nat.cast_eq_zero, hlen, hbs', matchResponse]

/-- C16, as amended: for an entry that Match opens, whose metadata decodes
and matches the request, and whose body stream holds `n` bytes: if `n = 0`
Match completes with OK, the response and no blob handle; if `n > 0` and the
blob store is alive, Match ends with one run of the callback whatever the
reads complete with, and when the store reads all it can, the run is OK with
a blob that holds the stored body and with the body size `n`; if `n > 0` and
the blob store has been torn down, Match completes with Storage.  In the
read loop a read that completes with a positive count is followed by a read
at the offset advanced by that count, a read that completes with zero ends
the loop and finishes the blob, and a read that completes with a negative
value yields Storage. -/
theorem match_body_streaming (pb : MetadataCodec) (c : ServiceWorkerCache) (b : Backend)
    (request : ServiceWorkerFetchRequest) (e : Entry) (o : Outcomes)
    (hd : ServiceWorkerRequestResponseHeaders) (hinit : c.initialized_ = true)
    (hb : c.backend_ = some b) (he : b.OpenEntry request.url = some e)
    (hopen : o.open_entry_fails = false) (hread : o.read_headers.getD 0 none = none)
    (hparse : pb.ParseFromArray e.headers_stream = some hd) (hmatch : EntryMatches request hd) :
    (e.body_stream = [] →
        Match pb c request o =
          (c, [.response ⟨.ErrorTypeOK, some (matchResponse request hd), none⟩])) ∧
      (e.body_stream ≠ [] → ∀ ctx, c.blob_storage_context_ = some ctx →
        (∃ args, (Match pb c request o).2 = [.response args]) ∧
        (o.read_body = [] →
          Match pb c request o =
            ({ c with blob_storage_context_ := some ⟨ctx.blobs ++ [⟨o.guid, e.body_stream⟩]⟩ },
              [.response ⟨.ErrorTypeOK,
                some { matchResponse request hd with
                       blob_uuid := o.guid
                       blob_size := (e.body_stream.length : Int) },
                some ⟨o.guid, e.body_stream⟩⟩]))) ∧
      (e.body_stream ≠ [] → c.blob_storage_context_ = none →
        Match pb c request o = (c, [.response ⟨.ErrorTypeStorage, none, none⟩])) ∧
      (∀ fuel bs response rc k buffer rv, 0 < rv →
        MatchDidReadResponseBodyData (fuel + 1) bs e o response rc k buffer rv =
          MatchDidReadResponseBodyData fuel bs e o response
            ⟨⟨rc.blob_data.uuid, rc.blob_data.data ++ buffer⟩, rc.total_bytes_read + rv⟩ (k + 1)
            (readBody e o (k + 1) (rc.total_bytes_read + rv)).1
            (readBody e o (k + 1) (rc.total_bytes_read + rv)).2) ∧
      (∀ fuel bs response rc k buffer,
        MatchDidReadResponseBodyData (fuel + 1) bs e o response rc k buffer 0 =
          MatchDoneWithBody bs
            { response with blob_uuid := rc.blob_data.uuid, blob_size := rc.total_bytes_read } rc) ∧
      (∀ fuel bs response rc k buffer rv, rv < 0 →
        MatchDidReadResponseBodyData (fuel + 1) bs e o response rc k buffer rv =
          (bs, [⟨.ErrorTypeStorage, none, none⟩])) := by
  have hm : Match pb c request o = MatchReady pb c request o := by simp [Match, hinit]
  have hdec := MatchReady_decoded pb c b request e o hd hb he hopen hread hparse
  obtain ⟨hempty, hgone, hloop⟩ :=
    MatchDidReadHeaderData_matching c.blob_storage_context_ request e o hd hmatch
  refine ⟨?_, ?_, ?_, ?_, ?_, ?_⟩
  · intro hbody
    rw [hm, hdec, hempty hbody]
    rfl
  · intro hbody ctx hctx
    have hsome : c.blob_storage_context_.isSome = true := by rw [hctx]; rfl
    constructor
    · rw [hm, hdec, hloop hbody hsome]
      obtain ⟨args, hargs⟩ := MatchDidReadResponseBodyData_completes c.blob_storage_context_ e o
        { matchResponse request hd with blob_uuid := o.guid } (matchFuel e o) 0
        ⟨⟨o.guid, []⟩, 0⟩ (le_refl _) (by simp only [matchFuel, Int.toNat_zero]; omega)
      exact ⟨args, by rw [hargs]; rfl⟩
    · intro hrb
      have hall := MatchDidReadResponseBodyData_all ctx e o hrb
        { matchResponse request hd with blob_uuid := o.guid } o.guid (matchFuel e o) 0 0
        (Nat.zero_le _) (by unfold matchFuel; omega)
      simp only [List.take_zero, List.drop_zero, Nat.cast_zero] at hall
      have hrd := readBody_succeeds e o hrb 0 0
      simp only [List.drop_zero, Nat.cast_zero] at hrd
      rw [hm, hdec, hloop hbody hsome, hrd, hctx, hall]
      rfl
  · intro hbody hnone
    rw [hm, hdec, hgone hbody hnone]
    rfl
  · intro fuel bs response rc k buffer rv hpos
    have h1 : ¬ rv < 0 := by omega
    have h2 : ¬ rv = 0 := by omega
    conv_lhs => unfold MatchDidReadResponseBodyData
    simp only [h1, h2, if_false]
  · intro fuel bs response rc k buffer
    conv_lhs => unfold MatchDidReadResponseBodyData
    simp
  · intro fuel bs response rc k buffer rv hneg
    conv_lhs => unfold MatchDidReadResponseBodyData
    simp only [hneg, if_true]

/-- An instance of C16 as amended: the Match of the stored body "hello"
while the blob store is alive. -/
theorem match_body_streaming_witness :
    Match (sample.codec 1000) sample.stored (sample.request []) {} =
      ({ sample.stored with
          blob_storage_context_ := some ⟨[⟨"blob-1", [104, 101, 108, 108, 111]⟩,
            ⟨"blob-2", [104, 105]⟩] ++ [⟨"guid", sample.storedEntry.body_stream⟩]⟩ },
        [.response ⟨.ErrorTypeOK,
          some { matchResponse (sample.request [])
                   (putHeaders (sample.request []) (sample.response [] "blob-1")) with
                 blob_uuid := "guid"
                 blob_size := (sample.storedEntry.body_stream.length : Int) },
          some ⟨"guid", sample.storedEntry.body_stream⟩⟩]) :=
  ((match_body_streaming (sample.codec 1000) sample.stored ⟨[sample.storedEntry]⟩
    (sample.request []) sample.storedEntry {}
    (putHeaders (sample.request []) (sample.response [] "blob-1")) (by decide) (by decide)
    (by decide) rfl rfl (by decide) (by unfold EntryMatches; decide)).2.1 (by decide)
    ⟨[⟨"blob-1", [104, 101, 108, 108, 111]⟩, ⟨"blob-2", [104, 105]⟩]⟩ (by decide)).2 rfl

/-- The claim C16 fails when the blob store has been torn down: the entry
holds the five bytes of "hello", its metadata decodes and matches and the
store's reads succeed, and Match completes with Storage. -/
theorem match_body_streaming_counterexample :
    (Backend.OpenEntry ⟨[sample.storedEntry]⟩ "https://x/a" = some sample.storedEntry ∧
        sample.storedEntry.body_stream.length = 5) ∧
      Match (sample.codec 1000) { sample.stored with blob_storage_context_ := none }
          (sample.request []) {} =
        ({ sample.stored with blob_storage_context_ := none },
          [.response ⟨.ErrorTypeStorage, none, none⟩]) := by
  decide

/-! ## Phase 2 of Keys -/

theorem keysOutput_cons_some (pb : MetadataCodec) (o : Outcomes) (index : Nat) (e : Entry)
    (rest : List Entry) (hd : ServiceWorkerRequestResponseHeaders)
    (h : ReadHeaders pb e (o.read_headers.getD index none) = some hd) :
    keysOutput pb o index (e :: rest) = keyRequest e hd :: keysOutput pb o (index + 1) rest ∧
      keysDoomed pb o index (e :: rest) = keysDoomed pb o (index + 1) rest := by
  unfold keysOutput keysDoomed
  rw [List.enumFrom_cons, List.filterMap_cons, List.filter_cons]
  simp only [h, Option.map_some', Option.isNone_some, Bool.false_eq_true, if_false, and_self]

theorem keysOutput_cons_none (pb : MetadataCodec) (o : Outcomes) (index : Nat) (e : Entry)
    (rest : List Entry) (h : ReadHeaders pb e (o.read_headers.getD index none) = none) :
    keysOutput pb o index (e :: rest) = keysOutput pb o (index + 1) rest ∧
      keysDoomed pb o index (e :: rest) = e.key :: keysDoomed pb o (index + 1) rest := by
  unfold keysOutput keysDoomed
  rw [List.enumFrom_cons, List.filterMap_cons, List.filter_cons]
  simp only [h, Option.map_none', Option.isNone_none, if_true, List.map_cons, and_self]

/-- Phase 2 of Keys over the collected entries: the callback is run with OK
and the specified output, and the store has lost the entries under the keys
of the entries that did not decode. -/
theorem KeysProcessNextEntry_eq (pb : MetadataCodec) (o : Outcomes) :
    ∀ (entries : List Entry) (backend : Option Backend)
      (out_keys : List ServiceWorkerFetchRequest) (index : Nat),
      KeysProcessNextEntry pb o backend out_keys index entries =
        (backend.map (fun b0 =>
            ⟨b0.entries.filter (fun x => decide (x.key ∉ keysDoomed pb o index entries))⟩),
          .requests .ErrorTypeOK (some (out_keys ++ keysOutput pb o index entries)))
  | [], backend, out_keys, index => by
    cases backend <;> simp [KeysProcessNextEntry, keysOutput, keysDoomed]
  | e :: rest, backend, out_keys, index => by
    unfold KeysProcessNextEntry
    simp only
    cases hr : ReadHeaders pb e (o.read_headers.getD index none) with
    | some hd =>
      obtain ⟨h1, h2⟩ := keysOutput_cons_some pb o index e rest hd hr
      rw [h1, h2]
      simp only [KeysDidReadHeaders]
      rw [KeysProcessNextEntry_eq pb o rest]
      simp [keyRequest]
    | none =>
      obtain ⟨h1, h2⟩ := keysOutput_cons_none pb o index e rest hr
      rw [h1, h2]
      simp only [KeysDidReadHeaders]
      rw [KeysProcessNextEntry_eq pb o rest]
      cases backend with
      | none => rfl
      | some b0 =>
        simp only [Option.map_some', Backend.Doom, List.filter_filter, List.mem_cons, not_or,
          Prod.mk.injEq, Option.some.injEq, Backend.mk.injEq, and_true]
        apply List.filter_congr
        intro x _
        by_cases hx : x.key = e.key <;> simp [hx]

/-! ## Phase 1 of Keys -/

/-- Phase 1 of Keys over an iterator that returns the entries `es` and then
completes with `rv`, on a cache with a backend that is not closed meanwhile:
at the end of the enumeration phase 2 runs over the collected entries; an
error runs the callback with Storage. -/
theorem KeysDidOpenNextEntry_eq (pb : MetadataCodec) (o : Outcomes) (c : ServiceWorkerCache)
    (rv : Int) (hclose : o.close_at = none) (hb : c.backend_.isSome = true) :
    ∀ (es entries : List Entry) (step : Nat),
      KeysDidOpenNextEntry pb o c entries step
          (es.map IteratorStep.entry ++ [IteratorStep.stop rv]) =
        if rv = net.ERR_FAILED then
          ({ c with backend_ := (KeysProcessNextEntry pb o c.backend_ [] 0 (entries ++ es)).1 },
            [(KeysProcessNextEntry pb o c.backend_ [] 0 (entries ++ es)).2])
        else if rv < 0 then (c, [.requests .ErrorTypeStorage none])
        else (c, [])
  | [], entries, step => by
    have hnone : c.backend_.isNone = false := by
      cases h : c.backend_ with
      | none => rw [h] at hb; cases hb
      | some _ => rfl
    have hc : ∀ n, (if (none : Option Nat) = some n then c.Close else c) = c :=
      fun n => if_neg (by simp)
    simp only [List.map_nil, List.nil_append, KeysDidOpenNextEntry, hclose, List.append_nil,
      hc, hnone, Bool.false_eq_true, if_false]
  | e :: rest, entries, step => by
    have hnone : c.backend_.isNone = false := by
      cases h : c.backend_ with
      | none => rw [h] at hb; cases hb
      | some _ => rfl
    have hc : ∀ n, (if (none : Option Nat) = some n then c.Close else c) = c :=
      fun n => if_neg (by simp)
    have ih := KeysDidOpenNextEntry_eq pb o c rv hclose hb rest (entries ++ [e]) (step + 1)
    simp only [List.append_assoc, List.singleton_append] at ih
    have hok : ¬ (net.OK = net.ERR_FAILED) := by decide
    have hok' : ¬ (net.OK < 0) := by decide
    simp only [List.map_cons, List.cons_append, KeysDidOpenNextEntry, hclose, hok, hok', hnone,
      hc, Bool.false_eq_true, if_false, List.append_eq]
    exact ih

theorem iteratorSteps_form (b : Backend) (o : Outcomes) :
    ∃ es rv, iteratorSteps b o = es.map IteratorStep.entry ++ [IteratorStep.stop rv] ∧
      (∀ e ∈ es, e ∈ b.entries) ∧
      (o.iterator_error = none → es = b.entries ∧ rv = net.ERR_FAILED) := by
  unfold iteratorSteps
  cases hi : o.iterator_error with
  | none => exact ⟨b.entries, net.ERR_FAILED, rfl, fun _ h => h, fun _ => ⟨rfl, rfl⟩⟩
  | some p =>
    obtain ⟨step, rv⟩ := p
    simp only
    by_cases hs : step < (b.entries.map IteratorStep.entry ++
        [IteratorStep.stop net.ERR_FAILED]).length
    · rw [if_pos hs]
      refine ⟨b.entries.take step, rv, ?_, fun e he => List.mem_of_mem_take he,
        fun h => by cases h⟩
      have hle : step ≤ (b.entries.map IteratorStep.entry).length := by
        simp only [List.length_append, List.length_map, List.length_singleton] at hs ⊢
        omega
      rw [List.take_append_of_le_length hle, List.map_take]
    · rw [if_neg hs]
      exact ⟨b.entries, net.ERR_FAILED, rfl, fun _ h => h, fun h => by cases h⟩

theorem keysDoomed_mem (pb : MetadataCodec) (o : Outcomes) :
    ∀ (es : List Entry) (index : Nat) (k : String), k ∈ keysDoomed pb o index es →
      ∃ e ∈ es, ∃ i, e.key = k ∧ ReadHeaders pb e (o.read_headers.getD i none) = none
  | [], index, k, h => by simp [keysDoomed] at h
  | e :: rest, index, k, h => by
    cases hr : ReadHeaders pb e (o.read_headers.getD index none) with
    | some hd =>
      rw [(keysOutput_cons_some pb o index e rest hd hr).2] at h
      obtain ⟨e', he', i, h1, h2⟩ := keysDoomed_mem pb o rest (index + 1) k h
      exact ⟨e', List.mem_cons_of_mem _ he', i, h1, h2⟩
    | none =>
      rw [(keysOutput_cons_none pb o index e rest hr).2] at h
      rcases List.mem_cons.1 h with rfl | h
      · exact ⟨e, List.mem_cons_self _ _, index, rfl, hr⟩
      · obtain ⟨e', he', i, h1, h2⟩ := keysDoomed_mem pb o rest (index + 1) k h
        exact ⟨e', List.mem_cons_of_mem _ he', i, h1, h2⟩

theorem keysOutput_mem (pb : MetadataCodec) (o : Outcomes) :
    ∀ (es : List Entry) (index : Nat) (r : ServiceWorkerFetchRequest),
      r ∈ keysOutput pb o index es →
      ∃ e ∈ es, ∃ hd i, ReadHeaders pb e (o.read_headers.getD i none) = some hd ∧
        r = keyRequest e hd
  | [], index, r, h => by simp [keysOutput] at h
  | e :: rest, index, r, h => by
    cases hr : ReadHeaders pb e (o.read_headers.getD index none) with
    | some hd =>
      rw [(keysOutput_cons_some pb o index e rest hd hr).1] at h
      rcases List.mem_cons.1 h with rfl | h
      · exact ⟨e, List.mem_cons_self _ _, hd, index, hr, rfl⟩
      · obtain ⟨e', he', hd', i, h1, h2⟩ := keysOutput_mem pb o rest (index + 1) r h
        exact ⟨e', List.mem_cons_of_mem _ he', hd', i, h1, h2⟩
    | none =>
      rw [(keysOutput_cons_none pb o index e rest hr).1] at h
      obtain ⟨e', he', hd', i, h1, h2⟩ := keysOutput_mem pb o rest (index + 1) r h
      exact ⟨e', List.mem_cons_of_mem _ he', hd', i, h1, h2⟩

theorem keysDoomed_of_fails (pb : MetadataCodec) (o : Outcomes) :
    ∀ (entries : List Entry) (index i : Nat) (e : Entry), entries[i]? = some e →
      ReadHeaders pb e (o.read_headers.getD (index + i) none) = none →
      e.key ∈ keysDoomed pb o index entries
  | [], _, _, _, h, _ => by simp at h
  | x :: rest, index, 0, e, h, hfail => by
    simp only [List.getElem?_cons_zero, Option.some.injEq] at h
    subst h
    rw [(keysOutput_cons_none pb o index x rest hfail).2]
    exact List.mem_cons_self _ _
  | x :: rest, index, i + 1, e, h, hfail => by
    simp only [List.getElem?_cons_succ] at h
    have ih := keysDoomed_of_fails pb o rest (index + 1) i e h
      (by rw [show index + 1 + i = index + (i + 1) by omega]; exact hfail)
    cases hr : ReadHeaders pb x (o.read_headers.getD index none) with
    | some hd =>
      rw [(keysOutput_cons_some pb o index x rest hd hr).2]
      exact ih
    | none =>
      rw [(keysOutput_cons_none pb o index x rest hr).2]
      exact List.mem_cons_of_mem _ ih

theorem keysDoomed_mem_pos (pb : MetadataCodec) (o : Outcomes) :
    ∀ (es : List Entry) (index : Nat) (k : String), k ∈ keysDoomed pb o index es →
      ∃ i e, es[i]? = some e ∧ e.key = k ∧
        ReadHeaders pb e (o.read_headers.getD (index + i) none) = none
  | [], index, k, h => by simp [keysDoomed] at h
  | x :: rest, index, k, h => by
    have hrest : k ∈ keysDoomed pb o (index + 1) rest →
        ∃ i e, (x :: rest)[i]? = some e ∧ e.key = k ∧
          ReadHeaders pb e (o.read_headers.getD (index + i) none) = none := by
      intro h'
      obtain ⟨i, e, h1, h2, h3⟩ := keysDoomed_mem_pos pb o rest (index + 1) k h'
      refine ⟨i + 1, e, by simpa using h1, h2, ?_⟩
      rw [show index + (i + 1) = index + 1 + i by omega]
      exact h3
    cases hr : ReadHeaders pb x (o.read_headers.getD index none) with
    | some hd =>
      rw [(keysOutput_cons_some pb o index x rest hd hr).2] at h
      exact hrest h
    | none =>
      rw [(keysOutput_cons_none pb o index x rest hr).2] at h
      rcases List.mem_cons.1 h with h | h
      · exact ⟨0, x, by simp, h.symm, by rw [Nat.add_zero]; exact hr⟩
      · exact hrest h

/-- The entries that phase 1 of Keys collects are the first entries of the
store, each at its own position. -/
theorem iteratorSteps_prefix (b : Backend) (o : Outcomes) :
    ∃ (es : List Entry) (rv : Int),
      iteratorSteps b o = es.map IteratorStep.entry ++ [IteratorStep.stop rv] ∧
      (∀ (i : Nat) (e : Entry), es[i]? = some e → b.entries[i]? = some e) ∧
      (o.iterator_error = none → es = b.entries ∧ rv = net.ERR_FAILED) := by
  unfold iteratorSteps
  cases hi : o.iterator_error with
  | none => exact ⟨b.entries, net.ERR_FAILED, rfl, fun _ _ h => h, fun _ => ⟨rfl, rfl⟩⟩
  | some p =>
    obtain ⟨step, rv⟩ := p
    simp only
    by_cases hs : step < (b.entries.map IteratorStep.entry ++
        [IteratorStep.stop net.ERR_FAILED]).length
    · rw [if_pos hs]
      refine ⟨b.entries.take step, rv, ?_, ?_, fun h => by cases h⟩
      · have hle : step ≤ (b.entries.map IteratorStep.entry).length := by
          simp only [List.length_append, List.length_map, List.length_singleton] at hs ⊢
          omega
        rw [List.take_append_of_le_length hle, List.map_take]
      · intro i e h
        rw [List.getElem?_take] at h
        split at h
        · exact h
        · cases h
    · rw [if_neg hs]
      exact ⟨b.entries, net.ERR_FAILED, rfl, fun _ _ h => h, fun h => by cases h⟩

/-- C17: on an initialized cache, whatever Match produces, the backend, its
entries and their streams are the same after Match as before; and when the
cache has a backend that is not closed meanwhile, Keys leaves the backend
with the entries it had, less the entries under the doomed keys: a key is
doomed only if it is the key of an entry of the store whose metadata, read
at the entry's own position in the enumeration, was not read or not
decoded, and, when the enumeration runs to its end, every such key is
doomed. -/
theorem match_and_keys_frame (pb : MetadataCodec) (c : ServiceWorkerCache)
    (request : ServiceWorkerFetchRequest) (o o' : Outcomes) (hinit : c.initialized_ = true) :
    (Match pb c request o).1.backend_ = c.backend_ ∧
      ∀ b, c.backend_ = some b → o'.close_at = none →
        ∃ doomed : List String,
          (∀ k ∈ doomed, ∃ i e, b.entries[i]? = some e ∧ e.key = k ∧
            ReadHeaders pb e (o'.read_headers.getD i none) = none) ∧
          (o'.iterator_error = none → ∀ i e, b.entries[i]? = some e →
            ReadHeaders pb e (o'.read_headers.getD i none) = none → e.key ∈ doomed) ∧
          (Keys pb c o').1.backend_ =
            some ⟨b.entries.filter (fun x => decide (x.key ∉ doomed))⟩ := by
  constructor
  · have hm : Match pb c request o = MatchReady pb c request o := by simp [Match, hinit]
    rw [hm]
    unfold MatchReady
    cases hb : c.backend_ with
    | none => simp [hb]
    | some b => simp [hb]
  · intro b hb hclose
    have hk : Keys pb c o' = KeysDidOpenNextEntry pb o' c [] 0 (iteratorSteps b o') := by
      simp [Keys, hinit, KeysReady, hb]
    obtain ⟨es, rv, hform, hpre, hall⟩ := iteratorSteps_prefix b o'
    rw [hk, hform, KeysDidOpenNextEntry_eq pb o' c rv hclose (by rw [hb]; rfl) es [] 0]
    by_cases hrv : rv = net.ERR_FAILED
    · rw [if_pos hrv, KeysProcessNextEntry_eq, hb, List.nil_append]
      refine ⟨keysDoomed pb o' 0 es, ?_, ?_, rfl⟩
      · intro k hk'
        obtain ⟨i, e, h1, h2, h3⟩ := keysDoomed_mem_pos pb o' es 0 k hk'
        rw [Nat.zero_add] at h3
        exact ⟨i, e, hpre i e h1, h2, h3⟩
      · intro hiter i e he hfail
        rw [(hall hiter).1]
        exact keysDoomed_of_fails pb o' b.entries 0 i e he (by rw [Nat.zero_add]; exact hfail)
    · rw [if_neg hrv]
      refine ⟨[], fun k hk' => absurd hk' (List.not_mem_nil k),
        fun hiter => absurd (hall hiter).2 hrv, ?_⟩
      split <;> simp [hb]

/-- An instance of C17: on a store of two entries, a Keys whose read of the
metadata of the first entry fails leaves exactly the second entry. -/
theorem match_and_keys_frame_witness :
    (Keys (sample.codec 1000) sample.storedTwo { read_headers := [some (-2)] }).1.backend_ =
      some ⟨[sample.storedEntryB]⟩ := by
  obtain ⟨doomed, h1, h2, h3⟩ :=
    (match_and_keys_frame (sample.codec 1000) sample.storedTwo (sample.request []) {}
      { read_headers := [some (-2)] } (by decide)).2
      ⟨[sample.storedEntry, sample.storedEntryB]⟩ rfl rfl
  have ha : "https://x/a" ∈ doomed := h2 rfl 0 sample.storedEntry rfl (by decide)
  have hb : "https://x/b" ∉ doomed := by
    intro hmem
    obtain ⟨i, e, hi, hkey, hfail⟩ := h1 _ hmem
    match i, hi with
    | 0, hi =>
      cases hi
      revert hkey
      decide
    | 1, hi =>
      cases hi
      revert hfail
      decide
    | i + 2, hi => cases hi
  rw [h3]
  simp [sample.storedEntry, sample.storedEntryB, ha, hb]

/-- C18: phase 2 of Keys over any list of collected entries runs the callback
with OK and the output of the specification: in collection order, one
request per entry whose metadata is read and decoded, with the URL of the
entry's key and the method and headers of the metadata; the entries whose
metadata is not read or not decoded are doomed, so that no open finds them
afterwards, and are not in the output. -/
theorem keys_phase_two (pb : MetadataCodec) (o : Outcomes) (b0 : Backend)
    (entries : List Entry) :
    KeysProcessNextEntry pb o (some b0) [] 0 entries =
        (some ⟨b0.entries.filter (fun x => decide (x.key ∉ keysDoomed pb o 0 entries))⟩,
          .requests .ErrorTypeOK (some (keysOutput pb o 0 entries))) ∧
      (∀ k ∈ keysDoomed pb o 0 entries,
        Backend.OpenEntry
          ⟨b0.entries.filter (fun x => decide (x.key ∉ keysDoomed pb o 0 entries))⟩ k = none) ∧
      (∀ k ∈ keysDoomed pb o 0 entries, ∃ e ∈ entries, ∃ i, e.key = k ∧
        ReadHeaders pb e (o.read_headers.getD i none) = none) ∧
      (∀ r ∈ keysOutput pb o 0 entries, ∃ e ∈ entries, ∃ hd i,
        ReadHeaders pb e (o.read_headers.getD i none) = some hd ∧ r.url = e.key ∧
          r.method = hd.method ∧
          r.headers = hd.request_headers.foldl (fun m h => m.insert h.1 h.2)
            ServiceWorkerHeaderMap.empty) := by
  refine ⟨?_, ?_, keysDoomed_mem pb o entries 0, ?_⟩
  · rw [KeysProcessNextEntry_eq]
    simp
  · intro k hk
    unfold Backend.OpenEntry
    rw [List.find?_eq_none]
    intro x hx
    have := (List.mem_filter.1 hx).2
    simp only [decide_eq_true_eq] at this ⊢
    intro hxk
    exact this (hxk ▸ hk)
  · intro r hr
    obtain ⟨e, he, hd, i, h1, h2⟩ := keysOutput_mem pb o entries 0 r hr
    exact ⟨e, he, hd, i, h1, by rw [h2]; exact ⟨rfl, rfl, rfl⟩⟩

/-! ## The init gate -/

theorem PutImpl_frame (pb : MetadataCodec) (c : ServiceWorkerCache)
    (request : ServiceWorkerFetchRequest) (response : ServiceWorkerResponse)
    (hdl : Option BlobDataHandle) (o : Outcomes) :
    (PutImpl pb c request response hdl o).1.initialized_ = c.initialized_ ∧
      (PutImpl pb c request response hdl o).1.init_callbacks_ = c.init_callbacks_ ∧
      (PutImpl pb c request response hdl o).1.create_backend_calls = c.create_backend_calls := by
  unfold PutImpl
  cases c.backend_ <;> exact ⟨rfl, rfl, rfl⟩

theorem MatchReady_frame (pb : MetadataCodec) (c : ServiceWorkerCache)
    (request : ServiceWorkerFetchRequest) (o : Outcomes) :
    (MatchReady pb c request o).1.initialized_ = c.initialized_ ∧
      (MatchReady pb c request o).1.init_callbacks_ = c.init_callbacks_ ∧
      (MatchReady pb c request o).1.create_backend_calls = c.create_backend_calls := by
  unfold MatchReady
  cases c.backend_ <;> exact ⟨rfl, rfl, rfl⟩

theorem DeleteReady_frame (c : ServiceWorkerCache) (request : ServiceWorkerFetchRequest)
    (o : Outcomes) :
    (DeleteReady c request o).1.initialized_ = c.initialized_ ∧
      (DeleteReady c request o).1.init_callbacks_ = c.init_callbacks_ ∧
      (DeleteReady c request o).1.create_backend_calls = c.create_backend_calls := by
  unfold DeleteReady
  cases c.backend_ <;> exact ⟨rfl, rfl, rfl⟩

theorem KeysDidOpenNextEntry_frame (pb : MetadataCodec) (o : Outcomes) :
    ∀ (steps : List IteratorStep) (c : ServiceWorkerCache) (entries : List Entry) (step : Nat),
      (KeysDidOpenNextEntry pb o c entries step steps).1.initialized_ = c.initialized_ ∧
        (KeysDidOpenNextEntry pb o c entries step steps).1.init_callbacks_ = c.init_callbacks_ ∧
        (KeysDidOpenNextEntry pb o c entries step steps).1.create_backend_calls =
          c.create_backend_calls
  | [], _, _, _ => ⟨rfl, rfl, rfl⟩
  | completion :: later, c, entries, step => by
    have ih := fun c1 es => KeysDidOpenNextEntry_frame pb o later c1 es (step + 1)
    unfold KeysDidOpenNextEntry
    simp only
    by_cases hclose : o.close_at = some step
    · rw [if_pos hclose]
      split_ifs
      · exact ⟨rfl, rfl, rfl⟩
      · exact ⟨rfl, rfl, rfl⟩
      · exact ⟨rfl, rfl, rfl⟩
      · exact ih c.Close _
    · rw [if_neg hclose]
      split_ifs
      · exact ⟨rfl, rfl, rfl⟩
      · exact ⟨rfl, rfl, rfl⟩
      · exact ⟨rfl, rfl, rfl⟩
      · exact ih c _

theorem KeysReady_frame (pb : MetadataCodec) (c : ServiceWorkerCache) (o : Outcomes) :
    (KeysReady pb c o).1.initialized_ = c.initialized_ ∧
      (KeysReady pb c o).1.init_callbacks_ = c.init_callbacks_ ∧
      (KeysReady pb c o).1.create_backend_calls = c.create_backend_calls := by
  unfold KeysReady
  cases c.backend_ with
  | none => exact ⟨rfl, rfl, rfl⟩
  | some b => exact KeysDidOpenNextEntry_frame pb o _ c [] 0

theorem runClosure_frame (pb : MetadataCodec) (c : ServiceWorkerCache) (closure : Closure)
    (hinit : c.initialized_ = true) :
    (runClosure pb c closure).1.initialized_ = c.initialized_ ∧
      (runClosure pb c closure).1.init_callbacks_ = c.init_callbacks_ ∧
      (runClosure pb c closure).1.create_backend_calls = c.create_backend_calls := by
  cases closure with
  | PutImpl request response hdl o => exact PutImpl_frame pb c request response hdl o
  | Match request o =>
    have h := MatchReady_frame pb c request o
    simp only [runClosure, hinit, Bool.not_true, Bool.false_eq_true, if_false] at h ⊢
    exact h
  | Delete request o =>
    have h := DeleteReady_frame c request o
    simp only [runClosure, hinit, Bool.not_true, Bool.false_eq_true, if_false] at h ⊢
    exact h
  | Keys o =>
    have h := KeysReady_frame pb c o
    simp only [runClosure, hinit, Bool.not_true, Bool.false_eq_true, if_false] at h ⊢
    exact h

theorem forall₂_filter {α β : Type} (R : α → β → Prop) (p : α → Bool) (q : β → Bool)
    (hpq : ∀ a b, R a b → p a = q b) (l : List α) (m : List β) (h : List.Forall₂ R l m) :
    List.Forall₂ R (l.filter p) (m.filter q) := by
  induction h with
  | nil => simp
  | @cons a b l m hab _ ih =>
    have hpqab := hpq a b hab
    cases hq : q b with
    | true =>
      rw [List.filter_cons_of_pos (hpqab.trans hq), List.filter_cons_of_pos hq]
      exact List.Forall₂.cons hab ih
    | false =>
      rw [List.filter_cons_of_neg (by rw [hpqab, hq]; simp),
        List.filter_cons_of_neg (by rw [hq]; simp)]
      exact ih

theorem StoredAs_filter (pb : MetadataCodec) (url : String) (entries : List Entry)
    (committed : List ServiceWorkerFetchRequest)
    (h : List.Forall₂ (StoredAs pb) entries committed) :
    List.Forall₂ (StoredAs pb) (entries.filter (fun e => decide (e.key ≠ url)))
      (committed.filter (fun r => decide (r.url ≠ url))) :=
  forall₂_filter (StoredAs pb) _ _ (fun a b hab => by rw [hab.1]) entries committed h

theorem nodup_filter_urls (url : String) (committed : List ServiceWorkerFetchRequest)
    (h : (committed.map (fun r => r.url)).Nodup) :
    ((committed.filter (fun r => decide (r.url ≠ url))).map (fun r => r.url)).Nodup :=
  (List.Nodup.sublist ((List.filter_sublist committed).map _) h)

theorem nodup_commit (request : ServiceWorkerFetchRequest)
    (committed : List ServiceWorkerFetchRequest)
    (h : (committed.map (fun r => r.url)).Nodup) :
    ((committed.filter (fun r => decide (r.url ≠ request.url)) ++ [request]).map
      (fun r => r.url)).Nodup := by
  rw [List.map_append, List.nodup_append]
  refine ⟨nodup_filter_urls request.url committed h, by simp, ?_⟩
  intro u hu hu'
  simp only [List.map_cons, List.map_nil, List.mem_singleton] at hu'
  obtain ⟨r, hr, hru⟩ := List.mem_map.1 hu
  have := (List.mem_filter.1 hr).2
  simp only [decide_eq_true_eq] at this
  exact this (hru.trans hu')

theorem keyRequest_stored (e : Entry) (request : ServiceWorkerFetchRequest)
    (response : ServiceWorkerResponse) (hkey : e.key = request.url)
    (hwf : request.headers.WellFormed) :
    keyRequest e (putHeaders request response) = returnedKey request := by
  unfold keyRequest returnedKey putHeaders
  simp only
  rw [foldl_insert_wellFormed request.headers hwf, hkey]

/-- Phase 2 of Keys over entries that hold what Puts have stored, when the
reads succeed: the output is the returned key of each committed request. -/
theorem keysOutput_stored (pb : MetadataCodec) (o : Outcomes) (hread : o.read_headers = [])
    (entries : List Entry) (committed : List ServiceWorkerFetchRequest)
    (h : List.Forall₂ (StoredAs pb) entries committed) :
    ∀ index, keysOutput pb o index entries = committed.map returnedKey ∧
      keysDoomed pb o index entries = [] := by
  induction h with
  | nil =>
    intro index
    simp [keysOutput, keysDoomed]
  | @cons e request entries committed hab _ ih =>
    intro index
    obtain ⟨hkey, hwf, response, hparse⟩ := hab
    have hr : ReadHeaders pb e (o.read_headers.getD index none) =
        some (putHeaders request response) := by
      rw [hread]
      simp only [List.getD_nil]
      rw [ReadHeaders_succeeds, hparse]
    obtain ⟨h1, h2⟩ := keysOutput_cons_some pb o index e entries _ hr
    obtain ⟨g1, g2⟩ := ih (index + 1)
    rw [h1, h2, g1, g2, keyRequest_stored e request response hkey hwf]
    exact ⟨rfl, rfl⟩

theorem Put_unresolved (pb : MetadataCodec) (c : ServiceWorkerCache)
    (request : ServiceWorkerFetchRequest) (response : ServiceWorkerResponse) (o : Outcomes)
    (h : ¬ (response.blob_uuid = "" ∨ ∃ ctx bh, c.blob_storage_context_ = some ctx ∧
      ctx.GetBlobDataFromUUID response.blob_uuid = some bh)) :
    Put pb c request response o = (c, [.response ⟨.ErrorTypeStorage, none, none⟩]) := by
  have hu : response.blob_uuid ≠ "" := fun hu => h (Or.inl hu)
  cases hctx : c.blob_storage_context_ with
  | none => simp [Put, hu, hctx]
  | some ctx =>
    cases hget : ctx.GetBlobDataFromUUID response.blob_uuid with
    | none => simp [Put, hu, hctx, hget]
    | some bh => exact absurd (Or.inr ⟨ctx, bh, hctx, hget⟩) h

/-- A Put that completes OK on a ready cache leaves the store with the
entries under other keys and, after them, one entry under the URL of the
request that holds the serialized metadata. -/
theorem Put_ok_backend (pb : MetadataCodec) (c : ServiceWorkerCache) (b : Backend)
    (request : ServiceWorkerFetchRequest) (response : ServiceWorkerResponse) (o : Outcomes)
    (r : Option ServiceWorkerResponse) (h : Option BlobDataHandle)
    (hinit : c.initialized_ = true) (hb : c.backend_ = some b)
    (hput : (Put pb c request response o).2 = [.response ⟨.ErrorTypeOK, r, h⟩]) :
    ∃ s body, pb.SerializeToString (putHeaders request response) = some s ∧
      (Put pb c request response o).1.backend_ =
        some ⟨(b.Doom request.url).entries ++ [⟨request.url, s, body⟩]⟩ ∧
      (Put pb c request response o).1.initialized_ = true := by
  rcases Put_ok_resolved pb c request response o r h hinit hput with
    ⟨-, heq⟩ | ⟨-, ctx, bh, -, -, heq⟩
  · rw [heq] at hput ⊢
    obtain ⟨s, hs, -, hstate⟩ := PutImpl_ok_state pb c b request response none o r h hb hput
    rw [hstate]
    exact ⟨s, _, hs, rfl, hinit⟩
  · rw [heq] at hput ⊢
    obtain ⟨s, hs, -, hstate⟩ :=
      PutImpl_ok_state pb c b request response (some bh) o r h hb hput
    rw [hstate]
    exact ⟨s, _, hs, rfl, hinit⟩

/-! ## The symmetry of the Vary check -/

theorem VaryMatchesLoop_symm (R C : ServiceWorkerHeaderMap) :
    ∀ toks : List String, VaryMatchesLoop R C toks = VaryMatchesLoop C R toks
  | [] => rfl
  | t :: rest => by
    have ih := VaryMatchesLoop_symm R C rest
    simp only [VaryMatchesLoop]
    by_cases hstar : TrimWhitespaceASCII t = "*"
    · simp only [hstar, if_true]
    · simp only [hstar, if_false]
      cases hr : R.find (TrimWhitespaceASCII t) <;> cases hc : C.find (TrimWhitespaceASCII t)
      · simpa using ih
      · simp
      · simp
      · rename_i a b
        by_cases hab : a = b
        · subst hab
          simpa using ih
        · have hba : ¬ b = a := fun h => hab h.symm
          simp [hab, hba]

/-- C28: `VaryMatches` gives the same value when the request header map and
the cached request header map are exchanged, for all header maps `R`, `C`
and response header map `P`. -/
theorem vary_matches_symmetric (R C P : ServiceWorkerHeaderMap) :
    VaryMatches R C P = VaryMatches C R P := by
  unfold VaryMatches
  cases P.find "vary" with
  | none => rfl
  | some vary => exact VaryMatchesLoop_symm R C (Tokenize vary)

/-! ## A cache without a backend -/

theorem Put_eq_closure (pb : MetadataCodec) (c : ServiceWorkerCache)
    (request : ServiceWorkerFetchRequest) (response : ServiceWorkerResponse) (o : Outcomes) :
    Put pb c request response o =
      match (Event.Put request response o).closure c.blob_storage_context_ with
      | none => (c, [.response ⟨.ErrorTypeStorage, none, none⟩])
      | some closure =>
        if (!c.initialized_) = true then Init pb c closure o.create_backend
        else closure.runDirect pb c := by
  unfold Put Event.closure
  by_cases hu : response.blob_uuid = ""
  · simp [hu, Closure.runDirect]
  · cases hctx : c.blob_storage_context_ with
    | none => simp [hu]
    | some ctx =>
      cases hget : ctx.GetBlobDataFromUUID response.blob_uuid with
      | none => simp [hu, hget]
      | some bh => simp [hu, hget, Closure.runDirect, hctx]

theorem Put_closure_storageRun (blob_storage : Option BlobStorageContext)
    (request : ServiceWorkerFetchRequest) (response : ServiceWorkerResponse) (o : Outcomes)
    (closure : Closure) (h : (Event.Put request response o).closure blob_storage = some closure) :
    closure.storageRun = .response ⟨.ErrorTypeStorage, none, none⟩ := by
  simp only [Event.closure] at h
  by_cases hu : response.blob_uuid = ""
  · simp only [hu, ne_eq, not_true_eq_false, if_false, Option.some.injEq] at h
    rw [← h]
    rfl
  · simp only [hu, ne_eq, not_false_eq_true, if_true] at h
    cases blob_storage with
    | none => cases h
    | some ctx =>
      simp only at h
      cases hget : ctx.GetBlobDataFromUUID response.blob_uuid with
      | none =>
        rw [hget] at h
        cases h
      | some bh =>
        rw [hget] at h
        simp only [Option.some.injEq] at h
        rw [← h]
        rfl

theorem runDirect_no_backend (pb : MetadataCodec) (c : ServiceWorkerCache) (closure : Closure)
    (hb : c.backend_ = none) : closure.runDirect pb c = (c, [closure.storageRun]) := by
  cases closure <;>
    simp [Closure.runDirect, PutImpl, MatchReady, DeleteReady, KeysReady, hb,
      Closure.storageRun]

/-- On an initialized cache without a backend every call completes with
Storage and null pointers and leaves the cache as it was. -/
theorem runEvent_no_backend (pb : MetadataCodec) (c : ServiceWorkerCache) (event : Event)
    (hinit : c.initialized_ = true) (hb : c.backend_ = none) :
    runEvent pb c event = (c, event.storageRun) := by
  cases event with
  | Put request response o =>
    simp only [runEvent, Put_eq_closure, hinit, Bool.not_true, Bool.false_eq_true, if_false,
      Event.storageRun]
    cases hcl : (Event.Put request response o).closure c.blob_storage_context_ with
    | none => rfl
    | some closure =>
      simp only [runDirect_no_backend pb c closure hb,
        Put_closure_storageRun c.blob_storage_context_ request response o closure hcl]
  | Match request o =>
    simp [runEvent, Match, hinit, MatchReady, hb, Event.storageRun]
  | Delete request o =>
    simp [runEvent, Delete, hinit, DeleteReady, hb, Event.storageRun]
  | Keys o =>
    simp [runEvent, Keys, hinit, KeysReady, hb, Event.storageRun]
  | BackendCreated backend_ptr rv =>
    simp [runEvent, ServiceWorkerCache.creationPending, hinit, Event.storageRun]

theorem runEvents_no_backend (pb : MetadataCodec) (c : ServiceWorkerCache)
    (hinit : c.initialized_ = true) (hb : c.backend_ = none) :
    ∀ events : List Event,
      runEvents pb c events = (c, (events.map Event.storageRun).flatten)
  | [] => rfl
  | event :: rest => by
    simp only [runEvents, runEvent_no_backend pb c event hinit hb,
      runEvents_no_backend pb c hinit hb rest, List.map_cons, List.flatten_cons]

theorem replayInOrder_no_backend (pb : MetadataCodec) (c : ServiceWorkerCache)
    (hb : c.backend_ = none) :
    ∀ queue : List Closure, replayInOrder pb c queue = (c, queue.map Closure.storageRun)
  | [] => rfl
  | closure :: rest => by
    simp only [replayInOrder, runDirect_no_backend pb c closure hb,
      replayInOrder_no_backend pb c hb rest, List.map_cons, List.singleton_append]

/-! ## The replay of the queue -/

theorem runClosure_eq_runDirect (pb : MetadataCodec) (c : ServiceWorkerCache) (closure : Closure)
    (hinit : c.initialized_ = true) : runClosure pb c closure = closure.runDirect pb c := by
  cases closure <;>
    simp [runClosure, Closure.runDirect, hinit]

/-- The loop of `InitDone` over the queue, on a cache whose `initialized_`
is set, runs every closure directly, once and in order: no closure is queued
again. -/
theorem runClosures_eq_replay (pb : MetadataCodec) :
    ∀ (queue : List Closure) (c : ServiceWorkerCache), c.initialized_ = true →
      runClosures pb c queue = replayInOrder pb c queue
  | [], _, _ => rfl
  | closure :: rest, c, hinit => by
    have hframe := (runClosure_frame pb c closure hinit).1
    have hstep := runClosure_eq_runDirect pb c closure hinit
    simp only [runClosures, replayInOrder]
    rw [runClosures_eq_replay pb rest (runClosure pb c closure).1 (hframe.trans hinit), hstep]

theorem InitDone_eq_replay (pb : MetadataCodec) (c : ServiceWorkerCache) (error : ErrorType) :
    InitDone pb c error =
      ({ (replayInOrder pb { c with initialized_ := true } c.init_callbacks_).1 with
          init_callbacks_ := [] },
        (replayInOrder pb { c with initialized_ := true } c.init_callbacks_).2) := by
  unfold InitDone
  simp only
  rw [runClosures_eq_replay pb c.init_callbacks_ { c with initialized_ := true } rfl]

/-- The completion of a failed backend creation on a cache without a
backend: the cache is initialized, the queue is empty, and every queued
operation has run its callback with Storage, in order. -/
theorem CreateBackendDidCreate_failed (pb : MetadataCodec) (c : ServiceWorkerCache)
    (backend_ptr : Option Backend) (rv : Int) (hb : c.backend_ = none)
    (hrv : rv ≠ net.OK ∨ backend_ptr = none) :
    CreateBackendDidCreate pb c backend_ptr rv =
      ({ c with initialized_ := true, init_callbacks_ := [] },
        c.init_callbacks_.map Closure.storageRun) := by
  unfold CreateBackendDidCreate
  by_cases h : rv ≠ net.OK
  · rw [if_pos h, InitDone_eq_replay,
      replayInOrder_no_backend pb { c with initialized_ := true } hb]
  · have hptr : backend_ptr = none := hrv.resolve_left h
    rw [if_neg h, InitDone_eq_replay, hptr]
    have hc : ({ c with backend_ := none } : ServiceWorkerCache) = c := by
      cases c
      simp only at hb
      subst hb
      rfl
    rw [hc, replayInOrder_no_backend pb { c with initialized_ := true } hb]

/-- C22: when the backend creation fails (its completion, immediate or
later, carries a value other than `net::OK`) on a cache without a backend,
the cache becomes initialized with an empty queue; every queued operation
has its callback run once, in order, with Storage and null pointers (Keys
with no list); every Put, Match, Delete and Keys issued afterwards runs its
callback once with Storage and null pointers and leaves the cache as it is;
and a call whose backend creation fails at once has its callback run with
Storage too, as have the calls after it. -/
theorem creation_failure_storage (pb : MetadataCodec) (c : ServiceWorkerCache)
    (backend_ptr : Option Backend) (rv : Int) (later : List Event) (hb : c.backend_ = none)
    (hrv : rv ≠ net.OK) :
    CreateBackendDidCreate pb c backend_ptr rv =
        ({ c with initialized_ := true, init_callbacks_ := [] },
          c.init_callbacks_.map Closure.storageRun) ∧
      runEvents pb { c with initialized_ := true, init_callbacks_ := [] } later =
        ({ c with initialized_ := true, init_callbacks_ := [] },
          (later.map Event.storageRun).flatten) ∧
      ∀ event, c.initialized_ = false → c.init_callbacks_ = [] →
        event.create_backend = some (.failed rv) →
        (runEvent pb c event).2 = event.storageRun ∧
          ((event.closure c.blob_storage_context_).isSome = true →
            (runEvent pb c event).1.initialized_ = true ∧
            runEvents pb (runEvent pb c event).1 later =
              ((runEvent pb c event).1, (later.map Event.storageRun).flatten)) := by
  refine ⟨CreateBackendDidCreate_failed pb c backend_ptr rv hb (Or.inl hrv),
    runEvents_no_backend pb { c with initialized_ := true, init_callbacks_ := [] } rfl hb later,
    ?_⟩
  intro event hinit hqueue hcreate
  have hgate : ∀ closure : Closure,
      Init pb c closure (.failed rv) =
        ({ c with
            initialized_ := true
            init_callbacks_ := []
            create_backend_calls := c.create_backend_calls + 1 },
          [closure.storageRun]) := by
    intro closure
    unfold Init
    simp only [hqueue, List.nil_append, List.length_singleton, gt_iff_lt, lt_self_iff_false,
      if_false, CreateBackend]
    exact CreateBackendDidCreate_failed pb
      { c with
        init_callbacks_ := [closure]
        create_backend_calls := c.create_backend_calls + 1 } none rv hb (Or.inl hrv)
  have hlater := runEvents_no_backend pb
    { c with
      initialized_ := true
      init_callbacks_ := []
      create_backend_calls := c.create_backend_calls + 1 } rfl hb later
  cases event with
  | Put request response o =>
    simp only [Event.create_backend, Option.some.injEq] at hcreate
    simp only [runEvent, Put_eq_closure, hinit, Bool.not_false, if_true, hcreate,
      Event.storageRun]
    cases hcl : (Event.Put request response o).closure c.blob_storage_context_ with
    | none => exact ⟨rfl, fun h => by cases h⟩
    | some closure =>
      simp only [hgate closure,
        Put_closure_storageRun c.blob_storage_context_ request response o closure hcl]
      exact ⟨trivial, fun _ => ⟨trivial, hlater⟩⟩
  | Match request o =>
    simp only [Event.create_backend, Option.some.injEq] at hcreate
    simp only [runEvent, Match, hinit, Bool.not_false, if_true, hcreate, hgate]
    exact ⟨rfl, fun _ => ⟨trivial, hlater⟩⟩
  | Delete request o =>
    simp only [Event.create_backend, Option.some.injEq] at hcreate
    simp only [runEvent, Delete, hinit, Bool.not_false, if_true, hcreate, hgate]
    exact ⟨rfl, fun _ => ⟨trivial, hlater⟩⟩
  | Keys o =>
    simp only [Event.create_backend, Option.some.injEq] at hcreate
    simp only [runEvent, Keys, hinit, Bool.not_false, if_true, hcreate, hgate]
    exact ⟨rfl, fun _ => ⟨trivial, hlater⟩⟩
  | BackendCreated p v => cases hcreate

/-- An instance of C22: the creation behind which a Match, a Put and a Keys
are queued fails; the three callbacks are run with Storage, in order. -/
theorem creation_failure_storage_witness :
    (CreateBackendDidCreate (sample.codec 1000) sample.queued none net.ERR_FAILED).2 =
      [.response ⟨.ErrorTypeStorage, none, none⟩, .response ⟨.ErrorTypeStorage, none, none⟩,
        .requests .ErrorTypeStorage none] :=
  (congrArg Prod.snd
    (creation_failure_storage (sample.codec 1000) sample.queued none net.ERR_FAILED []
      (by decide) (by decide)).1).trans (by decide)

/-! ## A closed cache -/

/-- C29: after `Close()` on an initialized cache, every later Put, Match,
Delete and Keys runs its callback once, with Storage and null pointers, and
leaves the cache as `Close()` left it: `initialized_` stays set, the queue
and the number of backend creations are unchanged. -/
theorem closed_cache_storage (pb : MetadataCodec) (c : ServiceWorkerCache) (later : List Event)
    (hinit : c.initialized_ = true) :
    runEvents pb c.Close later = (c.Close, (later.map Event.storageRun).flatten) ∧
      (runEvents pb c.Close later).1.initialized_ = true ∧
      (runEvents pb c.Close later).1.backend_ = none ∧
      (runEvents pb c.Close later).1.create_backend_calls = c.create_backend_calls ∧
      (runEvents pb c.Close later).1.init_callbacks_ = c.init_callbacks_ := by
  have h := runEvents_no_backend pb c.Close hinit rfl later
  rw [h]
  exact ⟨rfl, hinit, rfl, rfl, rfl⟩

/-- An instance of C29: after `Close()` on the cache that stores "hello", a
Match, a Put, a Delete and a Keys complete with Storage. -/
theorem closed_cache_storage_witness :
    (runEvents (sample.codec 1000) sample.stored.Close
        [.Match (sample.request []) {},
          .Put (sample.request []) (sample.response [] "blob-1") {},
          .Delete (sample.request []) {},
          .Keys {}]).2 =
      [.response ⟨.ErrorTypeStorage, none, none⟩, .response ⟨.ErrorTypeStorage, none, none⟩,
        .error .ErrorTypeStorage, .requests .ErrorTypeStorage none] :=
  congrArg Prod.snd
    (closed_cache_storage (sample.codec 1000) sample.stored
      [.Match (sample.request []) {},
        .Put (sample.request []) (sample.response [] "blob-1") {},
        .Delete (sample.request []) {},
        .Keys {}] (by decide)).1

/-! ## Queueing behind a pending creation and the replay -/

theorem Init_pending (pb : MetadataCodec) (c : ServiceWorkerCache) (closure : Closure) :
    (Init pb c closure .pending).1.init_callbacks_ = c.init_callbacks_ ++ [closure] ∧
      (Init pb c closure .pending).1.initialized_ = c.initialized_ ∧
      (Init pb c closure .pending).1.blob_storage_context_ = c.blob_storage_context_ ∧
      (Init pb c closure .pending).1.backend_ = c.backend_ ∧
      (Init pb c closure .pending).2 = [] := by
  unfold Init
  simp only
  split
  · exact ⟨rfl, rfl, rfl, rfl, rfl⟩
  · exact ⟨rfl, rfl, rfl, rfl, rfl⟩

/-- A call on a cache that is not initialized, whose backend creation (if
it starts one) stays pending, appends its closure to the queue and runs no
callback; a Put whose body reference does not resolve is not queued and
completes with Storage. -/
theorem runEvent_queues (pb : MetadataCodec) (c : ServiceWorkerCache) (event : Event)
    (hinit : c.initialized_ = false) (hq : event.QueuesBehindCreation) :
    (runEvent pb c event).1.init_callbacks_ =
        c.init_callbacks_ ++ (event.closure c.blob_storage_context_).toList ∧
      (runEvent pb c event).1.initialized_ = false ∧
      (runEvent pb c event).1.blob_storage_context_ = c.blob_storage_context_ ∧
      (runEvent pb c event).1.backend_ = c.backend_ ∧
      (runEvent pb c event).2 =
        if (event.closure c.blob_storage_context_).isSome then [] else event.storageRun := by
  have hgate : ∀ closure : Closure,
      (Init pb c closure .pending).1.init_callbacks_ = c.init_callbacks_ ++ [closure] ∧
        (Init pb c closure .pending).1.initialized_ = false ∧
        (Init pb c closure .pending).1.blob_storage_context_ = c.blob_storage_context_ ∧
        (Init pb c closure .pending).1.backend_ = c.backend_ ∧
        (Init pb c closure .pending).2 = [] := by
    intro closure
    obtain ⟨h1, h2, h3, h4, h5⟩ := Init_pending pb c closure
    exact ⟨h1, h2.trans hinit, h3, h4, h5⟩
  cases event with
  | Put request response o =>
    have hp : o.create_backend = .pending := hq
    simp only [runEvent, Put_eq_closure, hinit, Bool.not_false, if_true, hp]
    cases hcl : (Event.Put request response o).closure c.blob_storage_context_ with
    | none => simp [hinit, Event.storageRun]
    | some closure => simpa using hgate closure
  | Match request o =>
    have hp : o.create_backend = .pending := hq
    simp only [runEvent, Match, hinit, Bool.not_false, if_true, hp, Event.closure]
    simpa using hgate (.Match request o)
  | Delete request o =>
    have hp : o.create_backend = .pending := hq
    simp only [runEvent, Delete, hinit, Bool.not_false, if_true, hp, Event.closure]
    simpa using hgate (.Delete request o)
  | Keys o =>
    have hp : o.create_backend = .pending := hq
    simp only [runEvent, Keys, hinit, Bool.not_false, if_true, hp, Event.closure]
    simpa using hgate (.Keys o)
  | BackendCreated p v => exact absurd hq id

theorem runEvents_queues (pb : MetadataCodec) :
    ∀ (calls : List Event) (c : ServiceWorkerCache), c.initialized_ = false →
      (∀ event ∈ calls, event.QueuesBehindCreation) →
      (runEvents pb c calls).1.init_callbacks_ =
          c.init_callbacks_ ++ calls.filterMap (Event.closure c.blob_storage_context_) ∧
        (runEvents pb c calls).1.initialized_ = false ∧
        (runEvents pb c calls).1.backend_ = c.backend_ ∧
        (runEvents pb c calls).2 = runsWhileQueued c.blob_storage_context_ calls
  | [], c, hinit, _ => by simp [runEvents, hinit, runsWhileQueued]
  | event :: rest, c, hinit, hcalls => by
    obtain ⟨h1, h2, h3, h4, h5⟩ :=
      runEvent_queues pb c event hinit (hcalls event (List.mem_cons_self _ _))
    obtain ⟨g1, g2, g3, g4⟩ := runEvents_queues pb rest (runEvent pb c event).1 h2
      (fun e he => hcalls e (List.mem_cons_of_mem _ he))
    simp only [runEvents]
    rw [g1, g2, g3, g4, h1, h3, h4, h5]
    refine ⟨?_, rfl, rfl, ?_⟩
    · cases hcl : event.closure c.blob_storage_context_ with
      | none => simp [List.filterMap_cons, hcl]
      | some closure => simp [List.filterMap_cons, hcl]
    · simp [runsWhileQueued]

theorem CreateBackendDidCreate_eq_replay (pb : MetadataCodec) (q : ServiceWorkerCache)
    (backend_ptr : Option Backend) (rv : Int) (queue : List Closure)
    (hq : q.init_callbacks_ = queue) :
    CreateBackendDidCreate pb q backend_ptr rv =
      ({ (replayInOrder pb
            { q with
              backend_ := if rv ≠ net.OK then q.backend_ else backend_ptr
              initialized_ := true } queue).1 with init_callbacks_ := [] },
        (replayInOrder pb
            { q with
              backend_ := if rv ≠ net.OK then q.backend_ else backend_ptr
              initialized_ := true } queue).2) := by
  subst hq
  unfold CreateBackendDidCreate
  by_cases h : rv ≠ net.OK
  · rw [if_pos h, if_pos h, InitDone_eq_replay]
  · rw [if_neg h, if_neg h, InitDone_eq_replay]

theorem runDirect_frame (pb : MetadataCodec) (c : ServiceWorkerCache) (closure : Closure) :
    (closure.runDirect pb c).1.initialized_ = c.initialized_ ∧
      (closure.runDirect pb c).1.init_callbacks_ = c.init_callbacks_ ∧
      (closure.runDirect pb c).1.create_backend_calls = c.create_backend_calls := by
  cases closure with
  | PutImpl request response hdl o => exact PutImpl_frame pb c request response hdl o
  | Match request o => exact MatchReady_frame pb c request o
  | Delete request o => exact DeleteReady_frame c request o
  | Keys o => exact KeysReady_frame pb c o

/-- On an initialized cache a call bypasses the queue: it runs the
operation of its closure directly. -/
theorem runEvent_bypass (pb : MetadataCodec) (d : ServiceWorkerCache) (event : Event)
    (closure : Closure) (hinit : d.initialized_ = true)
    (hcl : event.closure d.blob_storage_context_ = some closure) :
    runEvent pb d event = closure.runDirect pb d := by
  cases event with
  | Put request response o =>
    simp only [runEvent, Put_eq_closure, hcl, hinit, Bool.not_true, Bool.false_eq_true, if_false]
  | Match request o =>
    cases hcl
    simp [runEvent, Match, hinit, Closure.runDirect]
  | Delete request o =>
    cases hcl
    simp [runEvent, Delete, hinit, Closure.runDirect]
  | Keys o =>
    cases hcl
    simp [runEvent, Keys, hinit, Closure.runDirect]
  | BackendCreated p v => cases hcl

theorem runEvent_initialized_frame (pb : MetadataCodec) (d : ServiceWorkerCache) (event : Event)
    (hinit : d.initialized_ = true) :
    (runEvent pb d event).1.initialized_ = true ∧
      (runEvent pb d event).1.init_callbacks_ = d.init_callbacks_ ∧
      (runEvent pb d event).1.create_backend_calls = d.create_backend_calls := by
  cases hcl : event.closure d.blob_storage_context_ with
  | some closure =>
    rw [runEvent_bypass pb d event closure hinit hcl]
    obtain ⟨h1, h2, h3⟩ := runDirect_frame pb d closure
    exact ⟨h1.trans hinit, h2, h3⟩
  | none =>
    cases event with
    | Put request response o =>
      simp [runEvent, Put_eq_closure, hcl, hinit]
    | Match request o => cases hcl
    | Delete request o => cases hcl
    | Keys o => cases hcl
    | BackendCreated p v =>
      simp [runEvent, ServiceWorkerCache.creationPending, hinit]

theorem runEvents_initialized_frame (pb : MetadataCodec) :
    ∀ (events : List Event) (d : ServiceWorkerCache), d.initialized_ = true →
      (runEvents pb d events).1.initialized_ = true ∧
        (runEvents pb d events).1.init_callbacks_ = d.init_callbacks_ ∧
        (runEvents pb d events).1.create_backend_calls = d.create_backend_calls
  | [], _, hinit => ⟨hinit, rfl, rfl⟩
  | event :: rest, d, hinit => by
    obtain ⟨h1, h2, h3⟩ := runEvent_initialized_frame pb d event hinit
    obtain ⟨g1, g2, g3⟩ := runEvents_initialized_frame pb rest (runEvent pb d event).1 h1
    exact ⟨g1, g2.trans h2, g3.trans h3⟩

/-! ## A cache that loses its backend -/

/-- Phase 1 of Keys when `Close()` runs before the completion of an
enumeration step that returns an entry: the callback is run with NotFound. -/
theorem KeysDidOpenNextEntry_closed (pb : MetadataCodec) (o : Outcomes) (e : Entry)
    (post : List IteratorStep) :
    ∀ (pre : List Entry) (c : ServiceWorkerCache) (entries : List Entry) (step : Nat),
      c.backend_.isSome = true → o.close_at = some (step + pre.length) →
      KeysDidOpenNextEntry pb o c entries step
          (pre.map IteratorStep.entry ++ IteratorStep.entry e :: post) =
        (c.Close, [.requests .ErrorTypeNotFound none])
  | [], c, entries, step, _, hclose => by
    simp only [List.length_nil, Nat.add_zero] at hclose
    simp [KeysDidOpenNextEntry, hclose, ServiceWorkerCache.Close, net.OK, net.ERR_FAILED]
  | x :: pre, c, entries, step, hb, hclose => by
    have hne : o.close_at ≠ some step := by
      rw [hclose]
      simp
    have hnone : c.backend_.isNone = false := by
      cases h : c.backend_ with
      | none => rw [h] at hb; cases hb
      | some _ => rfl
    have ih := KeysDidOpenNextEntry_closed pb o e post pre c (entries ++ [x]) (step + 1) hb
      (by rw [hclose]; simp only [List.length_cons]; congr 1; omega)
    simp only [List.map_cons, List.cons_append, KeysDidOpenNextEntry, hne, if_false, hnone,
      Bool.false_eq_true]
    simpa [net.OK, net.ERR_FAILED] using ih

/-- C23, as amended: on an initialized cache without a backend, Put, Match,
Delete and Keys run their callback with Storage and null pointers; when
`Close()` takes the backend away during the enumeration of Keys, before the
completion of a step that returns an entry, Keys runs its callback with
NotFound and no list. -/
theorem no_backend_error_kinds (pb : MetadataCodec) (c : ServiceWorkerCache)
    (hinit : c.initialized_ = true) :
    (c.backend_ = none → ∀ event, runEvent pb c event = (c, event.storageRun)) ∧
      ∀ (b : Backend) (o : Outcomes) (k : Nat), c.backend_ = some b →
        o.iterator_error = none → o.close_at = some k → k < b.entries.length →
        Keys pb c o = (c.Close, [.requests .ErrorTypeNotFound none]) := by
  refine ⟨fun hb event => runEvent_no_backend pb c event hinit hb, ?_⟩
  intro b o k hb hiter hclose hk
  have hk' : Keys pb c o = KeysDidOpenNextEntry pb o c [] 0 (iteratorSteps b o) := by
    simp [Keys, hinit, KeysReady, hb]
  have hsteps : iteratorSteps b o =
      (b.entries.take k).map IteratorStep.entry ++
        IteratorStep.entry (b.entries.get ⟨k, hk⟩) ::
          ((b.entries.drop (k + 1)).map IteratorStep.entry ++
            [IteratorStep.stop net.ERR_FAILED]) := by
    have hsplit : b.entries =
        b.entries.take k ++ b.entries.get ⟨k, hk⟩ :: b.entries.drop (k + 1) := by
      conv_lhs => rw [← List.take_append_drop k b.entries, List.drop_eq_getElem_cons hk]
      rfl
    unfold iteratorSteps
    rw [hiter]
    simp only
    conv_lhs => rw [hsplit]
    simp only [List.map_append, List.map_cons, List.append_assoc, List.cons_append]
  rw [hk', hsteps]
  exact KeysDidOpenNextEntry_closed pb o _ _ (b.entries.take k) c [] 0 (by rw [hb]; rfl)
    (by rw [hclose, List.length_take, Nat.zero_add, Nat.min_eq_left (Nat.le_of_lt hk)])

/-- An instance of C23 as amended: a Keys on the cache that stores "hello",
closed before the first enumeration step completes. -/
theorem no_backend_error_kinds_witness :
    Keys (sample.codec 1000) sample.stored { close_at := some 0 } =
      (sample.stored.Close, [.requests .ErrorTypeNotFound none]) :=
  (no_backend_error_kinds (sample.codec 1000) sample.stored (by decide)).2
    ⟨[sample.storedEntry]⟩ { close_at := some 0 } 0 (by decide) rfl rfl (by decide)

/-- The claim C23 fails for Keys: the enumeration step returns the entry of
"hello" after `Close()` has run, the cache has no backend, and the callback
is run with NotFound, not with Storage. -/
theorem no_backend_error_kinds_counterexample :
    (Keys (sample.codec 1000) sample.stored { close_at := some 0 }).1.backend_ = none ∧
      (Keys (sample.codec 1000) sample.stored { close_at := some 0 }).2 =
        [.requests .ErrorTypeNotFound none] := by
  decide

/-! ## Collaborators that have been torn down -/

/-- The callbacks of Put compute the store and the arguments of the result
callback without looking at the quota proxy or the blob storage context. -/
theorem PutDidCreateEntry_collaborators (pb : MetadataCodec) (b : Backend)
    (q q' : Option QuotaManagerProxy) (bs bs' : Option BlobStorageContext)
    (put_context : PutContext) (rv : Int) (o : Outcomes) :
    (PutDidCreateEntry pb ⟨b, q', bs'⟩ put_context rv o).1.backend =
        (PutDidCreateEntry pb ⟨b, q, bs⟩ put_context rv o).1.backend ∧
      (PutDidCreateEntry pb ⟨b, q', bs'⟩ put_context rv o).2 =
        (PutDidCreateEntry pb ⟨b, q, bs⟩ put_context rv o).2 := by
  unfold PutDidCreateEntry
  split
  · exact ⟨rfl, rfl⟩
  · split
    · exact ⟨rfl, rfl⟩
    · simp only [PutDidWriteHeaders, PutDidWriteBlobToCache, Collaborators.notify]
      split
      · exact ⟨rfl, rfl⟩
      · split
        · exact ⟨rfl, rfl⟩
        · split
          · exact ⟨rfl, rfl⟩
          · exact ⟨rfl, rfl⟩

theorem PutImpl_collaborators (pb : MetadataCodec) (c : ServiceWorkerCache)
    (q' : Option QuotaManagerProxy) (bs' : Option BlobStorageContext)
    (request : ServiceWorkerFetchRequest) (response : ServiceWorkerResponse) (o : Outcomes) :
    (PutImpl pb { c with quota_manager_proxy_ := q', blob_storage_context_ := bs' } request
          response none o).1.backend_ =
        (PutImpl pb c request response none o).1.backend_ ∧
      (PutImpl pb { c with quota_manager_proxy_ := q', blob_storage_context_ := bs' } request
          response none o).2 =
        (PutImpl pb c request response none o).2 := by
  rcases c with ⟨origin, q, bs, backend, init, mem, queue, calls⟩
  cases backend with
  | none => exact ⟨rfl, rfl⟩
  | some b =>
    obtain ⟨h1, h2⟩ := PutDidCreateEntry_collaborators pb
      (match o.create_entry with
        | some failure => (b, failure.rv)
        | none => (b.CreateEntry request.url, net.OK)).1
      q q' bs bs'
      { origin := origin
        request := request
        response := response
        blob_data_handle := none
        cache_entry := request.url
        out_blob_data_handle := none }
      (match o.create_entry with
        | some failure => (b, failure.rv)
        | none => (b.CreateEntry request.url, net.OK)).2 o
    simp only [PutImpl, ServiceWorkerCache.withCollaborators, Option.isSome_none,
      Bool.false_eq_true, if_false]
    exact ⟨congrArg some h1, congrArg (fun a => [CallbackRun.response a]) h2⟩

theorem DeleteReady_collaborators (c : ServiceWorkerCache) (q' : Option QuotaManagerProxy)
    (bs' : Option BlobStorageContext) (request : ServiceWorkerFetchRequest) (o : Outcomes) :
    (DeleteReady { c with quota_manager_proxy_ := q', blob_storage_context_ := bs' } request
          o).1.backend_ = (DeleteReady c request o).1.backend_ ∧
      (DeleteReady { c with quota_manager_proxy_ := q', blob_storage_context_ := bs' } request
          o).2 = (DeleteReady c request o).2 := by
  rcases c with ⟨origin, q, bs, backend, init, mem, queue, calls⟩
  cases backend with
  | none => exact ⟨rfl, rfl⟩
  | some b =>
    simp only [DeleteReady, DeleteDidOpenEntry, ServiceWorkerCache.withCollaborators,
      Collaborators.notify]
    split
    · exact ⟨rfl, rfl⟩
    · split
      · exact ⟨rfl, rfl⟩
      · exact ⟨rfl, rfl⟩

/-- With a live blob storage context the read loop of Match runs the
callback with Storage and null pointers or with OK, a response and a blob
handle. -/
theorem MatchDidReadResponseBodyData_kinds (ctx : BlobStorageContext) (e : Entry) (o : Outcomes)
    (response : ServiceWorkerResponse) :
    ∀ (fuel k : Nat) (rc : ResponseReadContext) (buffer : Bytes) (rv : Int),
      ∀ args ∈ (MatchDidReadResponseBodyData fuel (some ctx) e o response rc k buffer rv).2,
        args = ⟨.ErrorTypeStorage, none, none⟩ ∨ ∃ r h, args = ⟨.ErrorTypeOK, some r, some h⟩
  | 0, _, _, _, _ => by
    intro args hargs
    simp [MatchDidReadResponseBodyData] at hargs
  | fuel + 1, k, rc, buffer, rv => by
    intro args hargs
    unfold MatchDidReadResponseBodyData at hargs
    by_cases hneg : rv < 0
    · rw [if_pos hneg] at hargs
      exact Or.inl (List.mem_singleton.1 hargs)
    · rw [if_neg hneg] at hargs
      by_cases hz : rv = 0
      · rw [if_pos hz] at hargs
        exact Or.inr ⟨_, _, List.mem_singleton.1 hargs⟩
      · rw [if_neg hz] at hargs
        exact MatchDidReadResponseBodyData_kinds ctx e o response fuel _ _ _ _ args hargs

/-- The callback of Match after the open, with and without a blob storage
context: the callback is run with the same arguments, except that an OK
with a blob handle becomes Storage without the context. -/
theorem MatchDidOpenEntry_without_blob_storage (pb : MetadataCodec)
    (bs : Option BlobStorageContext) (request : ServiceWorkerFetchRequest)
    (entryptr : Option Entry) (rv : Int) (o : Outcomes) :
    (MatchDidOpenEntry pb none request entryptr rv o).2 =
        (MatchDidOpenEntry pb bs request entryptr rv o).2 ∨
      ∃ r h, (MatchDidOpenEntry pb bs request entryptr rv o).2 = [⟨.ErrorTypeOK, some r, some h⟩] ∧
        (MatchDidOpenEntry pb none request entryptr rv o).2 =
          [⟨.ErrorTypeStorage, none, none⟩] := by
  unfold MatchDidOpenEntry
  by_cases hrv : rv ≠ net.OK
  · rw [if_pos hrv, if_pos hrv]
    exact Or.inl rfl
  · rw [if_neg hrv, if_neg hrv]
    cases entryptr with
    | none => exact Or.inl rfl
    | some e =>
      simp only
      cases ReadHeaders pb e (o.read_headers.getD 0 none) with
      | none => exact Or.inl rfl
      | some hd =>
        unfold MatchDidReadHeaderData
        simp only
        split
        · exact Or.inl rfl
        · split
          · exact Or.inl rfl
          · cases bs with
            | none => exact Or.inl rfl
            | some ctx =>
              simp only [Option.isNone_none, if_true, Option.isNone_some, Bool.false_eq_true,
                if_false]
              obtain ⟨args, hargs⟩ := MatchDidReadResponseBodyData_completes (some ctx) e o
                { url := request.url
                  status_code := hd.status_code
                  status_text := hd.status_text
                  response_type := ProtoResponseTypeToWebResponseType hd.response_type
                  headers := hd.response_headers.foldl (fun m h => m.insert h.1 h.2)
                    ServiceWorkerHeaderMap.empty
                  blob_uuid := o.guid
                  blob_size := 0 } (matchFuel e o) 0 ⟨⟨o.guid, []⟩, 0⟩ (le_refl _)
                (by simp only [matchFuel, Int.toNat_zero]; omega)
              rw [hargs]
              have hmem := MatchDidReadResponseBodyData_kinds ctx e o _ _ _ _ _ _ args
                (by rw [hargs]; exact List.mem_singleton_self _)
              rcases hmem with h | ⟨r, h, hrh⟩
              · exact Or.inl (by rw [h])
              · exact Or.inr ⟨r, h, by rw [hrh], trivial⟩

/-- C24, as amended: on an initialized cache, a Put of a response without a
body and a Delete run their callback with the same arguments and leave the
same store whether the quota proxy and the blob storage context are alive
or not; Match does not look at the quota proxy, and without the blob
storage context it runs its callback with the same arguments, except that a
Match that would complete OK with a blob handle (a matching entry with a
body) completes with Storage; a Put of a response with a body completes
with Storage without the blob storage context. -/
theorem torn_down_collaborators (pb : MetadataCodec) (c : ServiceWorkerCache)
    (q' : Option QuotaManagerProxy) (bs' : Option BlobStorageContext)
    (request : ServiceWorkerFetchRequest) (response : ServiceWorkerResponse) (o : Outcomes)
    (hinit : c.initialized_ = true) :
    (response.blob_uuid = "" →
        (Put pb { c with quota_manager_proxy_ := q', blob_storage_context_ := bs' } request
            response o).2 = (Put pb c request response o).2 ∧
          (Put pb { c with quota_manager_proxy_ := q', blob_storage_context_ := bs' } request
            response o).1.backend_ = (Put pb c request response o).1.backend_) ∧
      ((Delete pb { c with quota_manager_proxy_ := q', blob_storage_context_ := bs' } request
            o).2 = (Delete pb c request o).2 ∧
        (Delete pb { c with quota_manager_proxy_ := q', blob_storage_context_ := bs' } request
            o).1.backend_ = (Delete pb c request o).1.backend_) ∧
      (Match pb { c with quota_manager_proxy_ := q' } request o).2 =
        (Match pb c request o).2 ∧
      ((Match pb { c with blob_storage_context_ := none } request o).2 =
          (Match pb c request o).2 ∨
        ∃ r h, (Match pb c request o).2 = [.response ⟨.ErrorTypeOK, some r, some h⟩] ∧
          (Match pb { c with blob_storage_context_ := none } request o).2 =
            [.response ⟨.ErrorTypeStorage, none, none⟩]) ∧
      (response.blob_uuid ≠ "" →
        (Put pb { c with blob_storage_context_ := none } request response o).2 =
          [.response ⟨.ErrorTypeStorage, none, none⟩]) := by
  refine ⟨?_, ?_, ?_, ?_, ?_⟩
  · intro hu
    have h1 : Put pb c request response o = PutImpl pb c request response none o := by
      simp [Put, hu, hinit]
    have h2 : Put pb { c with quota_manager_proxy_ := q', blob_storage_context_ := bs' }
        request response o =
        PutImpl pb { c with quota_manager_proxy_ := q', blob_storage_context_ := bs' }
          request response none o := by
      simp [Put, hu, hinit]
    rw [h1, h2]
    exact ⟨(PutImpl_collaborators pb c q' bs' request response o).2,
      (PutImpl_collaborators pb c q' bs' request response o).1⟩
  · have h1 : Delete pb c request o = DeleteReady c request o := by simp [Delete, hinit]
    have h2 : Delete pb { c with quota_manager_proxy_ := q', blob_storage_context_ := bs' }
        request o =
        DeleteReady { c with quota_manager_proxy_ := q', blob_storage_context_ := bs' }
          request o := by
      simp [Delete, hinit]
    rw [h1, h2]
    exact ⟨(DeleteReady_collaborators c q' bs' request o).2,
      (DeleteReady_collaborators c q' bs' request o).1⟩
  · simp only [Match, hinit, Bool.not_true, Bool.false_eq_true, if_false, MatchReady]
    cases c.backend_ <;> rfl
  · simp only [Match, hinit, Bool.not_true, Bool.false_eq_true, if_false, MatchReady]
    cases c.backend_ with
    | none => exact Or.inl rfl
    | some b =>
      simp only
      rcases MatchDidOpenEntry_without_blob_storage pb c.blob_storage_context_ request
        (openEntry b request.url o).1 (openEntry b request.url o).2 o with h | ⟨r, h, h1, h2⟩
      · exact Or.inl (by rw [h])
      · exact Or.inr ⟨r, h, by rw [h1]; rfl, by rw [h2]; rfl⟩
  · intro hu
    simp [Put, hu]

/-- An instance of C24 as amended: the Delete of the stored "hello" gives
the same result without the quota proxy and the blob storage context. -/
theorem torn_down_collaborators_witness :
    (Delete (sample.codec 1000)
        { sample.stored with quota_manager_proxy_ := none, blob_storage_context_ := none }
        (sample.request []) {}).2 =
      (Delete (sample.codec 1000) sample.stored (sample.request []) {}).2 :=
  (torn_down_collaborators (sample.codec 1000) sample.stored none none (sample.request [])
    (sample.response [] "") {} (by decide)).2.1.1

/-- The claim C24 fails for Match: the Match of the stored body "hello"
completes with OK while the blob storage context is alive and with Storage
after it has been torn down. -/
theorem torn_down_collaborators_counterexample :
    (Match (sample.codec 1000) sample.stored (sample.request []) {}).2.map CallbackRun.isOK =
        [true] ∧
      (Match (sample.codec 1000) { sample.stored with blob_storage_context_ := none }
          (sample.request []) {}).2 = [.response ⟨.ErrorTypeStorage, none, none⟩] := by
  decide

/-! ## The writes of the body -/

theorem writes_truncate (key : String) (wb : List (Option Int)) :
    ∀ (reads : List BlobRead) (backend : Backend) (n off : Nat),
      ∀ w ∈ BlobReader.writes backend key wb n off reads, w.truncate = true
  | [], _, _, _ => by simp [BlobReader.writes]
  | .failure :: _, _, _, _ => by simp [BlobReader.writes]
  | .data buffer_ :: rest, backend, n, off => by
    intro w hw
    unfold BlobReader.writes at hw
    by_cases hz : buffer_.length = 0
    · simp [hz] at hw
    · rw [if_neg hz] at hw
      rcases List.mem_cons.1 hw with h | h
      · rw [h]
      · split at h
        · cases h
        · exact writes_truncate key wb rest _ _ _ w h

/-- Every write is at the offset that the loop started with plus the
lengths of the buffers written before it. -/
theorem writes_offsets (key : String) (wb : List (Option Int)) :
    ∀ (reads : List BlobRead) (backend : Backend) (n off k : Nat)
      (hk : k < (BlobReader.writes backend key wb n off reads).length),
      ((BlobReader.writes backend key wb n off reads).get ⟨k, hk⟩).offset =
        off + (((BlobReader.writes backend key wb n off reads).take k).map
          (fun w => w.buffer.length)).sum
  | [], _, _, _, k, hk => by simp [BlobReader.writes] at hk
  | .failure :: _, _, _, _, k, hk => by simp [BlobReader.writes] at hk
  | .data buffer_ :: rest, backend, n, off, k, hk => by
    by_cases hz : buffer_.length = 0
    · simp [BlobReader.writes, hz] at hk
    · have hunf : BlobReader.writes backend key wb n off (.data buffer_ :: rest) =
          ⟨off, buffer_, true⟩ ::
            (if (backend.WriteData key .INDEX_RESPONSE_BODY off buffer_ true
                (wb.getD n none)).2 ≠ (buffer_.length : Int) then []
             else
              BlobReader.writes (backend.WriteData key .INDEX_RESPONSE_BODY off buffer_ true
                (wb.getD n none)).1 key wb (n + 1) (off + buffer_.length) rest) := by
        conv_lhs => unfold BlobReader.writes
        rw [if_neg hz]
      cases k with
      | zero => simp [hunf]
      | succ j =>
        by_cases hw : (backend.WriteData key .INDEX_RESPONSE_BODY off buffer_ true
            (wb.getD n none)).2 ≠ (buffer_.length : Int)
        · rw [hunf, if_pos hw] at hk
          simp at hk
        · have hunf' := hunf
          rw [if_neg hw] at hunf'
          have hk' : j < (BlobReader.writes (backend.WriteData key .INDEX_RESPONSE_BODY off
              buffer_ true (wb.getD n none)).1 key wb (n + 1) (off + buffer_.length)
              rest).length := by
            rw [hunf'] at hk
            simpa using hk
          have ih := writes_offsets key wb rest _ (n + 1) (off + buffer_.length) j hk'
          simp only [hunf', List.get_eq_getElem, List.getElem_cons_succ, List.take_succ_cons,
            List.map_cons, List.sum_cons] at ih ⊢
          rw [ih]
          omega

/-- The store that the reader leaves is the store after the recorded writes. -/
theorem ReadFromBlob_applyWrites (key : String) (wb : List (Option Int)) :
    ∀ (reads : List BlobRead) (backend : Backend) (n off : Nat),
      (BlobReader.ReadFromBlob backend key wb n off reads).1 =
        applyWrites key wb backend n (BlobReader.writes backend key wb n off reads)
  | [], _, _, _ => by simp [BlobReader.ReadFromBlob, BlobReader.writes, applyWrites]
  | .failure :: _, _, _, _ => by simp [BlobReader.ReadFromBlob, BlobReader.writes, applyWrites]
  | .data buffer_ :: rest, backend, n, off => by
    unfold BlobReader.ReadFromBlob BlobReader.writes
    by_cases hz : buffer_.length = 0
    · simp [hz, applyWrites]
    · rw [if_neg hz, if_neg hz]
      simp only [applyWrites]
      by_cases hw : (backend.WriteData key .INDEX_RESPONSE_BODY off buffer_ true
          (wb.getD n none)).2 ≠ (buffer_.length : Int)
      · rw [if_pos hw, if_pos hw]
        rfl
      · rw [if_neg hw, if_neg hw]
        exact ReadFromBlob_applyWrites key wb rest _ _ _

/-- With a store that writes every buffer in full, the recorded writes carry
the chunks in read order. -/
theorem writes_buffers (key : String) :
    ∀ (chunks : List Bytes) (backend : Backend) (n off : Nat), (∀ ch ∈ chunks, ch ≠ []) →
      (BlobReader.writes backend key [] n off (chunks.map BlobRead.data)).map
        (fun w => w.buffer) = chunks
  | [], _, _, _, _ => by simp [BlobReader.writes]
  | ch :: rest, backend, n, off, hne => by
    have hch : ch.length ≠ 0 := by
      intro h0
      exact hne ch (List.mem_cons_self _ _) (List.length_eq_zero.1 h0)
    have hlen : (backend.WriteData key .INDEX_RESPONSE_BODY off ch true none).2 =
        (ch.length : Int) := rfl
    simp only [List.map_cons, BlobReader.writes, hch, if_false, List.getD_nil, hlen, ne_eq,
      not_true_eq_false]
    rw [writes_buffers key rest _ _ _ (fun x hx => hne x (List.mem_cons_of_mem _ hx))]

/-- C25, as amended: the writes of the body that `BlobReader` issues for the
completions `reads` of the blob request are sequential: the write with
number `k` is at the offset that is the sum of the lengths of the buffers
written before it; every write is issued with truncation; the store the
reader leaves is the store after these writes; and when the source ends
normally and every write is done in full, the writes carry the chunks in
read order and stream 1 of the entry, empty before, holds the concatenation
of the chunks. -/
theorem body_writes_sequential (backend : Backend) (key : String)
    (write_body : List (Option Int)) (reads : List BlobRead) :
    (∀ w ∈ BlobReader.writes backend key write_body 0 0 reads, w.truncate = true) ∧
      (∀ (k : Nat) (hk : k < (BlobReader.writes backend key write_body 0 0 reads).length),
        ((BlobReader.writes backend key write_body 0 0 reads).get ⟨k, hk⟩).offset =
          (((BlobReader.writes backend key write_body 0 0 reads).take k).map
            (fun w => w.buffer.length)).sum) ∧
      (BlobReader.ReadFromBlob backend key write_body 0 0 reads).1 =
        applyWrites key write_body backend 0
          (BlobReader.writes backend key write_body 0 0 reads) ∧
      ∀ (pre : List Entry) (h : Bytes) (chunks : List Bytes), (∀ x ∈ pre, x.key ≠ key) →
        (∀ ch ∈ chunks, ch ≠ []) →
        (BlobReader.writes ⟨pre ++ [⟨key, h, []⟩]⟩ key [] 0 0 (chunks.map BlobRead.data)).map
            (fun w => w.buffer) = chunks ∧
          BlobReader.ReadFromBlob ⟨pre ++ [⟨key, h, []⟩]⟩ key [] 0 0
              (chunks.map BlobRead.data) =
            (⟨pre ++ [⟨key, h, chunks.flatten⟩]⟩, true) := by
  refine ⟨writes_truncate key write_body reads backend 0 0, ?_,
    ReadFromBlob_applyWrites key write_body reads backend 0 0, ?_⟩
  · intro k hk
    rw [writes_offsets key write_body reads backend 0 0 k hk, Nat.zero_add]
  · intro pre h chunks hpre hne
    refine ⟨writes_buffers key chunks _ 0 0 hne, ?_⟩
    have := ReadFromBlob_all pre key h hpre chunks [] 0 hne
    simpa using this

/-- An instance of C25 as amended: of the two chunks `[1, 2]` and `[3]` the
second is written at offset 2. -/
theorem body_writes_sequential_witness :
    ((BlobReader.writes ⟨[⟨"k", [], []⟩]⟩ "k" [] 0 0 [.data [1, 2], .data [3]]).get
        ⟨1, by decide⟩).offset = 2 :=
  ((body_writes_sequential ⟨[⟨"k", [], []⟩]⟩ "k" [] [.data [1, 2], .data [3]]).2.1 1
    (by decide)).trans (by decide)

/-- The claim C25 fails for the truncation: of the two writes for the chunks
`[1, 2]` and `[3]` the second, at offset 2, is issued with truncation too. -/
theorem body_writes_sequential_counterexample :
    BlobReader.writes ⟨[⟨"k", [], []⟩]⟩ "k" [] 0 0 [.data [1, 2], .data [3]] =
      [⟨0, [1, 2], true⟩, ⟨2, [3], true⟩] := by
  decide

/-! ## Immediate and pending store steps -/

theorem dispatch_value {α : Type} (step : StoreStep) (callback : Int → α)
    (h : step.value ≠ net.ERR_IO_PENDING) : dispatch step callback = [callback step.value] := by
  cases step with
  | immediate rv => simp [dispatch, StoreStep.returned, StoreStep.value] at h ⊢; exact h
  | pending rv => simp [dispatch, StoreStep.returned, StoreStep.value]

theorem openEntry_value (b : Backend) (key : String) (o : Outcomes) :
    (openEntry b key o).2 ≠ net.ERR_IO_PENDING := by
  unfold openEntry
  split
  · simp [net.ERR_FAILED, net.ERR_IO_PENDING]
  · split <;> simp [net.OK, net.ERR_FAILED, net.ERR_IO_PENDING]

theorem iteratorSteps_stop (b : Backend) (o : Outcomes)
    (h : ∀ p, o.iterator_error = some p → p.2 < 0) :
    ∃ (es : List Entry) (rv : Int),
      iteratorSteps b o = es.map IteratorStep.entry ++ [IteratorStep.stop rv] ∧ rv < 0 := by
  unfold iteratorSteps
  cases hi : o.iterator_error with
  | none => exact ⟨b.entries, net.ERR_FAILED, rfl, by decide⟩
  | some p =>
    have hp := h p hi
    obtain ⟨step, rv⟩ := p
    simp only
    by_cases hs : step < (b.entries.map IteratorStep.entry ++
        [IteratorStep.stop net.ERR_FAILED]).length
    · rw [if_pos hs]
      refine ⟨b.entries.take step, rv, ?_, hp⟩
      have hle : step ≤ (b.entries.map IteratorStep.entry).length := by
        simp only [List.length_append, List.length_map, List.length_singleton] at hs ⊢
        omega
      rw [List.take_append_of_le_length hle, List.map_take]
    · rw [if_neg hs]
      exact ⟨b.entries, net.ERR_FAILED, rfl, by decide⟩

theorem MatchDidOpenEntry_one (pb : MetadataCodec) (bs : Option BlobStorageContext)
    (request : ServiceWorkerFetchRequest) (entryptr : Option Entry) (rv : Int) (o : Outcomes) :
    ∃ args, (MatchDidOpenEntry pb bs request entryptr rv o).2 = [args] := by
  rcases MatchDidOpenEntry_without_blob_storage pb bs request entryptr rv o with h | ⟨r, h, h1, -⟩
  · -- without a blob storage context the loop is never entered
    have hdead : ∃ args, (MatchDidOpenEntry pb none request entryptr rv o).2 = [args] := by
      unfold MatchDidOpenEntry
      split
      · exact ⟨_, rfl⟩
      · cases entryptr with
        | none => exact ⟨_, rfl⟩
        | some e =>
          simp only
          cases ReadHeaders pb e (o.read_headers.getD 0 none) with
          | none => exact ⟨_, rfl⟩
          | some hd =>
            unfold MatchDidReadHeaderData
            simp only
            split
            · exact ⟨_, rfl⟩
            · split
              · exact ⟨_, rfl⟩
              · exact ⟨_, rfl⟩
    obtain ⟨args, hargs⟩ := hdead
    exact ⟨args, h ▸ hargs⟩
  · exact ⟨_, h1⟩

/-- A Keys whose enumeration errors are negative runs its callback once. -/
theorem KeysDidOpenNextEntry_one (pb : MetadataCodec) (o : Outcomes) (rv : Int) (hrv : rv < 0) :
    ∀ (es : List Entry) (c : ServiceWorkerCache) (entries : List Entry) (step : Nat),
      ∃ run, (KeysDidOpenNextEntry pb o c entries step
        (es.map IteratorStep.entry ++ [IteratorStep.stop rv])).2 = [run]
  | [], c, entries, step => by
    by_cases h1 : rv = net.ERR_FAILED
    · simp [KeysDidOpenNextEntry, h1]
    · simp [KeysDidOpenNextEntry, h1, hrv]
  | e :: rest, c, entries, step => by
    have ih := fun c1 es1 => KeysDidOpenNextEntry_one pb o rv hrv rest c1 es1 (step + 1)
    simp only [List.map_cons, List.cons_append, KeysDidOpenNextEntry, List.append_eq]
    split_ifs <;> first | exact ⟨_, rfl⟩ | exact ih _ _

theorem runDirect_one (pb : MetadataCodec) (c : ServiceWorkerCache) (closure : Closure)
    (h : closure.Completes) : ∃ run, (closure.runDirect pb c).2 = [run] := by
  cases closure with
  | PutImpl request response hdl o =>
    simp only [Closure.runDirect, PutImpl]
    cases c.backend_ <;> exact ⟨_, rfl⟩
  | Match request o =>
    simp only [Closure.runDirect, MatchReady]
    cases c.backend_ with
    | none => exact ⟨_, rfl⟩
    | some b =>
      obtain ⟨args, hargs⟩ := MatchDidOpenEntry_one pb c.blob_storage_context_ request
        (openEntry b request.url o).1 (openEntry b request.url o).2 o
      exact ⟨.response args, by simp only [hargs, List.map_cons, List.map_nil]⟩
  | Delete request o =>
    simp only [Closure.runDirect, DeleteReady]
    cases c.backend_ <;> exact ⟨_, rfl⟩
  | Keys o =>
    simp only [Closure.runDirect, KeysReady]
    cases hb : c.backend_ with
    | none => exact ⟨_, rfl⟩
    | some b =>
      simp only
      obtain ⟨es, rv, hform, hrv⟩ := iteratorSteps_stop b o h
      rw [hform]
      exact KeysDidOpenNextEntry_one pb o rv hrv es c [] 0

theorem Init_creation_modes (pb : MetadataCodec) (c : ServiceWorkerCache) (closure : Closure)
    (hqueue : c.init_callbacks_ = []) :
    (Init pb c closure .pending).2 = [] ∧
      (∀ backend, CreateBackendDidCreate pb (Init pb c closure .pending).1 (some backend) net.OK =
        Init pb c closure (.created backend)) ∧
      ∀ rv, CreateBackendDidCreate pb (Init pb c closure .pending).1 none rv =
        Init pb c closure (.failed rv) := by
  have hlen : ¬ (c.init_callbacks_ ++ [closure]).length > 1 := by simp [hqueue]
  unfold Init
  simp only [if_neg hlen, CreateBackend]
  exact ⟨trivial, fun _ => trivial, fun _ => trivial⟩

/-! ## Quota and the entries that Keys dooms -/

theorem storedBytes_nonneg (e : Entry) : 0 ≤ e.storedBytes := by
  unfold Entry.storedBytes Entry.GetDataSize
  omega

theorem storedBytes_filter (p : Entry → Bool) :
    ∀ (l : List Entry),
      ((l.filter p).map Entry.storedBytes).sum ≤ (l.map Entry.storedBytes).sum ∧
        ∀ e ∈ l, p e = false →
          ((l.filter p).map Entry.storedBytes).sum + e.storedBytes ≤
            (l.map Entry.storedBytes).sum
  | [] => by simp
  | x :: rest => by
    obtain ⟨ih1, ih2⟩ := storedBytes_filter p rest
    have hx := storedBytes_nonneg x
    cases hp : p x with
    | true =>
      rw [List.filter_cons_of_pos hp]
      simp only [List.map_cons, List.sum_cons]
      refine ⟨by omega, ?_⟩
      intro e he hpe
      rcases List.mem_cons.1 he with h | h
      · rw [h, hp] at hpe
        cases hpe
      · have := ih2 e h hpe
        omega
    | false =>
      rw [List.filter_cons_of_neg (by rw [hp]; simp)]
      simp only [List.map_cons, List.sum_cons]
      refine ⟨by omega, ?_⟩
      intro e he hpe
      rcases List.mem_cons.1 he with h | h
      · rw [h]
        omega
      · have := ih2 e h hpe
        omega

/-- C27 fails at Keys: on a ready cache whose quota proxy has been notified
of exactly the bytes in the store, a Keys that cannot read or decode the
metadata of an entry that holds bytes dooms the entry and notifies nothing:
afterwards the store holds fewer bytes than the proxy was notified of. -/
theorem keys_doom_skips_quota (pb : MetadataCodec) (c : ServiceWorkerCache) (b : Backend)
    (q : QuotaManagerProxy) (o : Outcomes) (i : Nat) (e : Entry)
    (hinit : c.initialized_ = true) (hb : c.backend_ = some b)
    (hq : c.quota_manager_proxy_ = some q) (hiter : o.iterator_error = none)
    (hclose : o.close_at = none) (hconserved : q.total = b.storedBytes)
    (he : b.entries[i]? = some e)
    (hfail : ReadHeaders pb e (o.read_headers.getD i none) = none) (hbytes : 0 < e.storedBytes) :
    (Keys pb c o).1.quota_manager_proxy_ = some q ∧
      ∃ b', (Keys pb c o).1.backend_ = some b' ∧ b'.OpenEntry e.key = none ∧
        b'.storedBytes < q.total := by
  have hk : Keys pb c o = KeysDidOpenNextEntry pb o c [] 0 (iteratorSteps b o) := by
    simp [Keys, hinit, KeysReady, hb]
  obtain ⟨es, rv, hform, -, hall⟩ := iteratorSteps_form b o
  obtain ⟨hes, hrv⟩ := hall hiter
  have hdoomed : e.key ∈ keysDoomed pb o 0 b.entries :=
    keysDoomed_of_fails pb o b.entries 0 i e he (by rw [Nat.zero_add]; exact hfail)
  have hmem : e ∈ b.entries := by
    obtain ⟨h, heq⟩ := List.getElem?_eq_some.1 he
    rw [← heq]
    exact List.getElem_mem h
  rw [hk, hform, KeysDidOpenNextEntry_eq pb o c rv hclose (by rw [hb]; rfl) es [] 0, if_pos hrv,
    KeysProcessNextEntry_eq, hes, List.nil_append, hb]
  refine ⟨hq, _, rfl, ?_, ?_⟩
  · unfold Backend.OpenEntry
    rw [List.find?_eq_none]
    intro x hx
    have := (List.mem_filter.1 hx).2
    simp only [decide_eq_true_eq] at this ⊢
    intro hxk
    exact this (hxk ▸ hdoomed)
  · have h2 := (storedBytes_filter
      (fun x => decide (x.key ∉ keysDoomed pb o 0 b.entries)) b.entries).2 e hmem
      (by simpa using hdoomed)
    rw [hconserved]
    unfold Backend.storedBytes
    simp only
    omega

/-- An instance of the failure of C27: after the Put of "hello" the proxy
has been notified of the bytes of the entry; a Keys whose read of the
metadata fails leaves the proxy as it is and the store without the entry. -/
theorem keys_doom_skips_quota_witness :
    (Keys (sample.codec 1000) sample.stored { read_headers := [some (-2)] }).1.quota_manager_proxy_ =
        sample.stored.quota_manager_proxy_ ∧
      (Keys (sample.codec 1000) sample.stored { read_headers := [some (-2)] }).1.backend_ =
        some ⟨[]⟩ :=
  match keys_doom_skips_quota (sample.codec 1000) sample.stored ⟨[sample.storedEntry]⟩
      ⟨[("https://x/", 17)]⟩ { read_headers := [some (-2)] } 0 sample.storedEntry
      (by decide) (by decide) (by decide) rfl rfl (by decide) rfl (by decide) (by decide) with
  | ⟨h, _⟩ => ⟨h.trans (by decide), by decide⟩

/-! ## The blob storage context in PutImpl -/

/-- The closure that a Put binds carries a handle exactly when the response
has a body reference, and a handle that the blob storage context of the
cache has resolved. -/
theorem Put_closure_handle (blob_storage : Option BlobStorageContext)
    (request request' : ServiceWorkerFetchRequest) (response response' : ServiceWorkerResponse)
    (o o' : Outcomes) (hdl : Option BlobDataHandle)
    (h : (Event.Put request response o).closure blob_storage =
      some (.PutImpl request' response' hdl o')) :
    response' = response ∧ (response.blob_uuid ≠ "" → hdl.isSome = true) ∧
      (hdl.isSome = true → blob_storage.isSome = true) := by
  simp only [Event.closure] at h
  by_cases hu : response.blob_uuid = ""
  · simp only [hu, ne_eq, not_true_eq_false, if_false, Option.some.injEq,
      Closure.PutImpl.injEq] at h
    obtain ⟨-, h2, h3, -⟩ := h
    subst h2 h3
    exact ⟨rfl, fun hne => absurd hu hne, fun hs => by cases hs⟩
  · simp only [hu, ne_eq, not_false_eq_true, if_true] at h
    cases blob_storage with
    | none => cases h
    | some ctx =>
      simp only at h
      cases hget : ctx.GetBlobDataFromUUID response.blob_uuid with
      | none =>
        rw [hget] at h
        cases h
      | some bh =>
        rw [hget] at h
        simp only [Option.some.injEq, Closure.PutImpl.injEq] at h
        obtain ⟨-, h2, h3, -⟩ := h
        subst h2 h3
        exact ⟨rfl, fun _ => rfl, fun _ => rfl⟩

/-- C30 fails on the queued path: a Put whose body reference resolves, on a
cache that is not initialized, queues `PutImpl` with the handle and runs no
callback; when the blob storage context is torn down before the backend
creation completes with a backend, the replay of the queue runs `PutImpl`,
which asks the blob storage context for the second handle although it is
gone.  On the direct path, and for the handle of the body, the claim holds:
a Put on an initialized cache runs `PutImpl` with a handle only while the
blob storage context is alive, and every `PutImpl` that a Put binds has a
handle when the response has a body reference. -/
theorem put_impl_uses_torn_down_blob_store (pb : MetadataCodec) (c : ServiceWorkerCache)
    (request : ServiceWorkerFetchRequest) (response : ServiceWorkerResponse) (o : Outcomes)
    (backend : Backend) (ctx : BlobStorageContext) (bh : BlobDataHandle)
    (hinit : c.initialized_ = false) (hqueue : c.init_callbacks_ = [])
    (hu : response.blob_uuid ≠ "") (hctx : c.blob_storage_context_ = some ctx)
    (hget : ctx.GetBlobDataFromUUID response.blob_uuid = some bh)
    (hpending : o.create_backend = .pending) :
    ((Put pb c request response o).1.init_callbacks_ = [.PutImpl request response (some bh) o] ∧
        (Put pb c request response o).2 = []) ∧
      CreateBackendDidCreate pb
          { (Put pb c request response o).1 with blob_storage_context_ := none }
          (some backend) net.OK =
        ({ (replayInOrder pb
              { (Put pb c request response o).1 with
                blob_storage_context_ := none
                backend_ := some backend
                initialized_ := true }
              [.PutImpl request response (some bh) o]).1 with init_callbacks_ := [] },
          (replayInOrder pb
              { (Put pb c request response o).1 with
                blob_storage_context_ := none
                backend_ := some backend
                initialized_ := true }
              [.PutImpl request response (some bh) o]).2) ∧
      replayUsesTornDownBlobStorage pb
          { (Put pb c request response o).1 with
            blob_storage_context_ := none
            backend_ := some backend
            initialized_ := true }
          [.PutImpl request response (some bh) o] = true ∧
      (∀ (d : ServiceWorkerCache) (request' : ServiceWorkerFetchRequest)
          (response' : ServiceWorkerResponse) (o' : Outcomes) (closure : Closure),
        (Event.Put request' response' o').closure d.blob_storage_context_ = some closure →
        replayUsesTornDownBlobStorage pb d [closure] = false) ∧
      ∀ (bs : Option BlobStorageContext) (request' request'' : ServiceWorkerFetchRequest)
          (response' response'' : ServiceWorkerResponse) (o' o'' : Outcomes)
          (hdl : Option BlobDataHandle),
        (Event.Put request' response' o').closure bs =
          some (.PutImpl request'' response'' hdl o'') →
        response''.blob_uuid ≠ "" → hdl.isSome = true := by
  have hcl : (Event.Put request response o).closure c.blob_storage_context_ =
      some (.PutImpl request response (some bh) o) := by
    simp [Event.closure, hu, hctx, hget]
  have hput : Put pb c request response o =
      Init pb c (.PutImpl request response (some bh) o) .pending := by
    rw [Put_eq_closure, hcl]
    simp [hinit, hpending]
  obtain ⟨h1, -, -, -, h5⟩ := Init_pending pb c (.PutImpl request response (some bh) o)
  rw [hqueue, List.nil_append] at h1
  refine ⟨⟨by rw [hput]; exact h1, by rw [hput]; exact h5⟩, ?_, ?_, ?_, ?_⟩
  · have hq : ({ (Put pb c request response o).1 with
        blob_storage_context_ := none } : ServiceWorkerCache).init_callbacks_ =
        [.PutImpl request response (some bh) o] := by
      rw [hput]
      exact h1
    have := CreateBackendDidCreate_eq_replay pb
      { (Put pb c request response o).1 with blob_storage_context_ := none }
      (some backend) net.OK _ hq
    simpa using this
  · simp [replayUsesTornDownBlobStorage, usesTornDownBlobStorage]
  · intro d request' response' o' closure hclosure
    cases closure with
    | PutImpl r p hdl oo =>
      have h3 := (Put_closure_handle d.blob_storage_context_ request' r response' p o' oo hdl
        hclosure).2.2
      simp only [replayUsesTornDownBlobStorage, usesTornDownBlobStorage, Bool.or_false,
        Bool.and_eq_false_imp, Bool.and_eq_true]
      intro hh
      have := h3 hh.2
      cases hd : d.blob_storage_context_ with
      | none => rw [hd] at this; cases this
      | some _ => rfl
    | Match r oo => simp [replayUsesTornDownBlobStorage]
    | Delete r oo => simp [replayUsesTornDownBlobStorage]
    | Keys oo => simp [replayUsesTornDownBlobStorage]
  · intro bs request' request'' response' response'' o' o'' hdl hclosure hne
    obtain ⟨h1', h2', -⟩ :=
      Put_closure_handle bs request' request'' response' response'' o' o'' hdl hclosure
    exact h2' (h1' ▸ hne)

/-- An instance of the failure of C30: the Put of "hello" is queued on a new
cache, the blob storage context is torn down, and the replay of the queue
after the creation of the backend asks it for the second handle. -/
theorem put_impl_uses_torn_down_blob_store_witness :
    replayUsesTornDownBlobStorage (sample.codec 1000)
        { (Put (sample.codec 1000)
            (ServiceWorkerCache.new "https://x/" true none
              (some ⟨[⟨"blob-1", [104, 101, 108, 108, 111]⟩]⟩))
            (sample.request []) (sample.response [] "blob-1") {}).1 with
          blob_storage_context_ := none
          backend_ := some ⟨[]⟩
          initialized_ := true }
        [.PutImpl (sample.request []) (sample.response [] "blob-1")
          (some ⟨"blob-1", [104, 101, 108, 108, 111]⟩) {}] = true :=
  (put_impl_uses_torn_down_blob_store (sample.codec 1000)
    (ServiceWorkerCache.new "https://x/" true none
      (some ⟨[⟨"blob-1", [104, 101, 108, 108, 111]⟩]⟩))
    (sample.request []) (sample.response [] "blob-1") {} ⟨[]⟩
    ⟨[⟨"blob-1", [104, 101, 108, 108, 111]⟩]⟩ ⟨"blob-1", [104, 101, 108, 108, 111]⟩
    rfl rfl (by decide) rfl (by decide) rfl).2.2.1

/-! ## Puts that fail after their entry was created -/

theorem filter_key_map (f : Entry → Entry) (key : String) (hkey : ∀ e, (f e).key = e.key)
    (hother : ∀ e, e.key ≠ key → f e = e) :
    ∀ l : List Entry,
      (l.map f).filter (fun e => decide (e.key ≠ key)) =
        l.filter (fun e => decide (e.key ≠ key))
  | [] => rfl
  | x :: rest => by
    have ih := filter_key_map f key hkey hother rest
    rw [List.map_cons, List.filter_cons, List.filter_cons, ih]
    simp only [hkey x]
    by_cases hx : x.key = key
    · simp [hx]
    · simp [hx, hother x hx]

/-- A write to the entry under a key changes no entry under another key. -/
theorem WriteData_Doom (b : Backend) (key : String) (index : EntryIndex) (offset : Nat)
    (buf : Bytes) (truncate : Bool) (forced : Option Int) :
    (b.WriteData key index offset buf truncate forced).1.Doom key = b.Doom key := by
  have hset : ∀ (e : Entry) (bytes : Bytes), (e.setStream index bytes).key = e.key := by
    intro e bytes
    cases index <;> rfl
  unfold Backend.WriteData Backend.Doom
  cases forced with
  | none =>
    simp only
    congr 1
    exact filter_key_map _ key (fun e => by split <;> simp [hset])
      (fun e he => by simp [he]) b.entries
  | some rv =>
    simp only
    split
    · rfl
    · simp only
      congr 1
      exact filter_key_map _ key (fun e => by split <;> simp [hset])
        (fun e he => by simp [he]) b.entries

theorem ReadFromBlob_Doom (key : String) (wb : List (Option Int)) :
    ∀ (reads : List BlobRead) (backend : Backend) (n off : Nat),
      (BlobReader.ReadFromBlob backend key wb n off reads).1.Doom key = backend.Doom key
  | [], _, _, _ => by simp [BlobReader.ReadFromBlob]
  | .failure :: _, _, _, _ => by simp [BlobReader.ReadFromBlob]
  | .data buffer_ :: rest, backend, n, off => by
    unfold BlobReader.ReadFromBlob
    by_cases hz : buffer_.length = 0
    · rw [if_pos hz]
    · rw [if_neg hz]
      simp only
      split
      · exact WriteData_Doom backend key _ _ _ _ _
      · rw [ReadFromBlob_Doom key wb rest _ _ _]
        exact WriteData_Doom backend key _ _ _ _ _

theorem CreateEntry_Doom (b : Backend) (key : String) :
    (b.CreateEntry key).Doom key = b.Doom key := by
  unfold Backend.CreateEntry Backend.Doom
  simp [List.filter_append, List.filter_filter]

/-- The callback `PutDidWriteHeaders` either runs the Put callback with OK
or dooms the entry, leaving the entries under the other keys, and runs it
with Storage. -/
theorem PutDidWriteHeaders_not_ok (w : Collaborators) (put_context : PutContext)
    (expected_bytes rv : Int) (o : Outcomes)
    (h : (PutDidWriteHeaders w put_context expected_bytes rv o).2.error ≠ .ErrorTypeOK) :
    (PutDidWriteHeaders w put_context expected_bytes rv o).1.backend =
      w.backend.Doom put_context.cache_entry := by
  unfold PutDidWriteHeaders at h ⊢
  split
  · rfl
  · rename_i hrv
    rw [if_neg hrv] at h
    split
    · rename_i hu
      rw [if_pos hu] at h
      exact absurd rfl h
    · rename_i hu
      rw [if_neg hu] at h
      simp only [PutDidWriteBlobToCache] at h ⊢
      split
      · simp only
        exact ReadFromBlob_Doom _ _ _ _ _ _
      · rename_i hs
        rw [if_neg hs] at h
        exact absurd rfl h

/-- A Put past its gate, on a cache with a backend, whose entry the store
creates and whose metadata serializes, either completes OK or leaves the
store with the entries under the other keys only. -/
theorem PutImpl_not_ok_state (pb : MetadataCodec) (c : ServiceWorkerCache) (b : Backend)
    (request : ServiceWorkerFetchRequest) (response : ServiceWorkerResponse)
    (hdl : Option BlobDataHandle) (o : Outcomes) (s : Bytes) (hb : c.backend_ = some b)
    (hce : o.create_entry = none)
    (hs : pb.SerializeToString (putHeaders request response) = some s)
    (h : (PutImpl pb c request response hdl o).2.any CallbackRun.isOK = false) :
    (PutImpl pb c request response hdl o).1.backend_ = some (b.Doom request.url) := by
  simp only [PutImpl, hb, hce, PutDidCreateEntry, net.OK, ne_eq, not_true_eq_false, if_false,
    hs, ServiceWorkerCache.withCollaborators, List.any_cons, List.any_nil, Bool.or_false,
    CallbackRun.isOK, decide_eq_false_iff_not] at h ⊢
  rw [PutDidWriteHeaders_not_ok _ _ _ _ _ h]
  simp only [WriteData_Doom, CreateEntry_Doom]

theorem PutImpl_runs (pb : MetadataCodec) (c : ServiceWorkerCache)
    (request : ServiceWorkerFetchRequest) (response : ServiceWorkerResponse)
    (hdl : Option BlobDataHandle) (o : Outcomes) :
    ∃ args, (PutImpl pb c request response hdl o).2 = [.response args] := by
  unfold PutImpl
  cases c.backend_ <;> exact ⟨_, rfl⟩

theorem Put_closure_eq (blob_storage : Option BlobStorageContext)
    (request : ServiceWorkerFetchRequest) (response : ServiceWorkerResponse) (o : Outcomes)
    (closure : Closure) (h : (Event.Put request response o).closure blob_storage = some closure) :
    ∃ hdl, closure = .PutImpl request response hdl o := by
  simp only [Event.closure] at h
  by_cases hu : response.blob_uuid = ""
  · simp only [hu, ne_eq, not_true_eq_false, if_false, Option.some.injEq] at h
    exact ⟨none, h.symm⟩
  · simp only [hu, ne_eq, not_false_eq_true, if_true] at h
    cases blob_storage with
    | none => cases h
    | some ctx =>
      simp only at h
      cases hget : ctx.GetBlobDataFromUUID response.blob_uuid with
      | none =>
        rw [hget] at h
        cases h
      | some bh =>
        rw [hget] at h
        simp only [Option.some.injEq] at h
        exact ⟨some bh, h.symm⟩

/-! ## Keys after Puts and Deletes with arbitrary outcomes -/

theorem filter_Doom (p : Entry → Bool) (b : Backend) (url : String) :
    (b.Doom url).entries.filter p =
      (b.entries.filter p).filter (fun e => decide (e.key ≠ url)) := by
  unfold Backend.Doom
  simp only [List.filter_filter]
  apply List.filter_congr
  intro x _
  exact Bool.and_comm _ _

theorem StoredAs_decodes (pb : MetadataCodec) (e : Entry) (request : ServiceWorkerFetchRequest)
    (h : StoredAs pb e request) : e.decodes pb = true := by
  obtain ⟨-, -, response, hparse⟩ := h
  simp [Entry.decodes, hparse]

/-- The store after a Doom of the URL holds, entry by entry, what the
committed requests under the other URLs have stored. -/
theorem StoredAs_Doom (pb : MetadataCodec) (b : Backend) (url : String)
    (committed : List ServiceWorkerFetchRequest)
    (hst : List.Forall₂ (StoredAs pb) (b.entries.filter (Entry.decodes pb)) committed) :
    List.Forall₂ (StoredAs pb) ((b.Doom url).entries.filter (Entry.decodes pb))
      (committed.filter (fun r => decide (r.url ≠ url))) := by
  rw [filter_Doom]
  exact StoredAs_filter pb url _ committed hst

/-- Phase 2 of Keys over a store whose decodable entries hold what the
committed requests have stored, when the reads succeed: the output is the
returned key of each committed request. -/
theorem keysOutput_decodable (pb : MetadataCodec) (o : Outcomes) (hread : o.read_headers = []) :
    ∀ (entries : List Entry) (committed : List ServiceWorkerFetchRequest) (index : Nat),
      List.Forall₂ (StoredAs pb) (entries.filter (Entry.decodes pb)) committed →
        keysOutput pb o index entries = committed.map returnedKey
  | [], committed, index, h => by
    cases h
    simp [keysOutput]
  | x :: rest, committed, index, h => by
    have hrd : ReadHeaders pb x (o.read_headers.getD index none) =
        pb.ParseFromArray x.headers_stream := by
      rw [hread]
      simp only [List.getD_nil]
      exact ReadHeaders_succeeds pb x
    cases hx : pb.ParseFromArray x.headers_stream with
    | none =>
      have hdec : (Entry.decodes pb) x = false := by simp [Entry.decodes, hx]
      rw [List.filter_cons_of_neg (by rw [hdec]; simp)] at h
      rw [(keysOutput_cons_none pb o index x rest (hrd.trans hx)).1]
      exact keysOutput_decodable pb o hread rest committed (index + 1) h
    | some hd =>
      have hdec : (Entry.decodes pb) x = true := by simp [Entry.decodes, hx]
      rw [List.filter_cons_of_pos hdec] at h
      cases h with
      | cons hab hrest =>
        obtain ⟨hkey, hwf, response, hparse⟩ := hab
        rw [(keysOutput_cons_some pb o index x rest _ (hrd.trans hparse)).1,
          keysOutput_decodable pb o hread rest _ (index + 1) hrest,
          keyRequest_stored x _ response hkey hwf]
        rfl

/-- One Put or Delete, whatever its store operations complete with, keeps
the cache ready and the decodable entries of its store holding, entry by
entry, what the committed requests have stored. -/
theorem runEvent_committed (pb : MetadataCodec) (c : ServiceWorkerCache) (b : Backend)
    (event : Event) (committed : List ServiceWorkerFetchRequest)
    (hempty : pb.ParseFromArray [] = none)
    (hinit : c.initialized_ = true) (hb : c.backend_ = some b)
    (hst : List.Forall₂ (StoredAs pb) (b.entries.filter (Entry.decodes pb)) committed)
    (hnd : (committed.map (fun r => r.url)).Nodup) (hev : event.IsPutOrDelete pb) :
    (runEvent pb c event).1.initialized_ = true ∧
      ∃ b', (runEvent pb c event).1.backend_ = some b' ∧
        List.Forall₂ (StoredAs pb) (b'.entries.filter (Entry.decodes pb))
          (committedAfterCall c event (runEvent pb c event).2 committed) ∧
        ((committedAfterCall c event (runEvent pb c event).2 committed).map
          (fun r => r.url)).Nodup := by
  cases event with
  | Put request response o =>
    obtain ⟨hrt, hwf⟩ := hev
    simp only [runEvent, Put_eq_closure, hinit, Bool.not_true, Bool.false_eq_true, if_false]
    cases hcl : (Event.Put request response o).closure c.blob_storage_context_ with
    | none =>
      have hcommit : committedAfterCall c (.Put request response o)
          [.response ⟨.ErrorTypeStorage, none, none⟩] committed = committed := by
        simp [committedAfterCall, CallbackRun.isOK, Event.createsEntry, hcl]
      simp only [hcommit]
      exact ⟨hinit, b, hb, hst, hnd⟩
    | some closure =>
      obtain ⟨hdl, hclosure⟩ := Put_closure_eq c.blob_storage_context_ request response o
        closure hcl
      subst hclosure
      simp only [Closure.runDirect]
      have hinit' := (PutImpl_frame pb c request response hdl o).1.trans hinit
      obtain ⟨args, hargs⟩ := PutImpl_runs pb c request response hdl o
      refine ⟨hinit', ?_⟩
      cases hce : o.create_entry with
      | some failure =>
        have hrv := failure.rv_ne_OK
        have hruns : (PutImpl pb c request response hdl o).2 =
            [.response ⟨.ErrorTypeExists, none, none⟩] := by
          simp [PutImpl, hb, hce, PutDidCreateEntry, hrv]
        have hback : (PutImpl pb c request response hdl o).1.backend_ = some b := by
          simp [PutImpl, hb, hce, PutDidCreateEntry, hrv, ServiceWorkerCache.withCollaborators]
        have hcommit : committedAfterCall c (.Put request response o)
            (PutImpl pb c request response hdl o).2 committed = committed := by
          rw [hruns]
          simp [committedAfterCall, CallbackRun.isOK, Event.createsEntry, hce]
        rw [hcommit]
        exact ⟨b, hback, hst, hnd⟩
      | none =>
        have hcreates : (Event.Put request response o).createsEntry c = true := by
          simp [Event.createsEntry, hb, hcl, hce]
        by_cases hok : args.error = .ErrorTypeOK
        · have hok' : (PutImpl pb c request response hdl o).2 =
              [.response ⟨.ErrorTypeOK, args.response, args.blob_data_handle⟩] := by
            rw [hargs, ← hok]
          obtain ⟨s, hs, -, hstate⟩ :=
            PutImpl_ok_state pb c b request response hdl o _ _ hb hok'
          have hcommit : committedAfterCall c (.Put request response o)
              (PutImpl pb c request response hdl o).2 committed =
              committed.filter (fun r => decide (r.url ≠ request.url)) ++ [request] := by
            rw [hok']
            simp [committedAfterCall, CallbackRun.isOK]
          rw [hcommit]
          refine ⟨_, by rw [hstate]; rfl, ?_, nodup_commit request committed hnd⟩
          have hnew : StoredAs pb
              ⟨request.url, s, if response.blob_uuid = "" then [] else blobBytes hdl⟩
              request := ⟨rfl, hwf, response, hrt s hs⟩
          rw [List.filter_append]
          refine List.rel_append (StoredAs_Doom pb b request.url committed hst) ?_
          rw [List.filter_cons_of_pos (StoredAs_decodes pb _ request hnew)]
          exact List.Forall₂.cons hnew List.Forall₂.nil
        · have hnot : (PutImpl pb c request response hdl o).2.any CallbackRun.isOK = false := by
            rw [hargs]
            simp [CallbackRun.isOK, hok]
          have hcommit : committedAfterCall c (.Put request response o)
              (PutImpl pb c request response hdl o).2 committed =
              committed.filter (fun r => decide (r.url ≠ request.url)) := by
            simp only [committedAfterCall, hnot, Bool.false_eq_true, if_false, hcreates,
              if_true]
          rw [hcommit]
          cases hser : pb.SerializeToString (putHeaders request response) with
          | none =>
            rw [PutImpl_serialize_fails pb c b request response hdl o hb hce hser]
            refine ⟨_, rfl, ?_, nodup_filter_urls request.url committed hnd⟩
            have hgarbage : (Entry.decodes pb) ⟨request.url, [], []⟩ = false := by
              simp [Entry.decodes, hempty]
            simp only [Backend.CreateEntry]
            rw [List.filter_append, List.filter_cons_of_neg (by rw [hgarbage]; simp),
              List.filter_nil, List.append_nil]
            exact StoredAs_Doom pb b request.url committed hst
          | some s =>
            exact ⟨_, PutImpl_not_ok_state pb c b request response hdl o s hb hce hser hnot,
              StoredAs_Doom pb b request.url committed hst,
              nodup_filter_urls request.url committed hnd⟩
  | Delete request o =>
    have hdel : runEvent pb c (.Delete request o) = DeleteReady c request o := by
      simp [runEvent, Delete, hinit]
    rw [hdel]
    by_cases hfound : ∃ e, b.OpenEntry request.url = some e ∧ o.open_entry_fails = false
    · obtain ⟨e, he, hopen⟩ := hfound
      rw [DeleteReady_found c b request o e hb he hopen]
      have hcommit : committedAfterCall c (.Delete request o) [.error .ErrorTypeOK] committed =
          committed.filter (fun r => decide (r.url ≠ request.url)) := by
        simp [committedAfterCall, CallbackRun.isOK]
      rw [hcommit]
      exact ⟨hinit, _, rfl, StoredAs_Doom pb b request.url committed hst,
        nodup_filter_urls request.url committed hnd⟩
    · have hnot : b.OpenEntry request.url = none ∨ o.open_entry_fails = true := by
        cases he : b.OpenEntry request.url with
        | none => exact Or.inl rfl
        | some e =>
          cases hopen : o.open_entry_fails with
          | true => exact Or.inr rfl
          | false => exact absurd ⟨e, he, hopen⟩ hfound
      rw [DeleteReady_not_found c b request o hb hnot]
      have hcommit : committedAfterCall c (.Delete request o) [.error .ErrorTypeNotFound]
          committed = committed := by
        simp [committedAfterCall, CallbackRun.isOK]
      rw [hcommit]
      exact ⟨hinit, b, hb, hst, hnd⟩
  | Match request o => exact absurd hev id
  | Keys o => exact absurd hev id
  | BackendCreated backend_ptr rv => exact absurd hev id

theorem runEvents_committed (pb : MetadataCodec) (hempty : pb.ParseFromArray [] = none) :
    ∀ (events : List Event) (c : ServiceWorkerCache) (b : Backend)
      (committed : List ServiceWorkerFetchRequest),
      c.initialized_ = true → c.backend_ = some b →
      List.Forall₂ (StoredAs pb) (b.entries.filter (Entry.decodes pb)) committed →
      (committed.map (fun r => r.url)).Nodup →
      (∀ event ∈ events, event.IsPutOrDelete pb) →
      (runEvents pb c events).1.initialized_ = true ∧
        ∃ b', (runEvents pb c events).1.backend_ = some b' ∧
          List.Forall₂ (StoredAs pb) (b'.entries.filter (Entry.decodes pb))
            (committedAfter pb c events committed) ∧
          ((committedAfter pb c events committed).map (fun r => r.url)).Nodup
  | [], c, b, committed, hinit, hb, hst, hnd, _ => ⟨hinit, b, hb, hst, hnd⟩
  | event :: rest, c, b, committed, hinit, hb, hst, hnd, hev => by
    obtain ⟨hinit', b', hb', hst', hnd'⟩ := runEvent_committed pb c b event committed hempty
      hinit hb hst hnd (hev event (List.mem_cons_self _ _))
    exact runEvents_committed pb hempty rest (runEvent pb c event).1 b' _ hinit' hb' hst' hnd'
      (fun e he => hev e (List.mem_cons_of_mem _ he))

/-- Keys on a ready cache whose decodable entries hold, entry by entry, what
the committed requests have stored, when the enumeration and the reads
succeed: the callback is run once, with OK and the returned key of each
committed request. -/
theorem Keys_stored (pb : MetadataCodec) (c : ServiceWorkerCache) (b : Backend) (o : Outcomes)
    (committed : List ServiceWorkerFetchRequest) (hinit : c.initialized_ = true)
    (hb : c.backend_ = some b)
    (hst : List.Forall₂ (StoredAs pb) (b.entries.filter (Entry.decodes pb)) committed)
    (ho : o.AllSucceed) :
    (Keys pb c o).2 = [.requests .ErrorTypeOK (some (committed.map returnedKey))] := by
  obtain ⟨-, -, -, -, -, hread, -, hiter, hclose⟩ := ho
  have hk : Keys pb c o = KeysDidOpenNextEntry pb o c [] 0 (iteratorSteps b o) := by
    simp [Keys, hinit, KeysReady, hb]
  obtain ⟨es, rv, hform, -, hall⟩ := iteratorSteps_form b o
  obtain ⟨hes, hrv⟩ := hall hiter
  rw [hk, hform, KeysDidOpenNextEntry_eq pb o c rv hclose (by rw [hb]; rfl) es [] 0, if_pos hrv,
    KeysProcessNextEntry_eq, hes, List.nil_append,
    keysOutput_decodable pb o hread b.entries committed 0 hst]
  rfl

/-- C19, as amended: on a ready cache with an empty store, after any sequence
of Deletes and Puts, whatever their store operations complete with (the
codec decodes what it serializes and rejects an empty record), a Keys whose
enumeration and reads succeed runs its callback once, with OK and one
request for each committed request, that is, for each URL that a Put has
completed OK for and for which, since then, no Delete has completed OK and
no Put has failed after the store created its entry: the request has that
URL and the method and headers of the request of the last such Put; no URL
is listed twice. -/
theorem keys_lists_committed_requests (pb : MetadataCodec) (c : ServiceWorkerCache)
    (events : List Event) (o : Outcomes) (hempty : pb.ParseFromArray [] = none)
    (hinit : c.initialized_ = true) (hb : c.backend_ = some ⟨[]⟩)
    (hev : ∀ event ∈ events, event.IsPutOrDelete pb) (ho : o.AllSucceed) :
    (Keys pb (runEvents pb c events).1 o).2 =
        [.requests .ErrorTypeOK (some ((committedAfter pb c events []).map returnedKey))] ∧
      (((committedAfter pb c events []).map returnedKey).map (fun r => r.url)).Nodup ∧
      ∀ r ∈ (committedAfter pb c events []).map returnedKey,
        ∃ request ∈ committedAfter pb c events [],
          r.url = request.url ∧ r.method = request.method ∧ r.headers = request.headers := by
  obtain ⟨hinit', b', hb', hst, hnd⟩ :=
    runEvents_committed pb hempty events c ⟨[]⟩ [] hinit hb List.Forall₂.nil List.nodup_nil hev
  refine ⟨Keys_stored pb _ b' o _ hinit' hb' hst ho, ?_, ?_⟩
  · rw [List.map_map]
    exact hnd
  · intro r hr
    obtain ⟨request, hmem, hreq⟩ := List.mem_map.1 hr
    exact ⟨request, hmem, by rw [← hreq]; exact ⟨rfl, rfl, rfl⟩⟩

/-- An instance of C19 as amended: after the calls of `sample.calls`, of
which the third dooms what the first has stored, Keys returns the one
request for `https://x/b`, with its method and its `Accept` header. -/
theorem keys_lists_committed_requests_witness :
    (Keys (sample.codec 1000) (runEvents (sample.codec 1000) sample.cache sample.calls).1 {}).2 =
      [.requests .ErrorTypeOK (some [⟨"https://x/b", "GET", ⟨[("Accept", "a")]⟩, "", false⟩])] :=
  ((keys_lists_committed_requests (sample.codec 1000) sample.cache sample.calls {} (by decide)
    rfl rfl
    (fun event hmem => by
      simp only [sample.calls, List.mem_cons, List.mem_singleton, List.not_mem_nil,
        or_false] at hmem
      rcases hmem with h | h | h | h | h
      · rw [h]
        exact ⟨sample.roundTripsAt 1000 _ (by decide), by decide⟩
      · rw [h]
        exact ⟨sample.roundTripsAt 1000 _ (by decide), by decide⟩
      · rw [h]
        exact ⟨sample.roundTripsAt 1000 _ (by decide), by decide⟩
      · rw [h]
        exact ⟨sample.roundTripsAt 1000 _ (by decide), by decide⟩
      · rw [h]
        trivial)
    allSucceed_default).1).trans (by decide)

/-- The claim C19 fails after a Put that fails: the Put of "hello" under
`https://x/a` completes OK, a second Put under the same URL fails in the
first write of its body, and no Delete is made; the URL was Put successfully
and not Deleted, and Keys completes OK with an empty list. -/
theorem keys_lists_committed_requests_counterexample :
    (runEvents (sample.codec 1000) sample.cache sample.callsFailing).2.map CallbackRun.isOK =
        [true, false] ∧
      (putAndNotDeleted (sample.codec 1000) sample.cache sample.callsFailing []).map
          (fun r => r.url) = ["https://x/a"] ∧
      (Keys (sample.codec 1000)
          (runEvents (sample.codec 1000) sample.cache sample.callsFailing).1 {}).2 =
        [.requests .ErrorTypeOK (some [])] := by
  decide

/-! ## The replay with pending store steps -/

theorem startClosure_eq (pb : MetadataCodec) (c : ServiceWorkerCache) (closure : Closure)
    (mode : Option Backend) (hinit : c.initialized_ = true) :
    startClosure pb c closure mode =
      match mode, c.backend_ with
      | some left, some _ => ({ c with backend_ := some left }, [], [closure])
      | _, _ => ((closure.runDirect pb c).1, (closure.runDirect pb c).2, []) := by
  unfold startClosure
  rw [runClosure_eq_runDirect pb c closure hinit]
  cases mode with
  | none => rfl
  | some left =>
    cases hb : c.backend_ with
    | none => cases closure <;> simp [hinit]
    | some b => cases closure <;> simp [hinit]

/-- The loop of `InitDone`, on a cache whose `initialized_` is set, starts
every closure directly, once and in order: no closure is queued again. -/
theorem startClosures_eq_startInOrder (pb : MetadataCodec) :
    ∀ (queue : List Closure) (c : ServiceWorkerCache) (modes : List (Option Backend)),
      c.initialized_ = true → startClosures pb c queue modes = startInOrder pb c queue modes
  | [], _, _, _ => rfl
  | closure :: rest, c, modes, hinit => by
    simp only [startClosures, startInOrder, startClosure_eq pb c closure _ hinit]
    cases hm : modes.headD none with
    | none =>
      simp only
      rw [startClosures_eq_startInOrder pb rest (closure.runDirect pb c).1 modes.tail
        ((runDirect_frame pb c closure).1.trans hinit)]
      simp
    | some left =>
      cases hb : c.backend_ with
      | none =>
        simp only
        rw [startClosures_eq_startInOrder pb rest (closure.runDirect pb c).1 modes.tail
          ((runDirect_frame pb c closure).1.trans hinit)]
        simp
      | some b =>
        simp only
        rw [startClosures_eq_startInOrder pb rest { c with backend_ := some left } modes.tail
          hinit]
        simp

theorem startInOrder_immediate (pb : MetadataCodec) :
    ∀ (queue : List Closure) (c : ServiceWorkerCache),
      startInOrder pb c queue [] = ((replayInOrder pb c queue).1, (replayInOrder pb c queue).2, [])
  | [], _ => rfl
  | closure :: rest, c => by
    simp [startInOrder, replayInOrder, startInOrder_immediate pb rest]

theorem startInOrder_frame (pb : MetadataCodec) :
    ∀ (queue : List Closure) (c : ServiceWorkerCache) (modes : List (Option Backend)),
      (startInOrder pb c queue modes).1.initialized_ = c.initialized_ ∧
        (startInOrder pb c queue modes).1.init_callbacks_ = c.init_callbacks_ ∧
        (startInOrder pb c queue modes).1.create_backend_calls = c.create_backend_calls
  | [], _, _ => ⟨rfl, rfl, rfl⟩
  | closure :: rest, c, modes => by
    unfold startInOrder
    split
    · exact startInOrder_frame pb rest _ modes.tail
    · obtain ⟨h1, h2, h3⟩ := runDirect_frame pb c closure
      obtain ⟨g1, g2, g3⟩ := startInOrder_frame pb rest (closure.runDirect pb c).1 modes.tail
      exact ⟨g1.trans h1, g2.trans h2, g3.trans h3⟩

/-- Every operation of the queue is started once: after the replay it is in
flight or it has run its result callback, once; the operations in flight
are in the order of the queue. -/
theorem startInOrder_once (pb : MetadataCodec) :
    ∀ (queue : List Closure) (c : ServiceWorkerCache) (modes : List (Option Backend)),
      (∀ closure ∈ queue, closure.Completes) →
      (startInOrder pb c queue modes).2.1.length + (startInOrder pb c queue modes).2.2.length =
          queue.length ∧
        List.Sublist (startInOrder pb c queue modes).2.2 queue
  | [], _, _, _ => ⟨rfl, List.Sublist.slnil⟩
  | closure :: rest, c, modes, h => by
    have hrest : ∀ x ∈ rest, x.Completes := fun x hx => h x (List.mem_cons_of_mem _ hx)
    unfold startInOrder
    split
    · obtain ⟨h1, h2⟩ := startInOrder_once pb rest _ modes.tail hrest
      refine ⟨?_, h2.cons₂ closure⟩
      simp only [List.length_cons]
      omega
    · obtain ⟨h1, h2⟩ := startInOrder_once pb rest (closure.runDirect pb c).1 modes.tail hrest
      obtain ⟨run, hrun⟩ := runDirect_one pb c closure (h closure (List.mem_cons_self _ _))
      have hone : (closure.runDirect pb c).2.length = 1 := by rw [hrun]; rfl
      refine ⟨?_, h2.cons closure⟩
      simp only [List.length_append, List.length_cons]
      omega

theorem CreateBackendDidCreateStarting_eq (pb : MetadataCodec) (q : ServiceWorkerCache)
    (backend_ptr : Option Backend) (rv : Int) (modes : List (Option Backend))
    (queue : List Closure) (hq : q.init_callbacks_ = queue) :
    CreateBackendDidCreateStarting pb q backend_ptr rv modes =
      ({ (startInOrder pb (q.readied backend_ptr rv) queue modes).1 with init_callbacks_ := [] },
        (startInOrder pb (q.readied backend_ptr rv) queue modes).2.1,
        (startInOrder pb (q.readied backend_ptr rv) queue modes).2.2) := by
  subst hq
  unfold CreateBackendDidCreateStarting ServiceWorkerCache.readied InitDoneStarting
  by_cases h : rv ≠ net.OK
  · simp only [if_pos h]
    rw [startClosures_eq_startInOrder pb _ _ modes rfl]
  · simp only [if_neg h]
    rw [startClosures_eq_startInOrder pb _ _ modes rfl]

/-- C21: on a cache that is not initialized and whose queue is empty, the
calls made while the backend creation is pending are queued in the order of
submission and run no callback (but for a Put whose body reference does not
resolve, which is not queued).  When the creation completes, `InitDone`
starts every queued operation directly, once, in that order, on the cache
with `initialized_` set, whichever of them return at a pending store step
and whatever the steps made until then have done to the store, and empties
the queue: an operation is left in flight at a pending step or has run its
result callback, once, and the operations in flight are in the order of the
queue; when no step is pending this is the replay of the operations one
after the other.  Afterwards the queue is still empty and the cache
initialized after any later events, and neither the run of an operation nor
what the callbacks of an operation in flight do to the cache, the new state
of the collaborators for a Put, a Match or a Delete and the enumeration
callback of a Keys, changes `initialized_` or the queue; and every later
call bypasses the queue and runs its operation directly. -/
theorem fifo_replay (pb : MetadataCodec) (c : ServiceWorkerCache) (calls later : List Event)
    (backend_ptr : Option Backend) (rv : Int) (modes : List (Option Backend))
    (hinit : c.initialized_ = false) (hqueue : c.init_callbacks_ = [])
    (hcalls : ∀ event ∈ calls, event.QueuesBehindCreation) :
    (runEvents pb c calls).1.init_callbacks_ =
        calls.filterMap (Event.closure c.blob_storage_context_) ∧
      (runEvents pb c calls).1.initialized_ = false ∧
      (runEvents pb c calls).2 = runsWhileQueued c.blob_storage_context_ calls ∧
      CreateBackendDidCreateStarting pb (runEvents pb c calls).1 backend_ptr rv modes =
        ({ (startInOrder pb ((runEvents pb c calls).1.readied backend_ptr rv)
              (calls.filterMap (Event.closure c.blob_storage_context_)) modes).1 with
            init_callbacks_ := [] },
          (startInOrder pb ((runEvents pb c calls).1.readied backend_ptr rv)
              (calls.filterMap (Event.closure c.blob_storage_context_)) modes).2.1,
          (startInOrder pb ((runEvents pb c calls).1.readied backend_ptr rv)
              (calls.filterMap (Event.closure c.blob_storage_context_)) modes).2.2) ∧
      ((∀ closure ∈ calls.filterMap (Event.closure c.blob_storage_context_),
          closure.Completes) →
        (CreateBackendDidCreateStarting pb (runEvents pb c calls).1 backend_ptr rv modes).2.1.length +
            (CreateBackendDidCreateStarting pb (runEvents pb c calls).1 backend_ptr rv
              modes).2.2.length =
          (calls.filterMap (Event.closure c.blob_storage_context_)).length ∧
        List.Sublist
          (CreateBackendDidCreateStarting pb (runEvents pb c calls).1 backend_ptr rv modes).2.2
          (calls.filterMap (Event.closure c.blob_storage_context_))) ∧
      CreateBackendDidCreateStarting pb (runEvents pb c calls).1 backend_ptr rv [] =
        ((CreateBackendDidCreate pb (runEvents pb c calls).1 backend_ptr rv).1,
          (replayInOrder pb ((runEvents pb c calls).1.readied backend_ptr rv)
            (calls.filterMap (Event.closure c.blob_storage_context_))).2, []) ∧
      ((runEvents pb
            (CreateBackendDidCreateStarting pb (runEvents pb c calls).1 backend_ptr rv modes).1
            later).1.init_callbacks_ = [] ∧
        (runEvents pb
            (CreateBackendDidCreateStarting pb (runEvents pb c calls).1 backend_ptr rv modes).1
            later).1.initialized_ = true) ∧
      (∀ (d : ServiceWorkerCache) (closure : Closure), d.initialized_ = true →
        d.init_callbacks_ = [] →
        (closure.runDirect pb d).1.initialized_ = true ∧
          (closure.runDirect pb d).1.init_callbacks_ = []) ∧
      (∀ (d : ServiceWorkerCache) (w : Collaborators),
        (d.withCollaborators w).initialized_ = d.initialized_ ∧
          (d.withCollaborators w).init_callbacks_ = d.init_callbacks_) ∧
      (∀ (d : ServiceWorkerCache) (o : Outcomes) (entries : List Entry) (step : Nat)
          (steps : List IteratorStep),
        (KeysDidOpenNextEntry pb o d entries step steps).1.initialized_ = d.initialized_ ∧
          (KeysDidOpenNextEntry pb o d entries step steps).1.init_callbacks_ =
            d.init_callbacks_) ∧
      ∀ (d : ServiceWorkerCache) (event : Event) (closure : Closure), d.initialized_ = true →
        event.closure d.blob_storage_context_ = some closure →
        runEvent pb d event = closure.runDirect pb d := by
  obtain ⟨h1, h2, -, h4⟩ := runEvents_queues pb calls c hinit hcalls
  rw [hqueue, List.nil_append] at h1
  have heq := CreateBackendDidCreateStarting_eq pb (runEvents pb c calls).1 backend_ptr rv modes
    _ h1
  have heq0 := CreateBackendDidCreateStarting_eq pb (runEvents pb c calls).1 backend_ptr rv []
    _ h1
  have hsync := CreateBackendDidCreate_eq_replay pb (runEvents pb c calls).1 backend_ptr rv _ h1
  obtain ⟨f1, f2, -⟩ := startInOrder_frame pb
    (calls.filterMap (Event.closure c.blob_storage_context_))
    ((runEvents pb c calls).1.readied backend_ptr rv) modes
  have g1 : (CreateBackendDidCreateStarting pb (runEvents pb c calls).1 backend_ptr rv
      modes).1.initialized_ = true := by
    rw [heq]
    exact f1
  have g2 : (CreateBackendDidCreateStarting pb (runEvents pb c calls).1 backend_ptr rv
      modes).1.init_callbacks_ = [] := by
    rw [heq]
  obtain ⟨e1, e2, -⟩ := runEvents_initialized_frame pb later
    (CreateBackendDidCreateStarting pb (runEvents pb c calls).1 backend_ptr rv modes).1 g1
  refine ⟨h1, h2, h4, heq, ?_, ?_, ⟨e2.trans g2, e1⟩, ?_, fun _ _ => ⟨rfl, rfl⟩,
    fun d o entries step steps =>
      ⟨(KeysDidOpenNextEntry_frame pb o steps d entries step).1,
        (KeysDidOpenNextEntry_frame pb o steps d entries step).2.1⟩,
    runEvent_bypass pb⟩
  · intro hcomp
    rw [heq]
    exact startInOrder_once pb _ _ modes hcomp
  · rw [heq0, startInOrder_immediate, hsync]
    rfl
  · intro d closure hd hq
    obtain ⟨k1, k2, -⟩ := runDirect_frame pb d closure
    exact ⟨k1.trans hd, k2.trans hq⟩

/-- An instance of C21: a Match, a Put of "hello" and a Keys are queued
behind a pending creation.  The creation completes with an empty backend;
the open of the Match is pending (the store still empty), the Put returns
when it has started the blob request (its entry created and its metadata
written), and the steps of the Keys return at once: the Match and the Put
are left in flight, in this order, and the Keys lists the request of the
Put. -/
theorem fifo_replay_witness :
    (CreateBackendDidCreateStarting (sample.codec 1000) sample.queued (some ⟨[]⟩) net.OK
        [some ⟨[]⟩,
          some ⟨[⟨"https://x/a",
            sample.encode (putHeaders (sample.request []) (sample.response [] "blob-1")), []⟩]⟩,
          none]).2 =
      ([.requests .ErrorTypeOK (some [sample.request []])],
        [.Match (sample.request []) {},
          .PutImpl (sample.request []) (sample.response [] "blob-1")
            (some ⟨"blob-1", [104, 101, 108, 108, 111]⟩) {}]) :=
  (congrArg Prod.snd
    (fifo_replay (sample.codec 1000)
      (ServiceWorkerCache.new "https://x/" true (some ⟨[]⟩)
        (some ⟨[⟨"blob-1", [104, 101, 108, 108, 111]⟩]⟩))
      [.Match (sample.request []) {},
        .Put (sample.request []) (sample.response [] "blob-1") {},
        .Keys {}] [] (some ⟨[]⟩) net.OK
      [some ⟨[]⟩,
        some ⟨[⟨"https://x/a",
          sample.encode (putHeaders (sample.request []) (sample.response [] "blob-1")), []⟩]⟩,
        none] rfl rfl
      (fun event hmem => by
        simp only [List.mem_cons, List.mem_singleton, List.not_mem_nil, or_false] at hmem
        rcases hmem with h | h | h <;> (rw [h]; exact rfl))).2.2.2.1).trans (by decide)

/-! ## The operations step by step and at once -/

theorem dispatch_ofMode {α : Type} (pending : Bool) (rv : Int) (callback : Int → List α)
    (h : rv ≠ net.ERR_IO_PENDING) :
    (dispatch (StoreStep.ofMode pending rv) callback).flatten = callback rv := by
  have hv : (StoreStep.ofMode pending rv).value = rv := by
    cases pending <;> rfl
  rw [dispatch_value _ _ (by rw [hv]; exact h), hv]
  simp

theorem dispatch_ofMode_one {α : Type} (pending : Bool) (rv : Int) (callback : Int → α)
    (h : rv ≠ net.ERR_IO_PENDING) :
    dispatch (StoreStep.ofMode pending rv) callback = [callback rv] := by
  have hv : (StoreStep.ofMode pending rv).value = rv := by
    cases pending <;> rfl
  rw [dispatch_value _ _ (by rw [hv]; exact h), hv]

theorem getD_ne_pending :
    ∀ (l : List (Option Int)) (i : Nat), (∀ v ∈ l, v ≠ some net.ERR_IO_PENDING) →
      l.getD i none ≠ some net.ERR_IO_PENDING
  | [], _, _ => by simp
  | v :: rest, 0, h => by
    simpa using h v (List.mem_cons_self _ _)
  | v :: rest, i + 1, h => by
    simpa using getD_ne_pending rest i (fun x hx => h x (List.mem_cons_of_mem _ hx))

theorem WriteData_value (b : Backend) (key : String) (index : EntryIndex) (offset : Nat)
    (buf : Bytes) (truncate : Bool) (forced : Option Int)
    (h : forced ≠ some net.ERR_IO_PENDING) :
    (b.WriteData key index offset buf truncate forced).2 ≠ net.ERR_IO_PENDING := by
  unfold Backend.WriteData
  cases forced with
  | none =>
    simp only [net.ERR_IO_PENDING]
    omega
  | some rv =>
    have hrv : rv ≠ net.ERR_IO_PENDING := fun e => h (by rw [e])
    simp only
    split <;> exact hrv

theorem readBody_value (entry : Entry) (o : Outcomes) (read_number : Nat) (offset : Int)
    (h : ∀ v ∈ o.read_body, v ≠ some net.ERR_IO_PENDING) :
    (readBody entry o read_number offset).2 ≠ net.ERR_IO_PENDING := by
  have hg := getD_ne_pending o.read_body read_number h
  unfold readBody
  cases hv : o.read_body.getD read_number none with
  | none =>
    simp only [net.ERR_IO_PENDING]
    omega
  | some rv =>
    simp only
    exact fun e => hg (by rw [hv, e])

theorem ReadHeadersSteps_eq {α : Type} (pb : MetadataCodec) (entry : Entry)
    (forced : Option Int) (pending : Bool)
    (callback : Option ServiceWorkerRequestResponseHeaders → List α)
    (h : forced ≠ some net.ERR_IO_PENDING) :
    ReadHeadersSteps pb entry forced pending callback = callback (ReadHeaders pb entry forced) := by
  have hv : forced.getD
      (((entry.ReadData .INDEX_HEADERS 0 (entry.GetDataSize .INDEX_HEADERS).toNat).length : Nat) :
        Int) ≠ net.ERR_IO_PENDING := by
    cases forced with
    | none =>
      simp only [Option.getD_none, net.ERR_IO_PENDING]
      omega
    | some rv =>
      simp only [Option.getD_some]
      exact fun e => h (by rw [e])
  unfold ReadHeadersSteps ReadHeaders
  simp only
  rw [dispatch_ofMode _ _ _ hv]
  split <;> rfl

theorem ReadFromBlobSteps_eq {α : Type} (callback_ : Backend → Bool → List α) (entry_ : String)
    (write_body : List (Option Int)) (h : ∀ v ∈ write_body, v ≠ some net.ERR_IO_PENDING) :
    ∀ (reads : List BlobRead) (backend : Backend) (write_number offset : Nat)
      (modes : List Bool),
      BlobReader.ReadFromBlobSteps callback_ entry_ write_body backend write_number offset reads
          modes =
        callback_ (BlobReader.ReadFromBlob backend entry_ write_body write_number offset reads).1
          (BlobReader.ReadFromBlob backend entry_ write_body write_number offset reads).2
  | [], _, _, _, _ => rfl
  | .failure :: _, _, _, _, _ => rfl
  | .data buffer_ :: rest, backend, write_number, offset, modes => by
    unfold BlobReader.ReadFromBlobSteps BlobReader.ReadFromBlob
    by_cases hz : buffer_.length = 0
    · simp only [if_pos hz]
    · simp only [if_neg hz]
      rw [dispatch_ofMode _ _ _
        (WriteData_value _ _ _ _ _ _ _ (getD_ne_pending write_body write_number h))]
      split
      · rfl
      · exact ReadFromBlobSteps_eq callback_ entry_ write_body h rest _ _ _ _

theorem PutDidWriteHeadersSteps_eq (w : Collaborators) (put_context : PutContext)
    (expected_bytes rv : Int) (o : Outcomes) (modes : List Bool)
    (h : ∀ v ∈ o.write_body, v ≠ some net.ERR_IO_PENDING) :
    PutDidWriteHeadersSteps w put_context expected_bytes rv o modes =
      [PutDidWriteHeaders w put_context expected_bytes rv o] := by
  unfold PutDidWriteHeadersSteps PutDidWriteHeaders
  split
  · rfl
  · split
    · rfl
    · simp only
      rw [ReadFromBlobSteps_eq _ _ _ h]

theorem PutDidCreateEntrySteps_eq (pb : MetadataCodec) (w : Collaborators)
    (put_context : PutContext) (rv : Int) (o : Outcomes) (modes : List Bool)
    (h : o.NoPendingValue) :
    PutDidCreateEntrySteps pb w put_context rv o modes =
      [PutDidCreateEntry pb w put_context rv o] := by
  unfold PutDidCreateEntrySteps PutDidCreateEntry
  split
  · rfl
  · cases pb.SerializeToString (putHeaders put_context.request put_context.response) with
    | none => rfl
    | some serialized =>
      simp only
      rw [dispatch_ofMode _ _ _ (WriteData_value _ _ _ _ _ _ _ h.1),
        PutDidWriteHeadersSteps_eq _ _ _ _ _ _ h.2.1]

theorem PutImplSteps_eq (pb : MetadataCodec) (c : ServiceWorkerCache)
    (request : ServiceWorkerFetchRequest) (response : ServiceWorkerResponse)
    (blob_data_handle : Option BlobDataHandle) (o : Outcomes) (modes : List Bool)
    (h : o.NoPendingValue) :
    PutImplSteps pb c request response blob_data_handle o modes =
      [PutImpl pb c request response blob_data_handle o] := by
  unfold PutImplSteps PutImpl
  cases c.backend_ with
  | none => rfl
  | some backend =>
    have hok : net.OK ≠ net.ERR_IO_PENDING := by decide
    have hfail : ∀ failure : CreateFailure, failure.rv ≠ net.ERR_IO_PENDING := by
      intro failure
      cases failure <;> decide
    cases o.create_entry with
    | none =>
      simp only
      rw [dispatch_ofMode _ _ _ hok, PutDidCreateEntrySteps_eq _ _ _ _ _ _ h]
      rfl
    | some failure =>
      simp only
      rw [dispatch_ofMode _ _ _ (hfail failure), PutDidCreateEntrySteps_eq _ _ _ _ _ _ h]
      rfl

theorem MatchDidReadResponseBodyDataSteps_eq (blob_storage : Option BlobStorageContext)
    (entry : Entry) (o : Outcomes) (response : ServiceWorkerResponse)
    (h : ∀ v ∈ o.read_body, v ≠ some net.ERR_IO_PENDING) :
    ∀ (fuel : Nat) (response_context : ResponseReadContext) (read_number : Nat) (buffer : Bytes)
      (rv : Int) (modes : List Bool),
      MatchDidReadResponseBodyDataSteps blob_storage entry o response fuel response_context
          read_number buffer rv modes =
        [MatchDidReadResponseBodyData fuel blob_storage entry o response response_context
          read_number buffer rv]
  | 0, _, _, _, _, _ => rfl
  | fuel + 1, response_context, read_number, buffer, rv, modes => by
    unfold MatchDidReadResponseBodyDataSteps MatchDidReadResponseBodyData
    split
    · rfl
    · split
      · rfl
      · simp only
        rw [dispatch_ofMode _ _ _ (readBody_value _ _ _ _ h)]
        exact MatchDidReadResponseBodyDataSteps_eq blob_storage entry o response h fuel _ _ _ _ _

theorem MatchDidReadHeaderDataSteps_eq (blob_storage : Option BlobStorageContext)
    (request : ServiceWorkerFetchRequest) (entry : Entry) (o : Outcomes)
    (headers : Option ServiceWorkerRequestResponseHeaders) (modes : List Bool)
    (h : ∀ v ∈ o.read_body, v ≠ some net.ERR_IO_PENDING) :
    MatchDidReadHeaderDataSteps blob_storage request entry o headers modes =
      [MatchDidReadHeaderData blob_storage request entry o headers] := by
  unfold MatchDidReadHeaderDataSteps MatchDidReadHeaderData
  cases headers with
  | none => rfl
  | some headers =>
    simp only
    split
    · rfl
    · split
      · rfl
      · split
        · rfl
        · rw [dispatch_ofMode _ _ _ (readBody_value _ _ _ _ h)]
          exact MatchDidReadResponseBodyDataSteps_eq blob_storage entry o _ h _ _ _ _ _ _

theorem MatchDidOpenEntrySteps_eq (pb : MetadataCodec) (blob_storage : Option BlobStorageContext)
    (request : ServiceWorkerFetchRequest) (entryptr : Option Entry) (rv : Int) (o : Outcomes)
    (modes : List Bool) (h : o.NoPendingValue) :
    MatchDidOpenEntrySteps pb blob_storage request entryptr rv o modes =
      [MatchDidOpenEntry pb blob_storage request entryptr rv o] := by
  unfold MatchDidOpenEntrySteps MatchDidOpenEntry
  split
  · rfl
  · cases entryptr with
    | none => rfl
    | some entry =>
      simp only
      rw [ReadHeadersSteps_eq _ _ _ _ _ (getD_ne_pending o.read_headers 0 h.2.2.1),
        MatchDidReadHeaderDataSteps_eq _ _ _ _ _ _ h.2.2.2.1]

theorem MatchReadySteps_eq (pb : MetadataCodec) (c : ServiceWorkerCache)
    (request : ServiceWorkerFetchRequest) (o : Outcomes) (modes : List Bool)
    (h : o.NoPendingValue) :
    MatchReadySteps pb c request o modes = [MatchReady pb c request o] := by
  unfold MatchReadySteps MatchReady
  cases c.backend_ with
  | none => rfl
  | some backend =>
    simp only
    rw [dispatch_ofMode _ _ _ (openEntry_value backend request.url o),
      MatchDidOpenEntrySteps_eq _ _ _ _ _ _ _ h]
    rfl

theorem DeleteReadySteps_eq (c : ServiceWorkerCache) (request : ServiceWorkerFetchRequest)
    (o : Outcomes) (modes : List Bool) :
    DeleteReadySteps c request o modes = [DeleteReady c request o] := by
  unfold DeleteReadySteps DeleteReady
  cases c.backend_ with
  | none => rfl
  | some backend =>
    simp only
    rw [dispatch_ofMode_one _ _ _ (openEntry_value backend request.url o)]

theorem KeysProcessNextEntrySteps_eq (pb : MetadataCodec) (o : Outcomes)
    (h : ∀ v ∈ o.read_headers, v ≠ some net.ERR_IO_PENDING) :
    ∀ (entries : List Entry) (backend : Option Backend)
      (out_keys : List ServiceWorkerFetchRequest) (index : Nat) (modes : List Bool),
      KeysProcessNextEntrySteps pb o backend out_keys index entries modes =
        [KeysProcessNextEntry pb o backend out_keys index entries]
  | [], _, _, _, _ => rfl
  | entry :: rest, backend, out_keys, index, modes => by
    unfold KeysProcessNextEntrySteps KeysProcessNextEntry
    rw [ReadHeadersSteps_eq _ _ _ _ _ (getD_ne_pending o.read_headers index h)]
    exact KeysProcessNextEntrySteps_eq pb o h rest _ _ _ _

theorem KeysDidOpenNextEntrySteps_eq (pb : MetadataCodec) (o : Outcomes)
    (h : ∀ v ∈ o.read_headers, v ≠ some net.ERR_IO_PENDING) :
    ∀ (steps : List IteratorStep), (∀ rv, IteratorStep.stop rv ∈ steps → rv ≠ net.ERR_IO_PENDING) →
      ∀ (c : ServiceWorkerCache) (entries : List Entry) (step : Nat) (modes : List Bool),
        KeysDidOpenNextEntrySteps pb o c entries step steps modes =
          [KeysDidOpenNextEntry pb o c entries step steps]
  | [], _, _, _, _, _ => rfl
  | completion :: later, hsteps, c, entries, step, modes => by
    have hlater : ∀ rv, IteratorStep.stop rv ∈ later → rv ≠ net.ERR_IO_PENDING :=
      fun rv hrv => hsteps rv (List.mem_cons_of_mem _ hrv)
    have hok : net.OK ≠ net.ERR_IO_PENDING := by decide
    have hstop : ∀ rv, completion = IteratorStep.stop rv → rv ≠ net.ERR_IO_PENDING :=
      fun rv hc => hsteps rv (by rw [hc]; exact List.mem_cons_self _ _)
    have ih := fun c1 es1 => KeysDidOpenNextEntrySteps_eq pb o h later hlater c1 es1 (step + 1)
      modes.tail
    clear hsteps
    unfold KeysDidOpenNextEntrySteps KeysDidOpenNextEntry
    cases completion with
    | entry e =>
      simp only
      rw [dispatch_ofMode _ _ _ hok]
      simp only [ih, KeysProcessNextEntrySteps_eq pb o h, List.map_cons, List.map_nil]
      split_ifs <;> rfl
    | stop rv =>
      simp only
      rw [dispatch_ofMode _ _ _ (hstop rv rfl)]
      simp only [ih, KeysProcessNextEntrySteps_eq pb o h, List.map_cons, List.map_nil]
      split_ifs <;> rfl

theorem iteratorSteps_values (b : Backend) (o : Outcomes)
    (h : ∀ p, o.iterator_error = some p → p.2 ≠ net.ERR_IO_PENDING) :
    ∀ rv, IteratorStep.stop rv ∈ iteratorSteps b o → rv ≠ net.ERR_IO_PENDING := by
  intro rv hrv
  have hall : ∀ rv1, IteratorStep.stop rv1 ∈
      b.entries.map IteratorStep.entry ++ [IteratorStep.stop net.ERR_FAILED] →
      rv1 ≠ net.ERR_IO_PENDING := by
    intro rv1 h1
    rcases List.mem_append.1 h1 with h2 | h2
    · obtain ⟨e, -, he⟩ := List.mem_map.1 h2
      cases he
    · rw [List.mem_singleton] at h2
      cases h2
      decide
  unfold iteratorSteps at hrv
  cases hi : o.iterator_error with
  | none =>
    rw [hi] at hrv
    exact hall rv hrv
  | some p =>
    rw [hi] at hrv
    obtain ⟨step, v⟩ := p
    simp only at hrv
    split at hrv
    · rcases List.mem_append.1 hrv with h2 | h2
      · exact hall rv (List.mem_of_mem_take h2)
      · rw [List.mem_singleton] at h2
        cases h2
        exact h _ hi
    · exact hall rv hrv

theorem KeysReadySteps_eq (pb : MetadataCodec) (c : ServiceWorkerCache) (o : Outcomes)
    (modes : List Bool) (h : o.NoPendingValue) :
    KeysReadySteps pb c o modes = [KeysReady pb c o] := by
  unfold KeysReadySteps KeysReady
  cases c.backend_ with
  | none => rfl
  | some backend =>
    exact KeysDidOpenNextEntrySteps_eq pb o h.2.2.1 _ (iteratorSteps_values backend o h.2.2.2.2)
      _ _ _ _

theorem runSteps_eq (pb : MetadataCodec) (c : ServiceWorkerCache) (closure : Closure)
    (modes : List Bool) (h : closure.outcomes.NoPendingValue) :
    closure.runSteps pb c modes = [closure.runDirect pb c] := by
  cases closure with
  | PutImpl request response hdl o => exact PutImplSteps_eq pb c request response hdl o modes h
  | Match request o => exact MatchReadySteps_eq pb c request o modes h
  | Delete request o => exact DeleteReadySteps_eq c request o modes
  | Keys o => exact KeysReadySteps_eq pb c o modes h

/-- C26: for every cache and every Put, Match, Delete or Keys run past the
init gate whose store steps complete with completion values (none is
`net::ERR_IO_PENDING`): run step by step, each store step a call that
returns its value at once or a call that returns `net::ERR_IO_PENDING` and
delivers the same value through its completion callback later, the
operation ends in one way, whichever of its steps are pending; this is the
way in which it ends when every step returns its value at once, and it
leaves the cache, with its store, and the runs of the result callback of
the operation run at once; the result callback runs exactly once (a Keys
whose enumeration errors are negative); on an initialized cache a call of
the operation is that run; and a backend creation that completes later
leaves the same cache and runs the same callbacks as one that completes at
once. -/
theorem store_steps_uniform (pb : MetadataCodec) (c : ServiceWorkerCache) (closure : Closure)
    (modes : List Bool) (hvalues : closure.outcomes.NoPendingValue) :
    closure.runSteps pb c modes = closure.runSteps pb c [] ∧
      closure.runSteps pb c modes = [closure.runDirect pb c] ∧
      (closure.Completes →
        ∃ run, closure.runSteps pb c modes = [((closure.runDirect pb c).1, [run])]) ∧
      (∀ event : Event, c.initialized_ = true →
        event.closure c.blob_storage_context_ = some closure →
        runEvent pb c event = closure.runDirect pb c) ∧
      (c.init_callbacks_ = [] →
        (Init pb c closure .pending).2 = [] ∧
          (∀ backend,
            CreateBackendDidCreate pb (Init pb c closure .pending).1 (some backend) net.OK =
              Init pb c closure (.created backend)) ∧
          ∀ rv, CreateBackendDidCreate pb (Init pb c closure .pending).1 none rv =
            Init pb c closure (.failed rv)) := by
  refine ⟨?_, runSteps_eq pb c closure modes hvalues, ?_,
    fun event hinit hcl => runEvent_bypass pb c event closure hinit hcl,
    fun hqueue => Init_creation_modes pb c closure hqueue⟩
  · rw [runSteps_eq pb c closure modes hvalues, runSteps_eq pb c closure [] hvalues]
  · intro hcomp
    obtain ⟨run, hrun⟩ := runDirect_one pb c closure hcomp
    refine ⟨run, ?_⟩
    rw [runSteps_eq pb c closure modes hvalues, ← hrun]

/-- An instance of C26: a Put of "hello" whose three store steps, the
creation of the entry, the write of the metadata and the write of the body,
are all pending stores the entry and reports OK, once. -/
theorem store_steps_uniform_witness :
    (Closure.runSteps (sample.codec 1000) sample.cache
        (.PutImpl (sample.request []) (sample.response [] "blob-1")
          (some ⟨"blob-1", [104, 101, 108, 108, 111]⟩) {})
        [true, true, true]).map (fun r => (r.1.backend_, r.2)) =
      [(some ⟨[sample.storedEntry]⟩,
        [.response ⟨.ErrorTypeOK, some (sample.response [] "blob-1"),
          some ⟨"blob-1", [104, 101, 108, 108, 111]⟩⟩])] :=
  (congrArg (List.map (fun r => (r.1.backend_, r.2)))
    (store_steps_uniform (sample.codec 1000) sample.cache
      (.PutImpl (sample.request []) (sample.response [] "blob-1")
        (some ⟨"blob-1", [104, 101, 108, 108, 111]⟩) {})
      [true, true, true]
      (by simp [Outcomes.NoPendingValue, Closure.outcomes])).2.1).trans (by decide)

end content
